import Mathlib

/-!
# RevBayes DAG node protocol: a shallow embedding

The model DAG of `DAGNode.cpp` and `StochasticNode.cpp`, embedded as pure
functions on an explicit heap, together with the density shortcuts of
`Dist_exp.cpp`, the `[]` method and the reference counting of
`RlAbstractHomologousDiscreteCharacterData.cpp`, and the checks and the merge
loops of `CharacterDependentCladoBirthDeathProcess.cpp`.

* A pointer to a DAG node is a `NodeId` (an address); the heap `DAG V` maps
  addresses to node objects.  `V` is the type of the values held by the nodes
  (`RbObject`); `value->clone()` is the identity on `V`, and two `V`s held by
  different nodes are independent copies by construction.
* `std::set<T*>` is a list used as a set (`setInsert`, `setErase`).
* A C++ `throw` is `Except.error (Failure.exception what state)`, where
  `state` is the heap at the moment of the throw.
* `double` is an arbitrary type `R` with the arithmetic the code uses; the
  theorems about formulas instantiate it with the real numbers.
-/

namespace RevBayes

/-! ## Data model -/

/-- Address of a DAG node (`DAGNode*`). -/
abbrev NodeId := Nat

/-- Insertion into a `std::set` of node pointers: nothing happens when the
element is already there. -/
def setInsert (x : NodeId) (s : List NodeId) : List NodeId :=
  if x ∈ s then s else x :: s

/-- Removal from a `std::set` of node pointers (`erase`). -/
def setErase (x : NodeId) (s : List NodeId) : List NodeId :=
  s.filter (fun y => y != x)

/-- Dynamic type of a DAG node.  `DeterministicNode` and `StochasticNode` are
the two `VariableNode` classes. -/
inductive DAGType where
  | ConstantNode
  | DeterministicNode
  | StochasticNode
  deriving DecidableEq, Repr

/-- The enum `StochasticNode::VariableType` of `StochasticNode.h`. -/
inductive VariableType where
  | INSTANTIATED
  | SUMMED_OVER
  | ELIMINATED
  deriving DecidableEq, Repr

/-- The member-variable table of a distribution (`VariableTable`): each
parameter name with the DAG node it refers to (`getReference()`), `none` for a
NULL reference. -/
abbrev VariableTable := List (String × Option NodeId)

/-- One DAG node object.  The fields of `DAGNode` (`children`, `parents`,
`refCount`), of `VariableNode` (`touched`, `factorRoot`) and of
`StochasticNode` (`clamped`, `distribution`, `value`, `storedValue`, `type`,
`needsProbabilityRecalculation`, `needsLikelihoodRecalculation`).  The
distribution is held as its member-variable table; for a deterministic node
the same field holds the table of the arguments of its function, and for a
constant node it is empty.  The cache `lnProb` /
`storedLnProb` declared in `StochasticNode.h` is neither read nor written by
any function of `StochasticNode.cpp`, where the log-probability is computed by
`calculateLnProbability()`; it is not a field here. -/
structure DAGNode (V : Type) where
  dagType : DAGType
  children : List NodeId
  parents : List NodeId
  refCount : Nat
  touched : Bool
  factorRoot : Option NodeId
  clamped : Bool
  distribution : VariableTable
  value : V
  storedValue : Option V
  type : VariableType
  needsProbabilityRecalculation : Bool
  needsLikelihoodRecalculation : Bool
  deriving DecidableEq, Repr

/-- The heap: the object stored at each address, `none` where an object has
been deleted. Addresses at or beyond the length of the list are unallocated. -/
abbrev DAG (V : Type) := List (Option (DAGNode V))

/-- Dereference a node pointer. -/
def DAG.node {V : Type} (g : DAG V) (n : NodeId) : Option (DAGNode V) :=
  g[n]?.join

/-- Overwrite the object at address `n`. -/
def DAG.store {V : Type} (g : DAG V) (n : NodeId) (nd : DAGNode V) : DAG V :=
  g.set n (some nd)

/-- Apply a field update to the object at address `n` (nothing happens when
there is no object at `n`). -/
def DAG.modify {V : Type} (g : DAG V) (n : NodeId) (f : DAGNode V → DAGNode V) : DAG V :=
  match g.node n with
  | some nd => g.store n (f nd)
  | none => g

/-- The operator `new`: the object is placed at the first unallocated
address. -/
def DAG.alloc {V : Type} (g : DAG V) (nd : DAGNode V) : NodeId × DAG V :=
  (g.length, g ++ [some nd])

/-- The operator `delete`, once the destructor has run: the address holds no
object any more. -/
def DAG.free {V : Type} (g : DAG V) (n : NodeId) : DAG V :=
  g.set n none

/-- Children set of the node at `n` (empty when there is no node). -/
def DAG.children {V : Type} (g : DAG V) (n : NodeId) : List NodeId :=
  match g.node n with
  | some nd => nd.children
  | none => []

/-- Parents set of the node at `n` (empty when there is no node). -/
def DAG.parents {V : Type} (g : DAG V) (n : NodeId) : List NodeId :=
  match g.node n with
  | some nd => nd.parents
  | none => []

/-- How a call can fail: a C++ exception (with the heap as the throw leaves
it), a dereference of a pointer to no object of the expected class, or the
recursion budget of the model running out. -/
inductive Failure (V : Type) where
  | exception (what : String) (state : DAG V)
  | badPointer
  | outOfFuel

/-- Result of a call that may fail. -/
abbrev Result (V : Type) (α : Type) := Except (Failure V) α

/-- A `for` loop over a set of node pointers whose body may fail. -/
def forEach {E S : Type} (body : NodeId → S → Except E S) : List NodeId → S → Except E S
  | [], s => Except.ok s
  | x :: xs, s =>
    match body x s with
    | Except.ok s1 => forEach body xs s1
    | Except.error e => Except.error e

/-! ## Virtual functions whose bodies are not part of the sources -/

/-- Modelled from the spec: the body of `touchMe` of a variable node (declared
in `StochasticNode.h`, body not in the sources), acting on the node object.  A
stochastic node marks that its probability must be recomputed; a node that is
not yet touched snapshots its current value into the stored slot and becomes
touched; a node that is already touched is not snapshotted again.  A constant
node is never touched. -/
def touchMeObject {V : Type} (nd : DAGNode V) : DAGNode V :=
  match nd.dagType with
  | DAGType.ConstantNode => nd
  | DAGType.DeterministicNode =>
    if nd.touched then nd else { nd with touched := true, storedValue := some nd.value }
  | DAGType.StochasticNode =>
    if nd.touched then { nd with needsProbabilityRecalculation := true }
    else { nd with touched := true, storedValue := some nd.value,
                   needsProbabilityRecalculation := true }

/-- The virtual call `n->touchMe()`. -/
def touchMe {V : Type} (n : NodeId) (g : DAG V) : DAG V :=
  g.modify n touchMeObject

/-- Modelled from the spec: the body of `keepMe` of a variable node (declared
in `StochasticNode.h`, body not in the sources): the stored snapshot is
discarded and the touched flag is cleared. -/
def keepMeObject {V : Type} (nd : DAGNode V) : DAGNode V :=
  match nd.dagType with
  | DAGType.ConstantNode => nd
  | _ => { nd with touched := false, storedValue := none }

/-- The virtual call `n->keepMe()`. -/
def keepMe {V : Type} (n : NodeId) (g : DAG V) : DAG V :=
  g.modify n keepMeObject

/-- Modelled from the spec: the body of `restoreMe` of a variable node
(declared in `StochasticNode.h`, body not in the sources): a touched node
replaces its current value with the stored snapshot; the touched flag is
cleared. -/
def restoreMeObject {V : Type} (nd : DAGNode V) : DAGNode V :=
  match nd.dagType with
  | DAGType.ConstantNode => nd
  | _ =>
    if nd.touched then
      { nd with touched := false, value := nd.storedValue.getD nd.value }
    else nd

/-- The virtual call `n->restoreMe()`. -/
def restoreMe {V : Type} (n : NodeId) (g : DAG V) : DAG V :=
  g.modify n restoreMeObject

/-- Modelled from the spec: `VariableNode::removeParentNode`, called by the
`DAGNode` destructor and not part of the sources; the node drops the edge back
to the parent `p`. -/
def removeParentNode {V : Type} (this p : NodeId) (g : DAG V) : DAG V :=
  g.modify this (fun nd => { nd with parents := setErase p nd.parents })

/-- Modelled from the spec: `Distribution::setVariable(name, node)`, whose
source is not available: the member variable called `name` is re-wired to
refer to `node`. -/
def setVariable (name : String) (node : Option NodeId) (table : VariableTable) :
    VariableTable :=
  table.map (fun entry => if entry.1 = name then (entry.1, node) else entry)

/-- Modelled from the spec: `numRefs()`, tested by the destructor of
`StochasticNode` and not part of the sources: the count of holders that keep
the node alive. -/
def numRefs {V : Type} (nd : DAGNode V) : Nat := nd.refCount

/-- Modelled from the spec: `isEliminated()`, called by `addChildNode`; it is
declared in `StochasticNode.h` beside the enum `VariableType`, has no body in
the sources and is not described further; it is taken to test for the type
`ELIMINATED`. -/
def isEliminated {V : Type} (nd : DAGNode V) : Bool :=
  nd.type == VariableType.ELIMINATED

/-! ## DAGNode.cpp -/

/-- Is the node at `n` a `VariableNode` (`isDAGType(VariableNode_name)`)? -/
def isVariableNode {V : Type} (g : DAG V) (n : NodeId) : Bool :=
  match g.node n with
  | some nd => nd.dagType != DAGType.ConstantNode
  | none => false

/-- Transcription of `DAGNode::addChildNode`: `children.insert(c)`; when this
node is eliminated the child inherits the factor root and this node is told
that its likelihoods need updates.  There is no cycle check and the parents
set of `c` is not written. -/
def DAGNode.addChildNode {V : Type} (this c : NodeId) (g : DAG V) : DAG V :=
  match g.node this with
  | none => g
  | some nd =>
    let g1 := g.store this { nd with children := setInsert c nd.children }
    if isEliminated nd then
      let g2 := g1.modify c (fun cn => { cn with factorRoot := nd.factorRoot })
      g2.modify this (fun t => { t with needsLikelihoodRecalculation := true })
    else g1

/-- Transcription of `DAGNode::removeChildNode`: erase `c` when it is a
child. -/
def DAGNode.removeChildNode {V : Type} (this c : NodeId) (g : DAG V) : DAG V :=
  g.modify this (fun nd =>
    if c ∈ nd.children then { nd with children := setErase c nd.children } else nd)

/-- Transcription of `DAGNode::incrementReferenceCount` on the `size_t`
counter. -/
def DAGNode.incrementReferenceCount {V : Type} (this : NodeId) (g : DAG V) : DAG V :=
  g.modify this (fun nd => { nd with refCount := (nd.refCount + 1) % 2 ^ 64 })

/-- Transcription of `DAGNode::decrementReferenceCount` on the `size_t`
counter: returns the new count. -/
def DAGNode.decrementReferenceCount {V : Type} (this : NodeId) (g : DAG V) :
    Option (Nat × DAG V) :=
  match g.node this with
  | none => none
  | some nd =>
    let r := (nd.refCount + 2 ^ 64 - 1) % 2 ^ 64
    some (r, g.store this { nd with refCount := r })

/-- The loop of `DAGNode::isParentInDAG` over the parents set; `recurse` is
the recursive call `(*i)->isParentInDAG(x, done)`. -/
def DAGNode.isParentInDAG.loop (recurse : NodeId → Option Bool) (done : List NodeId) :
    List NodeId → Option Bool
  | [] => some false
  | i :: rest =>
    if i ∈ done then DAGNode.isParentInDAG.loop recurse done rest
    else
      match recurse i with
      | none => none
      | some true => some true
      | some false => DAGNode.isParentInDAG.loop recurse done rest

/-- Transcription of `DAGNode::isParentInDAG`: for every parent not in `done`,
recurse; return true as soon as a recursive call does, false at the end of the
loop.  The list `done` is never extended and `x` is never compared with
anything.  The first argument bounds the depth of the recursion; `none` is
returned when it is exhausted. -/
def DAGNode.isParentInDAG {V : Type} (g : DAG V) (x : NodeId) (done : List NodeId) :
    Nat → NodeId → Option Bool
  | 0, _ => none
  | fuel + 1, this =>
    DAGNode.isParentInDAG.loop (DAGNode.isParentInDAG g x done fuel) done (g.parents this)

/-- Transcription of `DAGNode::touchAffected`: call `touchMe` on every
child. -/
def DAGNode.touchAffected {V : Type} (this : NodeId) (g : DAG V) : DAG V :=
  (g.children this).foldl (fun acc c => touchMe c acc) g

/-- Transcription of `DAGNode::keepAffected`: call `keepMe` on every child. -/
def DAGNode.keepAffected {V : Type} (this : NodeId) (g : DAG V) : DAG V :=
  (g.children this).foldl (fun acc c => keepMe c acc) g

/-- Transcription of `DAGNode::restoreAffected`: call `restoreMe` on every
child. -/
def DAGNode.restoreAffected {V : Type} (this : NodeId) (g : DAG V) : DAG V :=
  (g.children this).foldl (fun acc c => restoreMe c acc) g

/-- Transcription of `DAGNode::touch`: `touchMe()` then `touchAffected()`. -/
def DAGNode.touch {V : Type} (this : NodeId) (g : DAG V) : DAG V :=
  DAGNode.touchAffected this (touchMe this g)

/-- Transcription of `DAGNode::keep`: `keepMe()` then `keepAffected()`. -/
def DAGNode.keep {V : Type} (this : NodeId) (g : DAG V) : DAG V :=
  DAGNode.keepAffected this (keepMe this g)

/-- Transcription of `DAGNode::restore`: `restoreMe()` then
`restoreAffected()`. -/
def DAGNode.restore {V : Type} (this : NodeId) (g : DAG V) : DAG V :=
  DAGNode.restoreAffected this (restoreMe this g)

/-- Transcription of the destructor `DAGNode::~DAGNode`: a non-zero reference
count is reported on `std::cerr` and nothing else happens for it; every child
is told to remove this node from its parents. -/
def DAGNode.destructor {V : Type} (this : NodeId) (g : DAG V) : DAG V :=
  (g.children this).foldl (fun acc c => removeParentNode c this acc) g

/-! ## StochasticNode.cpp: overrides reached through a `VariableNode*` -/

/-- Transcription of `StochasticNode::keepAffected`: empty, the recursion
stops here. -/
def StochasticNode.keepAffected {V : Type} (_this : NodeId) (g : DAG V) : DAG V := g

/-- Transcription of `StochasticNode::restoreAffected`: empty, the recursion
stops here. -/
def StochasticNode.restoreAffected {V : Type} (_this : NodeId) (g : DAG V) : DAG V := g

/-- The virtual call `c->keepAffected()`: the override of `StochasticNode` for
a stochastic node, the `DAGNode` version otherwise. -/
def callKeepAffected {V : Type} (c : NodeId) (g : DAG V) : DAG V :=
  match g.node c with
  | none => g
  | some cn =>
    if cn.dagType = DAGType.StochasticNode then StochasticNode.keepAffected c g
    else DAGNode.keepAffected c g

/-- The virtual call `c->restoreAffected()`: the override of `StochasticNode`
for a stochastic node, the `DAGNode` version otherwise. -/
def callRestoreAffected {V : Type} (c : NodeId) (g : DAG V) : DAG V :=
  match g.node c with
  | none => g
  | some cn =>
    if cn.dagType = DAGType.StochasticNode then StochasticNode.restoreAffected c g
    else DAGNode.restoreAffected c g

/-- The virtual call `c->touchAffected()` that `clamp`, `setValue` and
`swapParentNode` make on each child.  `StochasticNode.cpp` defines no
`touchAffected`, and the header that would say which class overrides it is not
among the sources: the call is taken to run `DAGNode::touchAffected`, the only
body of `touchAffected` in the sources.  This is an assumption of the model,
not a transcription; the claims settled with these operations concern the
node the operation is called on and the edges of the graph. -/
def callTouchAffected {V : Type} (c : NodeId) (g : DAG V) : DAG V :=
  DAGNode.touchAffected c g

/-- Transcription of `StochasticNode::getAffected`: insert this node, stop the
recursion here. -/
def StochasticNode.getAffected (this : NodeId) (affected : List NodeId) : List NodeId :=
  setInsert this affected

/-- Modelled from the spec: `getAffected` of a `DeterministicNode`, whose
source is not available, passes the recursion through to its own children
without reporting itself.  This is the virtual call `c->getAffected(affected)`:
for a stochastic node it runs `StochasticNode::getAffected`, a constant node
is never a child.  The first argument bounds the depth of the recursion. -/
def callGetAffected {V : Type} (g : DAG V) :
    Nat → NodeId → List NodeId → Result V (List NodeId)
  | 0, _, _ => Except.error Failure.outOfFuel
  | fuel + 1, c, affected =>
    match g.node c with
    | none => Except.ok affected
    | some cn =>
      match cn.dagType with
      | DAGType.StochasticNode => Except.ok (StochasticNode.getAffected c affected)
      | DAGType.DeterministicNode => forEach (callGetAffected g fuel) cn.children affected
      | DAGType.ConstantNode => Except.ok affected

/-- Transcription of `DAGNode::getAffectedNodes`: collect the affected nodes
of all children. -/
def DAGNode.getAffectedNodes {V : Type} (g : DAG V) (fuel : Nat) (this : NodeId)
    (affected : List NodeId) : Result V (List NodeId) :=
  forEach (callGetAffected g fuel) (g.children this) affected

/-! ## Distributions -/

/-- What a distribution sees of one of its member variables: the object
returned by `getValue()` and the one returned by `getStoredValue()` of the DAG
node the variable refers to (`none` for a NULL pointer). -/
structure Variable (V : Type) where
  value : Option V
  storedValue : Option V
  deriving DecidableEq, Repr

/-- The virtual functions of `Distribution` that `StochasticNode` calls.  The
arguments are the member variables as the distribution reads them and the
`RbObject*` arguments of the call (`none` for NULL); the result is `none` when
the call has no defined result. -/
structure Distribution (V R : Type) where
  lnPdf : List (String × Variable V) → Option V → Option R
  lnPriorRatio : List (String × Variable V) → Option V → Option V → Option R
  lnLikelihoodRatio : List (String × Variable V) → Option V → Option R

/-! ## StochasticNode.cpp -/

/-- The object at `this` when it is a `StochasticNode`. -/
def DAG.stochastic {V : Type} (g : DAG V) (this : NodeId) : Option (DAGNode V) :=
  match g.node this with
  | some nd => if nd.dagType = DAGType.StochasticNode then some nd else none
  | none => none

/-- Transcription of `StochasticNode::getStoredValue`: the value itself when
the node is not touched, the stored value otherwise. -/
def StochasticNode.getStoredValue {V : Type} (nd : DAGNode V) : Option V :=
  if !nd.touched then some nd.value else nd.storedValue

/-- The member variables of a distribution as it reads them in the heap `g`:
`getValue()` and `getStoredValue()` of every referenced node. -/
def getMembers {V : Type} (g : DAG V) (table : VariableTable) : List (String × Variable V) :=
  table.map (fun entry =>
    match entry.2.bind g.node with
    | some pn => (entry.1, { value := some pn.value,
                             storedValue := StochasticNode.getStoredValue pn })
    | none => (entry.1, { value := none, storedValue := none }))

/-- Transcription of `StochasticNode::areParentsTouched`: is some parent a
variable node that is touched? -/
def StochasticNode.areParentsTouched {V : Type} (g : DAG V) (nd : DAGNode V) : Bool :=
  nd.parents.any (fun i =>
    isVariableNode g i &&
      (match g.node i with
       | some pn => pn.touched
       | none => false))

/-- Transcription of `StochasticNode::calculateLnProbability`:
`distribution->lnPdf(value)`. -/
def StochasticNode.calculateLnProbability {V R : Type} (dist : Distribution V R)
    (g : DAG V) (this : NodeId) : Option R :=
  match g.stochastic this with
  | none => none
  | some nd => dist.lnPdf (getMembers g nd.distribution) (some nd.value)

/-- Transcription of `StochasticNode::getLnProbabilityRatio`: the four-way
case split on `isTouched()` and `areParentsTouched()` (the second test of the
source spells the call `areParentsTouced`; it is read as
`areParentsTouched`). -/
def StochasticNode.getLnProbabilityRatio {V R : Type} [Zero R] [Sub R]
    (dist : Distribution V R) (g : DAG V) (this : NodeId) : Option R :=
  match g.stochastic this with
  | none => none
  | some nd =>
    let members := getMembers g nd.distribution
    if !nd.touched && !StochasticNode.areParentsTouched g nd then
      some 0
    else if nd.touched && !StochasticNode.areParentsTouched g nd then
      dist.lnPriorRatio members (some nd.value) nd.storedValue
    else if !nd.touched && StochasticNode.areParentsTouched g nd then
      dist.lnLikelihoodRatio members (some nd.value)
    else
      match dist.lnPdf members (some nd.value), dist.lnPdf members nd.storedValue with
      | some a, some b => some (a - b)
      | _, _ => none

/-- Transcription of `StochasticNode::clamp`: the value becomes the observed
value, the stored value is deleted, `clamped = true`, `touched = false`, then
`touchAffected()` is called on every child. -/
def StochasticNode.clamp {V : Type} (this : NodeId) (observedVal : V) (g : DAG V) :
    Result V (DAG V) :=
  match g.stochastic this with
  | none => Except.error Failure.badPointer
  | some nd =>
    let g1 := g.store this
      { nd with value := observedVal, storedValue := none, clamped := true, touched := false }
    Except.ok (nd.children.foldl (fun acc c => callTouchAffected c acc) g1)

/-- Transcription of `StochasticNode::getValuePtr`: `touched = true`, then
every child reports its affected nodes into the collector; returns the value
pointer, the collector and the heap. -/
def StochasticNode.getValuePtr {V : Type} (fuel : Nat) (this : NodeId)
    (affected : List NodeId) (g : DAG V) : Result V (V × List NodeId × DAG V) :=
  match g.stochastic this with
  | none => Except.error Failure.badPointer
  | some nd =>
    let g1 := g.store this { nd with touched := true }
    match forEach (callGetAffected g1 fuel) nd.children affected with
    | Except.error e => Except.error e
    | Except.ok affected1 => Except.ok (nd.value, affected1, g1)

/-- A move assigning a new value through the pointer that `getValuePtr`
returned. -/
def writeThroughValuePtr {V : Type} (this : NodeId) (newValue : V) (g : DAG V) : DAG V :=
  g.modify this (fun nd => { nd with value := newValue })

/-- Transcription of `StochasticNode::keep`: a touched node replaces the
stored value by a clone of the value; `touched = false`; `keepAffected()` is
called on every child. -/
def StochasticNode.keep {V : Type} (this : NodeId) (g : DAG V) : Result V (DAG V) :=
  match g.stochastic this with
  | none => Except.error Failure.badPointer
  | some nd =>
    let nd1 := if nd.touched then { nd with storedValue := some nd.value } else nd
    let g1 := g.store this { nd1 with touched := false }
    Except.ok (nd.children.foldl (fun acc c => callKeepAffected c acc) g1)

/-- Transcription of `StochasticNode::restore`: a touched node replaces the
value by a clone of the stored value (a NULL stored value cannot be cloned);
`touched = false`; `restoreAffected()` is called on every child. -/
def StochasticNode.restore {V : Type} (this : NodeId) (g : DAG V) : Result V (DAG V) :=
  match g.stochastic this with
  | none => Except.error Failure.badPointer
  | some nd =>
    let finish := fun (nd1 : DAGNode V) =>
      let g1 := g.store this { nd1 with touched := false }
      nd.children.foldl (fun acc c => callRestoreAffected c acc) g1
    if nd.touched then
      match nd.storedValue with
      | none => Except.error Failure.badPointer
      | some sv => Except.ok (finish { nd with value := sv })
    else Except.ok (finish nd)

/-- Transcription of `StochasticNode::setValue`: throws on a clamped node;
otherwise the value becomes `val`, the stored value a clone of it, and
`touchAffected()` is called on every child. -/
def StochasticNode.setValue {V : Type} (this : NodeId) (val : V) (g : DAG V) :
    Result V (DAG V) :=
  match g.stochastic this with
  | none => Except.error Failure.badPointer
  | some nd =>
    if nd.clamped then
      Except.error (Failure.exception "Cannot set value of clamped node" g)
    else
      let g1 := g.store this { nd with value := val, storedValue := some val }
      Except.ok (nd.children.foldl (fun acc c => callTouchAffected c acc) g1)

/-- Transcription of `StochasticNode::unclamp`: `clamped = false` and the
stored value becomes a clone of the value. -/
def StochasticNode.unclamp {V : Type} (this : NodeId) (g : DAG V) : Result V (DAG V) :=
  match g.stochastic this with
  | none => Except.error Failure.badPointer
  | some nd =>
    Except.ok (g.store this { nd with clamped := false, storedValue := some nd.value })

/-! ## StochasticNode.cpp: construction, re-parenting, cloning, destruction -/

/-- The object that the constructor `StochasticNode(const std::string& type)`
and the constructor of `DAGNode` leave behind, with the distribution and the
value state filled in: no edges, reference count 0.  The constructor of
`VariableNode` is not in the sources; a new node is taken to be untouched,
with no factor root, instantiated and with no recalculation pending. -/
def StochasticNode.pristine {V : Type} (distribution : VariableTable) (value : V)
    (storedValue : Option V) (clamped : Bool) : DAGNode V where
  dagType := DAGType.StochasticNode
  children := []
  parents := []
  refCount := 0
  touched := false
  factorRoot := none
  clamped := clamped
  distribution := distribution
  value := value
  storedValue := storedValue
  type := VariableType.INSTANTIATED
  needsProbabilityRecalculation := false
  needsLikelihoodRecalculation := false

/-- The cycle check of the constructor `StochasticNode(Distribution*)`: for
every parameter, `done.clear()` and then
`getReference()->isParentInDAG(this, done)`; the result is whether the
constructor throws.  A NULL or dangling reference cannot be called. -/
def StochasticNode.checkCycles {V : Type} (g : DAG V) (fuel : Nat) (this : NodeId) :
    VariableTable → Result V Bool
  | [] => Except.ok false
  | (_, none) :: _ => Except.error Failure.badPointer
  | (_, some p) :: rest =>
    match g.node p with
    | none => Except.error Failure.badPointer
    | some _ =>
      match DAGNode.isParentInDAG g this [] fuel p with
      | none => Except.error Failure.outOfFuel
      | some true => Except.ok true
      | some false => StochasticNode.checkCycles g fuel this rest

/-- The second loop of the constructors: `parents.insert(ref)` and
`ref->addChildNode(this)` for every parameter. -/
def StochasticNode.setParents {V : Type} (this : NodeId) : VariableTable → DAG V → DAG V
  | [], g => g
  | (_, none) :: rest, g => StochasticNode.setParents this rest g
  | (_, some p) :: rest, g =>
    let g1 := g.modify this (fun nd => { nd with parents := setInsert p nd.parents })
    StochasticNode.setParents this rest (DAGNode.addChildNode p this g1)

/-- Transcription of the constructor `StochasticNode(Distribution* dist)`.
`dist` is the member-variable table of the distribution and `rv` the value
that `distribution->rv()` draws.  The new object is placed at a fresh address;
when the constructor throws the object does not come into existence.  Returns
the address of the new node. -/
def StochasticNode.construct {V : Type} (fuel : Nat) (dist : VariableTable) (rv : V)
    (g : DAG V) : Result V (NodeId × DAG V) :=
  let (this, g1) := g.alloc (StochasticNode.pristine dist rv (some rv) false)
  match StochasticNode.checkCycles g1 fuel this dist with
  | Except.error e => Except.error e
  | Except.ok true => Except.error (Failure.exception "Invalid assignment: Cycles in the DAG" g)
  | Except.ok false => Except.ok (this, StochasticNode.setParents this dist g1)

/-- The search loop of `swapParentNode`: the name of the first member variable
whose reference is `oldNode`. -/
def findParameter (oldNode : NodeId) : VariableTable → Option String
  | [] => none
  | (name, ref) :: rest => if ref = some oldNode then some name else findParameter oldNode rest

/-- Transcription of `StochasticNode::swapParentNode`.  `rv` is the value that
`distribution->rv()` draws when the node is not clamped. -/
def StochasticNode.swapParentNode {V : Type} (this oldNode newNode : NodeId) (rv : V)
    (g : DAG V) : Result V (DAG V) :=
  match g.stochastic this with
  | none => Except.error Failure.badPointer
  | some nd =>
    if oldNode ∉ nd.parents then
      Except.error (Failure.exception "Node is not a parent" g)
    else
      match g.node oldNode, g.node newNode with
      | some _, some _ =>
        let g1 := DAGNode.removeChildNode oldNode this g
        let g2 := DAGNode.addChildNode newNode this g1
        let g3 := g2.modify this (fun t =>
          { t with parents := setInsert newNode (setErase oldNode t.parents) })
        match findParameter oldNode nd.distribution with
        | none => Except.error (Failure.exception "Node is not a parameter" g3)
        | some name =>
          let g4 := g3.modify this (fun t =>
            { t with distribution := setVariable name (some newNode) t.distribution })
          let g5 := g4.modify this (fun t =>
            if t.clamped = false then { t with value := rv, storedValue := some rv } else t)
          Except.ok ((g5.children this).foldl (fun acc c => callTouchAffected c acc) g5)
      | _, _ => Except.error Failure.badPointer

/-- The map `newNodes` of `cloneDAG`, from original nodes to their clones. -/
abbrev NodeMap := List (NodeId × NodeId)

/-- The second loop of `StochasticNode::cloneDAG`: for every parameter of the
original, clone the referenced node (`recurse`), set the parameter of the copy
to the clone, insert the clone into the parents of the copy and add the copy
as a child of the clone. -/
def StochasticNode.cloneDAG.params {V : Type}
    (recurse : NodeId → NodeMap × DAG V → Result V (NodeId × (NodeMap × DAG V)))
    (copy : NodeId) : VariableTable → NodeMap × DAG V → Result V (NodeMap × DAG V)
  | [], s => Except.ok s
  | (_, none) :: _, _ => Except.error Failure.badPointer
  | (name, some p) :: rest, s =>
    match recurse p s with
    | Except.error e => Except.error e
    | Except.ok (theParamClone, (newNodes, g)) =>
      let g1 := g.modify copy (fun c =>
        { c with distribution := setVariable name (some theParamClone) c.distribution })
      let g2 := g1.modify copy (fun c =>
        { c with parents := setInsert theParamClone c.parents })
      let g3 := DAGNode.addChildNode theParamClone copy g2
      StochasticNode.cloneDAG.params recurse copy rest (newNodes, g3)

/-- The third loop of `StochasticNode::cloneDAG`: every child clones
itself. -/
def StochasticNode.cloneDAG.children {V : Type}
    (recurse : NodeId → NodeMap × DAG V → Result V (NodeId × (NodeMap × DAG V))) :
    List NodeId → NodeMap × DAG V → Result V (NodeMap × DAG V)
  | [], s => Except.ok s
  | c :: rest, s =>
    match recurse c s with
    | Except.error e => Except.error e
    | Except.ok (_, s1) => StochasticNode.cloneDAG.children recurse rest s1

/-- The object `copy` of `StochasticNode::cloneDAG` before its parameters are
wired: a pristine `StochasticNode` that has received a clone of the
distribution with every parameter reset to NULL, the clamped flag, a clone of
the value and, when the original has a stored value, a clone of the copied
value as stored value. -/
def StochasticNode.cloneDAG.copy {V : Type} (nd : DAGNode V) : DAGNode V :=
  StochasticNode.pristine
    (nd.distribution.map (fun entry => (entry.1, none)))
    nd.value
    (match nd.storedValue with
     | none => none
     | some _ => some nd.value)
    nd.clamped

/-- Modelled from the spec: `cloneDAG` of `ConstantNode` and of
`DeterministicNode`, which `StochasticNode::cloneDAG` reaches through the
virtual calls on its parameters and on its children and whose bodies are not
in the sources.  The spec (Whole-Graph Cloning) gives one algorithm for every
kind of node: the existing clone is returned on a repeat visit; otherwise the
clone is created with its parameters unset and entered into the map, it is
re-wired to the clones of its parents and registered as their child, and
values, stored values and clamped flags are copied by value.  This is the
object that the call creates: for a `StochasticNode` the object of the source,
for the two other classes a new node of the same class with the parameters
unset and the value, the stored value and the clamped flag of the original. -/
def DAGNode.cloneDAG.copy {V : Type} (nd : DAGNode V) : DAGNode V :=
  match nd.dagType with
  | DAGType.StochasticNode => StochasticNode.cloneDAG.copy nd
  | _ =>
    { StochasticNode.pristine (nd.distribution.map (fun entry => (entry.1, none)))
        nd.value nd.storedValue nd.clamped
      with dagType := nd.dagType }

/-- Transcription of `StochasticNode::cloneDAG`.  A node found in `newNodes`
returns its clone.  Otherwise a pristine copy is created and entered into the
map; it receives a clone of the distribution with every parameter reset to
NULL, the clamped flag, a clone of the value and, when the original has a
stored value, a clone of the copied value as stored value; then the
parameters are cloned and wired, then the children clone themselves.  The
recursive calls are the virtual calls `->cloneDAG(newNodes)`; on a node of
another class they run the same traversal with the object of
`DAGNode.cloneDAG.copy`, as modelled there from the spec.  The first argument
bounds the depth of the recursion. -/
def StochasticNode.cloneDAG {V : Type} :
    Nat → NodeId → NodeMap × DAG V → Result V (NodeId × (NodeMap × DAG V))
  | 0, _, _ => Except.error Failure.outOfFuel
  | fuel + 1, this, (newNodes, g) =>
    match newNodes.lookup this with
    | some c => Except.ok (c, (newNodes, g))
    | none =>
      match g.node this with
      | none => Except.error Failure.badPointer
      | some nd =>
        let (copy, g1) := g.alloc (DAGNode.cloneDAG.copy nd)
        match StochasticNode.cloneDAG.params (StochasticNode.cloneDAG fuel) copy
            nd.distribution ((this, copy) :: newNodes, g1) with
        | Except.error e => Except.error e
        | Except.ok s2 =>
          match StochasticNode.cloneDAG.children (StochasticNode.cloneDAG fuel)
              (s2.2.children this) s2 with
          | Except.error e => Except.error e
          | Except.ok s3 => Except.ok (copy, s3)

/-- Transcription of the destructor `StochasticNode::~StochasticNode`,
followed by the destructor of the base class and the release of the memory.
It throws when the node still has references; otherwise the node is removed
from the children of its parents and its parents set is cleared.  The effect
of `delete distribution` on other DAG nodes is outside the sources and is not
modelled.  When the body throws, C++ still destroys the base-class subobjects
of the object whose destruction has begun, so the destructor of `DAGNode` runs
while the exception unwinds: the exception carries the heap that this leaves.
The object itself stays at its address in that heap; whether its memory is
released when a destructor throws is not fixed by the language. -/
def StochasticNode.destructor {V : Type} (this : NodeId) (g : DAG V) : Result V (DAG V) :=
  match g.stochastic this with
  | none => Except.error Failure.badPointer
  | some nd =>
    if numRefs nd ≠ 0 then
      Except.error (Failure.exception "Cannot delete StochasticNode with references"
        (DAGNode.destructor this g))
    else
      let g1 := nd.parents.foldl (fun acc p => DAGNode.removeChildNode p this acc) g
      let g2 := g1.modify this (fun t => { t with parents := [] })
      Except.ok ((DAGNode.destructor this g2).free this)

/-- Transcription of the copy constructor `StochasticNode(const
StochasticNode& x)`: the distribution is cloned (its member variables refer to
the same nodes), every parameter becomes a parent and gets the new node as a
child, and the new node takes the clamped flag and a clone of the value of `x`,
with a clone of that value as stored value when `x` is not clamped and no
stored value otherwise.  The copy constructor of `VariableNode` is not in the
sources; `touched` is the touched flag it gives the copy.  The new object is
placed at a fresh address, which is returned. -/
def StochasticNode.copyConstruct {V : Type} (touched : Bool) (x : NodeId) (g : DAG V) :
    Result V (NodeId × DAG V) :=
  match g.stochastic x with
  | none => Except.error Failure.badPointer
  | some xd =>
    if xd.distribution.all (fun entry => (entry.2.bind g.node).isSome) then
      let (this, g1) := g.alloc
        { StochasticNode.pristine xd.distribution xd.value
            (if xd.clamped = false then some xd.value else none) xd.clamped
          with touched := touched }
      Except.ok (this, StochasticNode.setParents this xd.distribution g1)
    else Except.error Failure.badPointer

/-- Transcription of the assignment operator `StochasticNode::operator=`.
Nothing happens when `this` is `x`.  Otherwise a mismatch of the value types
(`typesMatch` is the outcome of the test `valueType != x.valueType`, on a
member that is not modelled) throws "Type mismatch"; the node leaves the
children sets of its parents and clears its parents; it takes a clone of the
distribution of `x`, whose parameters become its parents and get it as a
child; it takes the clamped flag and a clone of the value of `x`, and a clone
of the stored value of `x` when `x` has one. -/
def StochasticNode.assign {V : Type} (typesMatch : Bool) (this x : NodeId) (g : DAG V) :
    Result V (DAG V) :=
  if this = x then Except.ok g
  else
    match g.stochastic this, g.stochastic x with
    | some nd, some xd =>
      if typesMatch = false then Except.error (Failure.exception "Type mismatch" g)
      else if xd.distribution.all (fun entry => (entry.2.bind g.node).isSome) then
        let g1 := nd.parents.foldl (fun acc p => DAGNode.removeChildNode p this acc) g
        let g2 := g1.modify this (fun t => { t with parents := [], distribution := xd.distribution })
        let g3 := StochasticNode.setParents this xd.distribution g2
        Except.ok (g3.modify this (fun t =>
          { t with clamped := xd.clamped, value := xd.value, storedValue := xd.storedValue }))
      else Except.error Failure.badPointer
    | _, _ => Except.error Failure.badPointer

/-! ## Dist_exp.cpp -/

/-- The call `getValue(name)` / `getVariable(name)` of a distribution. -/
def getVariable {V : Type} (members : List (String × Variable V)) (name : String) :
    Option (Variable V) :=
  members.lookup name

/-- Transcription of `Dist_exp::lnPdf`: `log(lambda) - lambda * x` with
`lambda` the current value of `rate`. -/
def Dist_exp.lnPdf {R : Type} [Sub R] [Mul R] (log : R → R)
    (members : List (String × Variable R)) (value : Option R) : Option R :=
  match (getVariable members "rate").bind (fun v => v.value), value with
  | some lambda, some x => some (log lambda - lambda * x)
  | _, _ => none

/-- Transcription of `Dist_exp::lnPriorRatio`: `lambda * (oldX - newX)`. -/
def Dist_exp.lnPriorRatio {R : Type} [Sub R] [Mul R]
    (members : List (String × Variable R)) (newVal oldVal : Option R) : Option R :=
  match (getVariable members "rate").bind (fun v => v.value), newVal, oldVal with
  | some lambda, some newX, some oldX => some (lambda * (oldX - newX))
  | _, _, _ => none

/-- Transcription of `Dist_exp::lnLikelihoodRatio`:
`log(lambdaNew) - log(lambdaOld) + (lambdaOld - lambdaNew) * x`, with
`lambdaNew` the value and `lambdaOld` the stored value of `rate`. -/
def Dist_exp.lnLikelihoodRatio {R : Type} [Add R] [Sub R] [Mul R] (log : R → R)
    (members : List (String × Variable R)) (value : Option R) : Option R :=
  match (getVariable members "rate").bind (fun v => v.value),
        (getVariable members "rate").bind (fun v => v.storedValue), value with
  | some lambdaNew, some lambdaOld, some x =>
    some (log lambdaNew - log lambdaOld + (lambdaOld - lambdaNew) * x)
  | _, _, _ => none

/-- The exponential distribution as a `Distribution`. -/
def Dist_exp {R : Type} [Add R] [Sub R] [Mul R] (log : R → R) : Distribution R R where
  lnPdf := Dist_exp.lnPdf log
  lnPriorRatio := Dist_exp.lnPriorRatio
  lnLikelihoodRatio := Dist_exp.lnLikelihoodRatio log

/-! ## Predicates used in the statements -/

/-- Two heaps with the same addresses in which every node has kept its class,
its edges and its distribution table. -/
def SameShape {V : Type} (g g1 : DAG V) : Prop :=
  g1.length = g.length ∧
  ∀ k, (g1.node k).map (fun nd => (nd.dagType, nd.children, nd.parents, nd.distribution))
     = (g.node k).map (fun nd => (nd.dagType, nd.children, nd.parents, nd.distribution))

/-- An acyclicity certificate for the heap: `rank` strictly decreases from
every node to each of its children. -/
def IsRanking {V : Type} (g : DAG V) (rank : NodeId → Nat) : Prop :=
  ∀ a < g.length, ∀ c ∈ g.children a, rank c < rank a

instance {V : Type} (g : DAG V) (rank : NodeId → Nat) : Decidable (IsRanking g rank) := by
  unfold IsRanking
  infer_instance

/-- The rollback predicate on a node object: the stored value is absent
exactly when the node is clamped. -/
def HasRollback {V : Type} (nd : DAGNode V) : Prop :=
  nd.storedValue = none ↔ nd.clamped = true

/-! ## Reachable heaps -/

/-- Mutual consistency of the parent/child relation: `a` is in the parents of
`b` exactly when `b` is in the children of `a`. -/
def Consistent {V : Type} (g : DAG V) : Prop :=
  ∀ a b, a ∈ g.parents b ↔ b ∈ g.children a

/-- The nodes that the member variables of a distribution table refer to. -/
def paramRefs (table : VariableTable) : List NodeId :=
  table.filterMap (fun entry => entry.2)

/-- The distribution parameters of the node at `n` (none when there is no
node). -/
def DAG.params {V : Type} (g : DAG V) (n : NodeId) : List NodeId :=
  match g.node n with
  | some nd => paramRefs nd.distribution
  | none => []

/-- A heap that `cloneDAG` can traverse without dereferencing a pointer to no
object: every member variable of every table refers to a node of the heap,
every child pointer refers to a node of the heap, and the names of the member
variables of a table are distinct (the table is a map).  The nodes may be of
any class. -/
def Cloneable {V : Type} (g : DAG V) : Prop :=
  ∀ o ∈ g, ∀ nd ∈ o,
    (∀ entry ∈ nd.distribution, (entry.2.bind g.node).isSome = true) ∧
    (∀ c ∈ nd.children, (g.node c).isSome = true) ∧
    (nd.distribution.map Prod.fst).Nodup

instance {V : Type} [DecidableEq V] (g : DAG V) : Decidable (Cloneable g) := by
  unfold Cloneable
  infer_instance

/-- The parents set of every node is the set of nodes that its distribution
parameters refer to, as the constructor establishes. -/
def ParentsAreParams {V : Type} (g : DAG V) : Prop :=
  ∀ o ∈ g, ∀ nd ∈ o,
    (∀ p ∈ nd.parents, p ∈ paramRefs nd.distribution) ∧
    (∀ p ∈ paramRefs nd.distribution, p ∈ nd.parents)

instance {V : Type} (g : DAG V) : Decidable (ParentsAreParams g) := by
  unfold ParentsAreParams
  infer_instance

/-- The links that `cloneDAG` follows from a node: to the nodes its
distribution parameters refer to and to its children. -/
def Linked {V : Type} (g : DAG V) (a b : NodeId) : Prop :=
  b ∈ g.params a ∨ b ∈ g.children a

/-- A parent or child edge between two nodes. -/
def Adjacent {V : Type} (g : DAG V) (a b : NodeId) : Prop :=
  b ∈ g.parents a ∨ b ∈ g.children a

/-- The node `b` belongs to the connected component of `a`: it is reached
from `a` through parent and child edges. -/
def Connected {V : Type} (g : DAG V) (a b : NodeId) : Prop :=
  Relation.ReflTransGen (Adjacent g) a b

/-- The node object `cn` carries the value state of a copy of `nd`: the same
class, value and clamped flag; for a `StochasticNode` a stored value that is
absent when the stored value of `nd` is and a copy of the value of `nd`
otherwise, for a node of another class the stored value of `nd`; the copy is
untouched and instantiated, and its table has the member variables of the
original. -/
def IsCopyOf {V : Type} (nd cn : DAGNode V) : Prop :=
  cn.dagType = nd.dagType ∧ cn.value = nd.value ∧ cn.clamped = nd.clamped ∧
  cn.storedValue = (if nd.dagType = DAGType.StochasticNode
    then nd.storedValue.map (fun _ => nd.value) else nd.storedValue) ∧
  cn.touched = false ∧
  cn.type = VariableType.INSTANTIATED ∧
  cn.distribution.map Prod.fst = nd.distribution.map Prod.fst

/-- The invariant of `cloneDAG` started on the heap `g0`: the originals are
untouched, the node map is a bijection between its keys and the addresses
allocated since, every copy carries the value state of its original, the
edges of the copies run among copies and are mutually consistent, the parents
of a copy are the nodes its parameters refer to, and every parameter of a copy
that is set refers to the clone of the parameter of the original with the same
name. -/
structure CloneInv {V : Type} (g0 : DAG V) (s : NodeMap × DAG V) : Prop where
  originals : ∀ k, k < g0.length → s.2.node k = g0.node k
  length_le : g0.length ≤ s.2.length
  keys_nodup : (s.1.map Prod.fst).Nodup
  vals_nodup : (s.1.map Prod.snd).Nodup
  vals_range : ∀ c, c ∈ s.1.map Prod.snd ↔ g0.length ≤ c ∧ c < s.2.length
  copies : ∀ k c, (k, c) ∈ s.1 →
    ∃ nd cn, g0.node k = some nd ∧ s.2.node c = some cn ∧ IsCopyOf nd cn
  edges : ∀ c cn, g0.length ≤ c → s.2.node c = some cn →
    (∀ x ∈ cn.parents, g0.length ≤ x ∧ c ∈ s.2.children x) ∧
    (∀ x ∈ cn.children, g0.length ≤ x ∧ c ∈ s.2.parents x)
  wired : ∀ c cn, g0.length ≤ c → s.2.node c = some cn →
    ∀ x, x ∈ cn.parents ↔ x ∈ paramRefs cn.distribution
  wiredFrom : ∀ k c nd cn, (k, c) ∈ s.1 → g0.node k = some nd → s.2.node c = some cn →
    ∀ name x, (name, some x) ∈ cn.distribution →
      ∃ p, (name, some p) ∈ nd.distribution ∧ (p, x) ∈ s.1

/-- What a call of `cloneDAG` may change in an object that exists when the
call starts: nothing but its children set, which can only grow. -/
def CloneFrame {V : Type} (g g1 : DAG V) : Prop :=
  ∀ x xn, g.node x = some xn →
    ∃ xn1, g1.node x = some xn1 ∧ xn1 = { xn with children := xn1.children } ∧
      ∀ y ∈ xn.children, y ∈ xn1.children

/-- The frame of the wiring loop of the copy `copy`: as `CloneFrame`, for
every object other than `copy`. -/
def CloneFrameExcept {V : Type} (copy : NodeId) (g g1 : DAG V) : Prop :=
  ∀ x xn, x ≠ copy → g.node x = some xn →
    ∃ xn1, g1.node x = some xn1 ∧ xn1 = { xn with children := xn1.children } ∧
      ∀ y ∈ xn.children, y ∈ xn1.children

/-- The clone `c` of the original `k` is complete: every parameter of the
original has its clone in the map and the parameter of the same name of `c`
refers to it, and every child of the original is in the map. -/
def Finished {V : Type} (g0 : DAG V) (s : NodeMap × DAG V) (k c : NodeId) : Prop :=
  ∃ nd cn, g0.node k = some nd ∧ s.2.node c = some cn ∧
    (∀ name p, (name, some p) ∈ nd.distribution →
      ∃ x, (p, x) ∈ s.1 ∧ (name, some x) ∈ cn.distribution) ∧
    (∀ ch ∈ nd.children, ch ∈ s.1.map Prod.fst)

/-- What a returning call `cloneDAG` on `n` in state `s` guarantees. -/
def CloneStep {V : Type} (g0 : DAG V) (n : NodeId) (s : NodeMap × DAG V) (c : NodeId)
    (s1 : NodeMap × DAG V) : Prop :=
  CloneInv g0 s1 ∧ CloneFrame s.2 s1.2 ∧ (∃ added, s1.1 = added ++ s.1) ∧ (n, c) ∈ s1.1 ∧
  ∀ k cl, (k, cl) ∈ s1.1 → k ∉ s.1.map Prod.fst →
    Finished g0 s1 k cl ∧ Relation.ReflTransGen (Linked g0) n k

/-- The recursive call `recurse` returns, with the guarantees of `CloneStep`,
in every state whose node map has at least `size` entries. -/
def CloneTotal {V : Type} (g0 : DAG V)
    (recurse : NodeId → NodeMap × DAG V → Result V (NodeId × (NodeMap × DAG V)))
    (size : Nat) : Prop :=
  ∀ n s, CloneInv g0 s → (g0.node n).isSome → size ≤ s.1.length →
    ∃ c s1, recurse n s = Except.ok (c, s1) ∧ CloneStep g0 n s c s1

/-! ## Change cycles -/

/-- One operation that touches nodes inside a change cycle, between two calls
of `keep()` or `restore()`: `getValuePtr` on a stochastic node, a move writing
through the value pointer of a node that `getValuePtr` has touched, `touch()`
on a node, and `touchAffected()` on a node, which is how a touch arrives from
a parent. -/
inductive TouchStep {V : Type} : DAG V → DAG V → Prop where
  | getValuePtr (fuel : Nat) (n : NodeId) (affected : List NodeId) (g : DAG V) (v : V)
      (affected1 : List NodeId) (g1 : DAG V)
      (h : StochasticNode.getValuePtr fuel n affected g = Except.ok (v, affected1, g1)) :
      TouchStep g g1
  | write (n : NodeId) (newValue : V) (g : DAG V) (nd : DAGNode V)
      (h : g.stochastic n = some nd) (ht : nd.touched = true) :
      TouchStep g (writeThroughValuePtr n newValue g)
  | touch (p : NodeId) (g : DAG V) : TouchStep g (DAGNode.touch p g)
  | touchAffected (p : NodeId) (g : DAG V) : TouchStep g (DAGNode.touchAffected p g)

/-- What the touches of a change cycle preserve in the object `o` of a
stochastic node that was `nd` when the cycle started: once touched it stays
touched with the same stored value; a node that started untouched with a
stored value equal to its value keeps that stored value, and while it is still
untouched it is unchanged. -/
def SnapshotKept {V : Type} (nd o : DAGNode V) : Prop :=
  o.dagType = DAGType.StochasticNode ∧
  (nd.touched = true → o.touched = true ∧ o.storedValue = nd.storedValue) ∧
  (nd.touched = false → nd.storedValue = some nd.value →
    o.storedValue = some nd.value ∧ (o.touched = false → o = nd))

/-! ## Example heaps -/

/-- A node object with the given class, edges, distribution table and value
state; reference count 0, instantiated, no factor root. -/
def exampleNode {V : Type} (dagType : DAGType) (parents children : List NodeId)
    (distribution : VariableTable) (value : V) (storedValue : Option V)
    (touched clamped : Bool) : DAGNode V where
  dagType := dagType
  children := children
  parents := parents
  refCount := 0
  touched := touched
  factorRoot := none
  clamped := clamped
  distribution := distribution
  value := value
  storedValue := storedValue
  type := VariableType.INSTANTIATED
  needsProbabilityRecalculation := false
  needsLikelihoodRecalculation := false

/-- The chain constant 0 → stochastic 1 → deterministic 2 → stochastic 3; node
1 is untouched, nodes 2 and 3 are touched. -/
def exampleChain : DAG Int :=
  [ some (exampleNode DAGType.ConstantNode [] [1] [] 2 none false false),
    some (exampleNode DAGType.StochasticNode [0] [2] [("rate", some 0)] 5 (some 5) false false),
    some (exampleNode DAGType.DeterministicNode [1] [3] [] 7 (some 9) true false),
    some (exampleNode DAGType.StochasticNode [2] [] [("rate", some 2)] 1 (some 4) true false) ]

/-- A ranking of `exampleChain`. -/
def exampleRank (k : NodeId) : Nat := 10 - k

/-- An exponential node 1 whose rate parameter is node 0; both are touched:
the rate changed from `lambdaOld` to `lambdaNew` and the value from `xOld` to
`xNew`. -/
def exampleExpPair {R : Type} (lambdaOld lambdaNew xOld xNew : R) : DAG R :=
  [ some (exampleNode DAGType.StochasticNode [] [1] [] lambdaNew (some lambdaOld) true false),
    some (exampleNode DAGType.StochasticNode [0] [] [("rate", some 0)] xNew (some xOld)
      true false) ]

/-- Three stochastic nodes: node 1 depends on node 0 and node 2 depends on
node 1. -/
def exampleTriple : DAG Int :=
  [ some (exampleNode DAGType.StochasticNode [] [1] [] 3 (some 3) false false),
    some (exampleNode DAGType.StochasticNode [0] [2] [("rate", some 0)] 4 (some 4) false false),
    some (exampleNode DAGType.StochasticNode [1] [] [("rate", some 1)] 5 (some 5) false false) ]

/-- The heap after constructing, on top of `exampleOne`, a stochastic node 1
whose distribution has the parameter `rate` referring to node 0. -/
def exampleTwo : DAG Int :=
  [ some (exampleNode DAGType.StochasticNode [] [1] [] 3 (some 3) false false),
    some (exampleNode DAGType.StochasticNode [0] [] [("rate", some 0)] 4 (some 4) false false) ]

/-- The diamond A → B, A → C, B → D, C → D of stochastic nodes: node 0 is A,
nodes 1 and 2 are B and C with the parameter A, node 3 is D with the
parameters B and C. -/
def exampleDiamond : DAG Int :=
  [ some (exampleNode DAGType.StochasticNode [] [1, 2] [] 10 (some 10) false false),
    some (exampleNode DAGType.StochasticNode [0] [3] [("rate", some 0)] 11 (some 11)
      false false),
    some (exampleNode DAGType.StochasticNode [0] [3] [("rate", some 0)] 12 (some 12)
      false false),
    some (exampleNode DAGType.StochasticNode [1, 2] [] [("shape", some 1), ("rate", some 2)]
      13 (some 13) false false) ]

/-- A graph with nodes of the three classes: the constant node 0, the
stochastic node 1 with the parameter 0, the deterministic node 2 whose function
has the argument 1, and the stochastic node 3 with the parameter 2. -/
def exampleMixed : DAG Int :=
  [ some (exampleNode DAGType.ConstantNode [] [1] [] 2 none false false),
    some (exampleNode DAGType.StochasticNode [0] [2] [("rate", some 0)] 5 (some 5) false false),
    some (exampleNode DAGType.DeterministicNode [1] [3] [("x", some 1)] 7 (some 7) false false),
    some (exampleNode DAGType.StochasticNode [2] [] [("rate", some 2)] 1 (some 1) false false) ]

/-- A single stochastic node that is touched: its value is 9 and its stored
value is 5. -/
def exampleTouched : DAG Int :=
  [ some (exampleNode DAGType.StochasticNode [] [] [] 9 (some 5) true false) ]

/-- The chain stochastic 0 (A) → deterministic 1 (B) → stochastic 2 (C) →
deterministic 3 → stochastic 4: the nodes 3 and 4 lie below C. -/
def exampleLongChain : DAG Int :=
  [ some (exampleNode DAGType.StochasticNode [] [1] [] 10 (some 10) false false),
    some (exampleNode DAGType.DeterministicNode [0] [2] [] 11 none false false),
    some (exampleNode DAGType.StochasticNode [1] [3] [("rate", some 1)] 12 (some 12)
      false false),
    some (exampleNode DAGType.DeterministicNode [2] [4] [] 13 none false false),
    some (exampleNode DAGType.StochasticNode [3] [] [("rate", some 3)] 14 (some 14)
      false false) ]

/-- Three stochastic nodes.  Node 1 has node 0 as its parent and is a child of
node 0, while the parameter `rate` of its distribution refers to node 2, as
after a `setVariable("rate", node 2)` on the distribution: node 0 is a parent
that no parameter refers to. -/
def exampleStrayParent : DAG Int :=
  [ some (exampleNode DAGType.StochasticNode [] [1] [] 3 (some 3) false false),
    some (exampleNode DAGType.StochasticNode [0] [] [("rate", some 2)] 4 (some 4) false false),
    some (exampleNode DAGType.StochasticNode [] [] [] 5 (some 5) false false) ]

/-- A single stochastic node as `clamp(5)` leaves it: clamped, not touched,
with value 5 and no stored value. -/
def exampleClamped : DAG Int :=
  [ some (exampleNode DAGType.StochasticNode [] [] [] 5 none false true) ]

/-- An acyclicity certificate along the parent edges: `height` strictly
decreases from every node to each of its parents. -/
def IsHeight {V : Type} (g : DAG V) (height : NodeId → Nat) : Prop :=
  ∀ a < g.length, ∀ p ∈ g.parents a, height p < height a

instance {V : Type} (g : DAG V) (height : NodeId → Nat) : Decidable (IsHeight g height) := by
  unfold IsHeight
  infer_instance

/-- The node `x` is a proper ancestor of `n`: it is reached from `n` by one or
more parent edges. -/
def ProperAncestor {V : Type} (g : DAG V) (n x : NodeId) : Prop :=
  Relation.TransGen (fun a b => b ∈ g.parents a) n x

/-- The number of nodes of the heap: the addresses that hold an object. -/
def DAG.numNodes {V : Type} (g : DAG V) : Nat :=
  ((List.range g.length).filter (fun k => (g.node k).isSome)).length

/-- Three stochastic nodes.  Node 1 is built on a distribution whose two
parameters `shape` and `rate` both refer to node 0, its only parent; node 2 is
unrelated. -/
def exampleDoubleBinding : DAG Int :=
  [ some (exampleNode DAGType.StochasticNode [] [1] [] 3 (some 3) false false),
    some (exampleNode DAGType.StochasticNode [0] [] [("shape", some 0), ("rate", some 0)]
      4 (some 4) false false),
    some (exampleNode DAGType.StochasticNode [] [] [] 5 (some 5) false false) ]

/-! ## RlAbstractHomologousDiscreteCharacterData.cpp -/

/-- The conversion `(size_t)(v)` of an `int` on a 64-bit platform. -/
def toSizeT (v : Int) : Nat := (v % 2 ^ 64).toNat

/-- Transcription of the branch `name == "[]"` of
`AbstractHomologousDiscreteCharacterData::executeMethod`.  `numberOfTaxa` is
`dag_node->getValue().getNumberOfTaxa()` and `index` is `index.getValue()` of
the `Natural` argument.  The call throws when the number of taxa is less than
`(size_t) index`; otherwise the result is the position
`size_t(index.getValue()) - 1` that is passed to `getTaxonData`, the
subtraction being taken in `size_t`. -/
def AbstractHomologousDiscreteCharacterData.executeMethod.squareBracket
    (numberOfTaxa : Nat) (index : Int) : Except String Nat :=
  if numberOfTaxa < toSizeT index then Except.error "Index out of bounds in []"
  else Except.ok ((toSizeT index + 2 ^ 64 - 1) % 2 ^ 64)

/-- The expression `delete dag_node`: the destructor of `DAGNode` runs (the
destructors of the derived node classes are not in the sources) and the memory
is released. -/
def deleteNode {V : Type} (n : NodeId) (g : DAG V) : DAG V :=
  (DAGNode.destructor n g).free n

/-- The first part of `AbstractHomologousDiscreteCharacterData::setdag_node`,
"take care of the old value node": when the wrapper holds a node,
`dag_node->replace(newNode)` is called, the reference count of the held node
is decremented and the node is deleted when the count has reached 0.
`replace` is `DagNode::replace`, which is not in the sources and is taken as a
parameter; the names of the nodes are not modelled. -/
def AbstractHomologousDiscreteCharacterData.setdag_node.release {V : Type}
    (replace : NodeId → Option NodeId → DAG V → DAG V)
    (dag_node newNode : Option NodeId) (g : DAG V) : Result V (DAG V) :=
  match dag_node with
  | none => Except.ok g
  | some old =>
    match DAGNode.decrementReferenceCount old (replace old newNode g) with
    | none => Except.error Failure.badPointer
    | some (count, g1) => Except.ok (if count = 0 then deleteNode old g1 else g1)

/-- Transcription of `AbstractHomologousDiscreteCharacterData::setdag_node`:
the old node is released, the wrapper is bound to `newNode`, and the reference
count of the new node, when it is not NULL, is incremented.  The state is the
node the wrapper holds together with the heap; incrementing the count of an
object that has been deleted is a failure. -/
def AbstractHomologousDiscreteCharacterData.setdag_node {V : Type}
    (replace : NodeId → Option NodeId → DAG V → DAG V)
    (newNode : Option NodeId) (s : Option NodeId × DAG V) : Result V (Option NodeId × DAG V) :=
  match AbstractHomologousDiscreteCharacterData.setdag_node.release replace s.1 newNode s.2 with
  | Except.error e => Except.error e
  | Except.ok g1 =>
    match newNode with
    | none => Except.ok (none, g1)
    | some n =>
      match g1.node n with
      | none => Except.error Failure.badPointer
      | some _ => Except.ok (some n, DAGNode.incrementReferenceCount n g1)

/-- A single constant node with one reference, as a wrapper that holds it
leaves it. -/
def exampleHeld : DAG Int :=
  [ some { exampleNode DAGType.ConstantNode [] [] [] 2 none false false with refCount := 1 } ]

/-- Two constant nodes: node 0 has one reference, node 1 has none yet. -/
def exampleHeldAndNew : DAG Int :=
  [ some { exampleNode DAGType.ConstantNode [] [] [] 2 none false false with refCount := 1 },
    some (exampleNode DAGType.ConstantNode [] [] [] 3 none false false) ]

/-! ## CharacterDependentCladoBirthDeathProcess.cpp -/

/-- The cladogenetic event map (`std::map<std::vector<unsigned>, double>`), in
the order of its iterator: the states `(states[0], states[1], states[2])` of
each event with its speciation rate. -/
abbrev EventMap (R : Type) := List (List Nat × R)

/-- The inner loop of the merge in `computeNodeProbability` (equation A3): for
every event whose first state is `i`,
`like_sum += speciation_rate * (term1 + term2)`.  `n` is
`num_rate_categories`; a read outside a vector gives 0. -/
def CharacterDependentCladoBirthDeathProcess.computeNodeProbability.likeSum {R : Type}
    [Field R] (n : Nat) (eventMap : EventMap R) (leftStates rightStates : List R) (i : Nat) : R :=
  eventMap.foldl (fun like_sum ev =>
    if i = ev.1.getD 0 0 then
      like_sum + ev.2 *
        (leftStates.getD (n + ev.1.getD 1 0) 0 * rightStates.getD (n + ev.1.getD 2 0) 0
          + leftStates.getD (n + ev.1.getD 2 0) 0 * rightStates.getD (n + ev.1.getD 1 0) 0)
    else like_sum) 0

/-- The branch of `computeNodeProbability` for an internal node, once the
likelihoods of the two children are available: `initial_state` is a vector of
`2 * num_rate_categories` zeros and the loop
`for (size_t i=1; i<num_rate_categories; ++i)` writes
`initial_state[i] = leftStates[i]` and
`initial_state[num_rate_categories + i] = 0.5 * like_sum`.  The result is the
state with which the integration along the branch starts. -/
def CharacterDependentCladoBirthDeathProcess.computeNodeProbability.mergeDescendants {R : Type}
    [Field R] (n : Nat) (eventMap : EventMap R) (leftStates rightStates : List R) : List R :=
  (List.range' 1 (n - 1)).foldl (fun initial_state i =>
    (initial_state.set i (leftStates.getD i 0)).set (n + i)
      (0.5 * CharacterDependentCladoBirthDeathProcess.computeNodeProbability.likeSum n eventMap
        leftStates rightStates i))
    (List.replicate (2 * n) 0)

/-- The inner loop of the merge in `computeRootLikelihood`:
`like_sum += (term1 + term2) * speciation_rate`. -/
def CharacterDependentCladoBirthDeathProcess.computeRootLikelihood.likeSum {R : Type}
    [Field R] (n : Nat) (eventMap : EventMap R) (leftStates rightStates : List R) (i : Nat) : R :=
  eventMap.foldl (fun like_sum ev =>
    if i = ev.1.getD 0 0 then
      like_sum +
        (leftStates.getD (n + ev.1.getD 1 0) 0 * rightStates.getD (n + ev.1.getD 2 0) 0
          + leftStates.getD (n + ev.1.getD 2 0) 0 * rightStates.getD (n + ev.1.getD 1 0) 0)
        * ev.2
    else like_sum) 0

/-- The outer loop of `computeRootLikelihood`,
`for (size_t i = 0; i < num_rate_categories; ++i)`:
`prob += freqs[i] * 0.5 * like_sum`; the function returns `log(prob)`. -/
def CharacterDependentCladoBirthDeathProcess.computeRootLikelihood.prob {R : Type}
    [Field R] (n : Nat) (eventMap : EventMap R) (freqs leftStates rightStates : List R) : R :=
  (List.range' 0 n).foldl (fun prob i =>
    prob + freqs.getD i 0 * 0.5 *
      CharacterDependentCladoBirthDeathProcess.computeRootLikelihood.likeSum n eventMap
        leftStates rightStates i) 0

/-- What `computeLnProbability` reads of a node of the tree through the
accessors of `TopologyNode`, a class that is not in the sources: `getIndex()`,
`isRoot()`, `getAge()`, `getParent().getAge()`, `isSampledAncestor()`,
`isFossil()` and `getBranchLength()`. -/
structure TopologyNode (R : Type) where
  index : Nat
  isRoot : Bool
  age : R
  parentAge : R
  isSampledAncestor : Bool
  isFossil : Bool
  branchLength : R

/-- What `computeLnProbability` reads of the tree `value`: `getNodes()`, the
age of `getRoot()` and the nodes of `getRoot().getChildren()`. -/
structure Tree (R : Type) where
  nodes : List (TopologyNode R)
  rootAge : R
  rootChildren : List (TopologyNode R)

/-- The members of `CharacterDependentCladoBirthDeathProcess` that
`computeLnProbability` and `prepareProbComputation` read or write:
`root_age->getValue()`, `mu->getValue()`, `condition`, `num_observed_states`,
`extinction_rates`, `dirty_nodes` and `log_tree_topology_prob`. -/
structure CharacterDependentCladoBirthDeathProcess (R : Type) where
  root_age : R
  mu : List R
  condition : String
  num_observed_states : Nat
  extinction_rates : List R
  dirty_nodes : List Bool
  log_tree_topology_prob : R

/-- Transcription of `prepareProbComputation`: the cladogenesis matrix is
evaluated (its value is not used here) and `extinction_rates` is rebuilt from
the first `num_observed_states` entries of `mu`; a read outside the vector
gives 0. -/
def CharacterDependentCladoBirthDeathProcess.prepareProbComputation {R : Type} [Zero R]
    (p : CharacterDependentCladoBirthDeathProcess R) : CharacterDependentCladoBirthDeathProcess R :=
  { p with extinction_rates := (List.range p.num_observed_states).map (fun j => p.mu.getD j 0) }

/-- The first loop of `computeLnProbability`, "check that the ages are in
correct chronological order": true when the loop runs to its end, false when
it returns negative infinity. -/
def CharacterDependentCladoBirthDeathProcess.computeLnProbability.agesInOrder {R : Type}
    [LinearOrderedField R] : List (TopologyNode R) → Bool
  | [] => true
  | the_node :: rest =>
    if the_node.isRoot = false then
      if the_node.age - the_node.parentAge > 0 ∧ the_node.isSampledAncestor = false then false
      else if the_node.age - the_node.parentAge > 1E-6 ∧ the_node.isSampledAncestor = true then
        false
      else CharacterDependentCladoBirthDeathProcess.computeLnProbability.agesInOrder rest
    else CharacterDependentCladoBirthDeathProcess.computeLnProbability.agesInOrder rest

/-- The second loop of `computeLnProbability`, "check that the sampled
ancestor nodes have a zero branch length": true when the loop runs to its end,
false when it returns negative infinity. -/
def CharacterDependentCladoBirthDeathProcess.computeLnProbability.sampledAncestorsOk {R : Type}
    [LinearOrderedField R] : List (TopologyNode R) → Bool
  | [] => true
  | the_node :: rest =>
    if the_node.isSampledAncestor = true then
      if the_node.isFossil = false then false
      else if the_node.branchLength > 1E-6 then false
      else CharacterDependentCladoBirthDeathProcess.computeLnProbability.sampledAncestorsOk rest
    else CharacterDependentCladoBirthDeathProcess.computeLnProbability.sampledAncestorsOk rest

/-- The loop of `computeLnProbability` over the children of the root: true
when it runs to its end, false when a child is older than the root. -/
def CharacterDependentCladoBirthDeathProcess.computeLnProbability.rootChildrenOk {R : Type}
    [LinearOrderedField R] (ra : R) : List (TopologyNode R) → Bool
  | [] => true
  | c :: rest =>
    if ra < c.age then false
    else CharacterDependentCladoBirthDeathProcess.computeLnProbability.rootChildrenOk ra rest

/-- Transcription of `computeLnProbability`.  The result is the returned
`double`, with `⊥` for `RbConstants::Double::neginf`, and the process as the
call leaves it; a `throw` is an error.  `computeRootLikelihood`, whose
integration along the branches is not modelled, is a parameter. -/
def CharacterDependentCladoBirthDeathProcess.computeLnProbability {R : Type}
    [LinearOrderedField R]
    (computeRootLikelihood : CharacterDependentCladoBirthDeathProcess R →
      Except String (WithBot R × CharacterDependentCladoBirthDeathProcess R))
    (value : Tree R) (p : CharacterDependentCladoBirthDeathProcess R) :
    Except String (WithBot R × CharacterDependentCladoBirthDeathProcess R) :=
  let p1 := p.prepareProbComputation
  if CharacterDependentCladoBirthDeathProcess.computeLnProbability.agesInOrder value.nodes
      = false then Except.ok (⊥, p1)
  else if CharacterDependentCladoBirthDeathProcess.computeLnProbability.sampledAncestorsOk
      value.nodes = false then Except.ok (⊥, p1)
  else if value.rootAge ≠ p1.root_age then Except.ok (⊥, p1)
  else if CharacterDependentCladoBirthDeathProcess.computeLnProbability.rootChildrenOk
      value.rootAge value.rootChildren = false then Except.ok (⊥, p1)
  else
    let p2 := { p1 with dirty_nodes :=
      (value.rootChildren.foldl (fun dirty the_node => dirty.set the_node.index true)
        p1.dirty_nodes) }
    if p2.condition ≠ "time" then Except.error "Only conditioning on time is possible"
    else
      match computeRootLikelihood p2 with
      | Except.error e => Except.error e
      | Except.ok (l, p3) => Except.ok ((0 : WithBot R) + l + (p3.log_tree_topology_prob : R), p3)

/-- A tree over the rationals whose root has age 10 and whose tip with index 1
has age 12, while the parent of that tip has age 10. -/
def exampleOlderChild : Tree ℚ where
  nodes :=
    [ { index := 0, isRoot := true, age := 10, parentAge := 0,
        isSampledAncestor := false, isFossil := false, branchLength := 0 },
      { index := 1, isRoot := false, age := 12, parentAge := 10,
        isSampledAncestor := false, isFossil := false, branchLength := 2 } ]
  rootAge := 10
  rootChildren := []

/-- A process with the `root_age` parameter 10, one observed state with
extinction rate 1, and a conditioning that is not "time". -/
def exampleProcess : CharacterDependentCladoBirthDeathProcess ℚ where
  root_age := 10
  mu := [1]
  condition := "survival"
  num_observed_states := 1
  extinction_rates := []
  dirty_nodes := [true, true]
  log_tree_topology_prob := 0

/-! # Theorems -/

/-! ## Heap lemmas -/

theorem node_store {V : Type} (g : DAG V) (n k : NodeId) (nd : DAGNode V) :
    (g.store n nd).node k = if k = n then (if n < g.length then some nd else none) else g.node k := by
  unfold DAG.store DAG.node
  rw [List.getElem?_set]
  by_cases h : n = k
  · subst h
    simp
    split <;> simp
  · have h2 : ¬ k = n := fun e => h e.symm
    simp [h, h2]

theorem node_some_lt {V : Type} {g : DAG V} {n : NodeId} {nd : DAGNode V}
    (h : g.node n = some nd) : n < g.length := by
  unfold DAG.node at h
  by_contra hlt
  rw [List.getElem?_eq_none (Nat.le_of_not_lt hlt)] at h
  simp at h

theorem store_same {V : Type} {g : DAG V} {n : NodeId} {nd : DAGNode V}
    (h : g.node n = some nd) : g.store n nd = g := by
  unfold DAG.store
  unfold DAG.node at h
  apply List.ext_getElem?
  intro k
  rw [List.getElem?_set]
  by_cases hk : n = k
  · subst hk
    cases hg : g[n]? with
    | none => rw [hg] at h; simp at h
    | some o =>
      rw [hg] at h
      simp at h
      subst h
      have : n < g.length := by
        by_contra hlt
        rw [List.getElem?_eq_none (Nat.le_of_not_lt hlt)] at hg
        simp at hg
      simp [this]
  · simp [hk]

theorem store_store {V : Type} (g : DAG V) (n : NodeId) (a b : DAGNode V) :
    (g.store n a).store n b = g.store n b := by
  unfold DAG.store
  simp

theorem length_store {V : Type} (g : DAG V) (n : NodeId) (nd : DAGNode V) :
    (g.store n nd).length = g.length := by
  simp [DAG.store]

theorem length_modify {V : Type} (g : DAG V) (n : NodeId) (f : DAGNode V → DAGNode V) :
    (g.modify n f).length = g.length := by
  unfold DAG.modify
  split <;> simp [length_store]

theorem node_modify {V : Type} (g : DAG V) (n k : NodeId) (f : DAGNode V → DAGNode V) :
    (g.modify n f).node k = if k = n then (g.node n).map f else g.node k := by
  unfold DAG.modify
  cases h : g.node n with
  | none =>
    by_cases e : k = n
    · subst e
      simp [h]
    · simp [e]
  | some nd =>
    simp [node_store, node_some_lt h]

theorem node_modify_ne {V : Type} (g : DAG V) {n k : NodeId} (f : DAGNode V → DAGNode V)
    (h : k ≠ n) : (g.modify n f).node k = g.node k := by
  simp [node_modify, h]

theorem stochastic_some {V : Type} {g : DAG V} {n : NodeId} {nd : DAGNode V}
    (h : g.stochastic n = some nd) : g.node n = some nd ∧ nd.dagType = DAGType.StochasticNode := by
  unfold DAG.stochastic at h
  cases hn : g.node n with
  | none => simp [hn] at h
  | some x =>
    simp [hn] at h
    obtain ⟨h1, h2⟩ := h
    subst h2
    exact ⟨rfl, h1⟩

/-! ## Frame lemmas for the propagation calls -/

theorem SameShape.shape_refl {V : Type} (g : DAG V) : SameShape g g := ⟨rfl, fun _ => rfl⟩

theorem SameShape.shape_trans {V : Type} {a b c : DAG V} (h1 : SameShape a b) (h2 : SameShape b c) :
    SameShape a c :=
  ⟨h2.1.trans h1.1, fun k => (h2.2 k).trans (h1.2 k)⟩

theorem SameShape.children {V : Type} {g g1 : DAG V} (h : SameShape g g1) (k : NodeId) :
    g1.children k = g.children k := by
  have := h.2 k
  unfold DAG.children
  cases h1 : g1.node k <;> cases h0 : g.node k <;> simp [h1, h0] at this ⊢
  exact this.2.1

theorem SameShape.dagType {V : Type} {g g1 : DAG V} (h : SameShape g g1) (k : NodeId) :
    (g1.node k).map (fun nd => nd.dagType) = (g.node k).map (fun nd => nd.dagType) := by
  have := h.2 k
  cases h1 : g1.node k <;> cases h0 : g.node k <;> simp [h1, h0] at this ⊢
  exact this.1

theorem sameShape_modify {V : Type} (g : DAG V) (n : NodeId) (f : DAGNode V → DAGNode V)
    (hf : ∀ nd, ((f nd).dagType, (f nd).children, (f nd).parents, (f nd).distribution)
      = (nd.dagType, nd.children, nd.parents, nd.distribution)) :
    SameShape g (g.modify n f) := by
  refine ⟨length_modify g n f, fun k => ?_⟩
  rw [node_modify]
  by_cases h : k = n
  · subst h
    cases hk : g.node k with
    | none => simp
    | some nd => simpa using hf nd
  · simp [h]

theorem sameShape_touchMe {V : Type} (g : DAG V) (n : NodeId) : SameShape g (touchMe n g) := by
  apply sameShape_modify
  intro nd
  unfold touchMeObject
  cases hd : nd.dagType <;> simp [hd] <;> split <;> simp [hd]

theorem sameShape_keepMe {V : Type} (g : DAG V) (n : NodeId) : SameShape g (keepMe n g) := by
  apply sameShape_modify
  intro nd
  unfold keepMeObject
  cases hd : nd.dagType <;> simp [hd]

theorem sameShape_restoreMe {V : Type} (g : DAG V) (n : NodeId) : SameShape g (restoreMe n g) := by
  apply sameShape_modify
  intro nd
  unfold restoreMeObject
  cases hd : nd.dagType <;> simp [hd] <;> split <;> simp [hd]

theorem node_touchMe_ne {V : Type} (g : DAG V) {n k : NodeId} (h : k ≠ n) :
    (touchMe n g).node k = g.node k := node_modify_ne g _ h

theorem node_keepMe_ne {V : Type} (g : DAG V) {n k : NodeId} (h : k ≠ n) :
    (keepMe n g).node k = g.node k := node_modify_ne g _ h

theorem node_restoreMe_ne {V : Type} (g : DAG V) {n k : NodeId} (h : k ≠ n) :
    (restoreMe n g).node k = g.node k := node_modify_ne g _ h

/-- A loop calling a node-local function on each element of `cs` keeps the
shape of the heap and leaves every node outside `cs` as it was. -/
theorem foldl_local {V : Type} (me : NodeId → DAG V → DAG V)
    (hshape : ∀ n g, SameShape g (me n g))
    (hne : ∀ n g k, k ≠ n → (me n g).node k = g.node k)
    (cs : List NodeId) (g : DAG V) :
    SameShape g (cs.foldl (fun acc c => me c acc) g) ∧
    ∀ k, k ∉ cs → (cs.foldl (fun acc c => me c acc) g).node k = g.node k := by
  induction cs generalizing g with
  | nil => exact ⟨SameShape.shape_refl g, fun _ _ => rfl⟩
  | cons c rest ih =>
    obtain ⟨h1, h2⟩ := ih (me c g)
    refine ⟨(hshape c g).shape_trans h1, fun k hk => ?_⟩
    simp only [List.mem_cons, not_or] at hk
    simp only [List.foldl_cons]
    rw [h2 k hk.2, hne c g k hk.1]

theorem touchAffected_frame {V : Type} (c : NodeId) (g : DAG V) :
    SameShape g (DAGNode.touchAffected c g) ∧
    ∀ k, k ∉ g.children c → (DAGNode.touchAffected c g).node k = g.node k :=
  foldl_local touchMe (fun m g1 => sameShape_touchMe g1 m) (fun _ g1 _ h => node_touchMe_ne g1 h) _ g

theorem keepAffected_frame {V : Type} (c : NodeId) (g : DAG V) :
    SameShape g (DAGNode.keepAffected c g) ∧
    ∀ k, k ∉ g.children c → (DAGNode.keepAffected c g).node k = g.node k :=
  foldl_local keepMe (fun m g1 => sameShape_keepMe g1 m) (fun _ g1 _ h => node_keepMe_ne g1 h) _ g

theorem restoreAffected_frame {V : Type} (c : NodeId) (g : DAG V) :
    SameShape g (DAGNode.restoreAffected c g) ∧
    ∀ k, k ∉ g.children c → (DAGNode.restoreAffected c g).node k = g.node k :=
  foldl_local restoreMe (fun m g1 => sameShape_restoreMe g1 m) (fun _ g1 _ h => node_restoreMe_ne g1 h) _ g

theorem callTouchAffected_frame {V : Type} (c : NodeId) (g : DAG V) :
    SameShape g (callTouchAffected c g) ∧
    ∀ k, k ∉ g.children c → (callTouchAffected c g).node k = g.node k :=
  touchAffected_frame c g

theorem callKeepAffected_frame {V : Type} (c : NodeId) (g : DAG V) :
    SameShape g (callKeepAffected c g) ∧
    ∀ k, k ∉ g.children c → (callKeepAffected c g).node k = g.node k := by
  unfold callKeepAffected
  cases h : g.node c with
  | none => exact ⟨SameShape.shape_refl g, fun _ _ => rfl⟩
  | some cn =>
    simp only
    split
    · exact ⟨SameShape.shape_refl g, fun _ _ => rfl⟩
    · exact keepAffected_frame c g

theorem callRestoreAffected_frame {V : Type} (c : NodeId) (g : DAG V) :
    SameShape g (callRestoreAffected c g) ∧
    ∀ k, k ∉ g.children c → (callRestoreAffected c g).node k = g.node k := by
  unfold callRestoreAffected
  cases h : g.node c with
  | none => exact ⟨SameShape.shape_refl g, fun _ _ => rfl⟩
  | some cn =>
    simp only
    split
    · exact ⟨SameShape.shape_refl g, fun _ _ => rfl⟩
    · exact restoreAffected_frame c g

/-- A loop of propagation calls over the children `cs` of a node keeps the
shape of the heap and leaves every node that is not a child of one of the
`cs` as it was. -/
theorem foldl_call_frame {V : Type} (call : NodeId → DAG V → DAG V)
    (hcall : ∀ c g, SameShape g (call c g) ∧
      ∀ k, k ∉ g.children c → (call c g).node k = g.node k)
    (cs : List NodeId) (g : DAG V) :
    SameShape g (cs.foldl (fun acc c => call c acc) g) ∧
    ∀ k, (∀ c ∈ cs, k ∉ g.children c) →
      (cs.foldl (fun acc c => call c acc) g).node k = g.node k := by
  induction cs generalizing g with
  | nil => exact ⟨SameShape.shape_refl g, fun _ _ => rfl⟩
  | cons c rest ih =>
    obtain ⟨h1, h2⟩ := ih (call c g)
    obtain ⟨hs, hn⟩ := hcall c g
    refine ⟨hs.shape_trans h1, fun k hk => ?_⟩
    simp only [List.foldl_cons]
    rw [h2 k, hn k (hk c (List.mem_cons_self _ _))]
    intro c1 hc1
    rw [hs.children]
    exact hk c1 (List.mem_cons_of_mem _ hc1)

/-! ## Termination of the affected-node collection -/

theorem children_of_node {V : Type} {g : DAG V} {c : NodeId} {cn : DAGNode V}
    (h : g.node c = some cn) : g.children c = cn.children := by
  simp [DAG.children, h]

theorem IsRanking.lt {V : Type} {g : DAG V} {rank : NodeId → Nat} (hr : IsRanking g rank)
    {a c : NodeId} (hc : c ∈ g.children a) : rank c < rank a := by
  cases h : g.node a with
  | none => simp [DAG.children, h] at hc
  | some nd => exact hr a (node_some_lt h) c hc

theorem IsRanking.ranking_of_sameShape {V : Type} {g g1 : DAG V} {rank : NodeId → Nat}
    (hs : SameShape g g1) (hr : IsRanking g rank) : IsRanking g1 rank := by
  intro a _ c hc
  rw [hs.children] at hc
  exact hr.lt hc

theorem forEach_ok {E S : Type} (body : NodeId → S → Except E S) (xs : List NodeId)
    (h : ∀ x ∈ xs, ∀ s, ∃ s1, body x s = Except.ok s1) (s : S) :
    ∃ s1, forEach body xs s = Except.ok s1 := by
  induction xs generalizing s with
  | nil => exact ⟨s, rfl⟩
  | cons x rest ih =>
    obtain ⟨s1, h1⟩ := h x (List.mem_cons_self _ _) s
    obtain ⟨s2, h2⟩ := ih (fun y hy => h y (List.mem_cons_of_mem _ hy)) s1
    exact ⟨s2, by simp [forEach, h1, h2]⟩

/-- On an acyclic heap the collection of affected nodes returns as soon as
the budget exceeds the rank of the node it starts from. -/
theorem callGetAffected_ok {V : Type} (g : DAG V) (rank : NodeId → Nat)
    (hr : IsRanking g rank) :
    ∀ (fuel : Nat) (c : NodeId) (affected : List NodeId), rank c < fuel →
      ∃ a1, callGetAffected g fuel c affected = Except.ok a1 := by
  intro fuel
  induction fuel with
  | zero => intro c _ h; exact absurd h (Nat.not_lt_zero _)
  | succ fuel ih =>
    intro c affected hlt
    unfold callGetAffected
    cases hc : g.node c with
    | none => exact ⟨_, rfl⟩
    | some cn =>
      cases hd : cn.dagType with
      | StochasticNode => simp only [hd]; exact ⟨_, rfl⟩
      | ConstantNode => simp only [hd]; exact ⟨_, rfl⟩
      | DeterministicNode =>
        simp only [hd]
        apply forEach_ok
        intro k hk s
        apply ih
        have : rank k < rank c := hr.lt (by rw [children_of_node hc]; exact hk)
        exact Nat.lt_of_lt_of_le this (Nat.le_of_lt_succ hlt)

theorem sameShape_store {V : Type} {g : DAG V} {n : NodeId} {nd nd1 : DAGNode V}
    (h : g.node n = some nd)
    (hf : (nd1.dagType, nd1.children, nd1.parents, nd1.distribution)
      = (nd.dagType, nd.children, nd.parents, nd.distribution)) :
    SameShape g (g.store n nd1) := by
  refine ⟨length_store g n nd1, fun k => ?_⟩
  rw [node_store]
  by_cases e : k = n
  · subst e
    simp [node_some_lt h, h]
    simpa using hf
  · simp [e]

theorem stochastic_of_node {V : Type} {g : DAG V} {n : NodeId} {nd : DAGNode V}
    (h : g.node n = some nd) (hd : nd.dagType = DAGType.StochasticNode) :
    g.stochastic n = some nd := by
  simp [DAG.stochastic, h, hd]

theorem getMembers_congr {V : Type} (g g1 : DAG V) (table : VariableTable)
    (h : ∀ entry ∈ table, ∀ p ∈ entry.2, g1.node p = g.node p) :
    getMembers g1 table = getMembers g table := by
  unfold getMembers
  apply List.map_congr_left
  intro entry he
  cases hp : entry.2 with
  | none => simp
  | some p =>
    have := h entry he p (by simp [hp])
    simp [this]

/-! ## C1: touch, change, restore -/

/-- C1. An untouched stochastic node whose stored value is a copy of its
value (hence unclamped) is touched with `getValuePtr`, a move writes an
arbitrary new value through the returned pointer, and `restore()` is called
with no `keep()` in between.  On an acyclic heap (certified by `rank`) in
which the node is a registered child of its distribution parameters, both
calls return, the node object is afterwards identical to what it was before
the touch (same value, not touched) and its log-probability
`calculateLnProbability()` is the same. -/
theorem C1_touch_restore_roundtrip {V R : Type} (dist : Distribution V R) (g : DAG V)
    (n : NodeId) (nd : DAGNode V) (rank : NodeId → Nat) (fuel : Nat)
    (affected : List NodeId) (newValue : V)
    (hN : g.stochastic n = some nd)
    (hunclamped : nd.clamped = false)
    (huntouched : nd.touched = false)
    (hstored : nd.storedValue = some nd.value)
    (hrank : IsRanking g rank) (hfuel : rank n ≤ fuel)
    (hparams : ∀ entry ∈ nd.distribution, ∀ p ∈ entry.2, n ∈ g.children p) :
    ∃ affected1 g1 g3,
      StochasticNode.getValuePtr fuel n affected g = Except.ok (nd.value, affected1, g1) ∧
      StochasticNode.restore n (writeThroughValuePtr n newValue g1) = Except.ok g3 ∧
      g3.node n = some nd ∧
      (g3.node n).map (fun x => (x.value, x.touched, x.clamped)) = some (nd.value, false, false) ∧
      StochasticNode.calculateLnProbability dist g3 n
        = StochasticNode.calculateLnProbability dist g n := by
  obtain ⟨hnode, htype⟩ := stochastic_some hN
  have hlen := node_some_lt hnode
  -- the touch
  have hshape1 : SameShape g (g.store n { nd with touched := true }) :=
    sameShape_store hnode rfl
  have hrank1 := IsRanking.ranking_of_sameShape hshape1 hrank
  obtain ⟨affected1, haff⟩ := forEach_ok
    (callGetAffected (g.store n { nd with touched := true }) fuel) nd.children
    (fun c hc s => callGetAffected_ok _ rank hrank1 fuel c s
      (Nat.lt_of_lt_of_le (hrank.lt (by rw [children_of_node hnode]; exact hc)) hfuel))
    affected
  refine ⟨affected1, g.store n { nd with touched := true },
    nd.children.foldl (fun acc c => callRestoreAffected c acc) g, ?_, ?_, ?_⟩
  · simp [StochasticNode.getValuePtr, hN, haff]
  · -- the write and the restore
    have hnode1 : (g.store n { nd with touched := true }).node n
        = some { nd with touched := true } := by simp [node_store, hlen]
    have hwrite : writeThroughValuePtr n newValue (g.store n { nd with touched := true })
        = g.store n { nd with touched := true, value := newValue } := by
      simp [writeThroughValuePtr, DAG.modify, hnode1, store_store]
    have hnode2 : (g.store n { nd with touched := true, value := newValue }).stochastic n
        = some { nd with touched := true, value := newValue } :=
      stochastic_of_node (by simp [node_store, hlen]) htype
    have hback :
        ({ nd with touched := false, value := nd.value, storedValue := some nd.value } :
          DAGNode V) = nd := by
      cases nd
      simp only at huntouched hstored
      simp [huntouched, hstored]
    rw [hwrite]
    simp only [StochasticNode.restore, hnode2]
    simp [hstored, store_store, hback, store_same hnode]
  · -- the frame of the restore loop
    obtain ⟨hs, hframe⟩ := foldl_call_frame callRestoreAffected callRestoreAffected_frame
      nd.children g
    have hn : (nd.children.foldl (fun acc c => callRestoreAffected c acc) g).node n = some nd := by
      rw [hframe n, hnode]
      intro c hc hmem
      have h1 : rank c < rank n := hrank.lt (by rw [children_of_node hnode]; exact hc)
      have h2 : rank n < rank c := hrank.lt hmem
      exact absurd (Nat.lt_trans h1 h2) (Nat.lt_irrefl _)
    refine ⟨hn, by simp [hn, huntouched, hunclamped], ?_⟩
    unfold StochasticNode.calculateLnProbability
    rw [stochastic_of_node hn htype, hN]
    simp only
    rw [getMembers_congr g _ nd.distribution]
    intro entry he p hp
    apply hframe
    intro c hc hmem
    have h1 : rank c < rank n := hrank.lt (by rw [children_of_node hnode]; exact hc)
    have h2 : rank p < rank c := hrank.lt hmem
    have h3 : rank n < rank p := hrank.lt (hparams entry he p hp)
    exact absurd (Nat.lt_trans h1 (Nat.lt_trans h3 h2)) (Nat.lt_irrefl _)

/-- Witness of C1 on `exampleChain`: node 1 is touched, set to 42 and
restored. -/
theorem C1_touch_restore_roundtrip_witness :
    exampleChain.stochastic 1
      = some (exampleNode DAGType.StochasticNode [0] [2] [("rate", some 0)] 5 (some 5) false false) ∧
    IsRanking exampleChain exampleRank ∧
    ∃ affected1 g1 g3,
      StochasticNode.getValuePtr 9 1 [] exampleChain = Except.ok (5, affected1, g1) ∧
      StochasticNode.restore 1 (writeThroughValuePtr 1 42 g1) = Except.ok g3 ∧
      g3.node 1 = some (exampleNode DAGType.StochasticNode [0] [2] [("rate", some 0)] 5 (some 5)
        false false) ∧
      (g3.node 1).map (fun x => (x.value, x.touched, x.clamped)) = some (5, false, false) ∧
      StochasticNode.calculateLnProbability (Dist_exp (fun x : Int => x)) g3 1
        = StochasticNode.calculateLnProbability (Dist_exp (fun x : Int => x)) exampleChain 1 :=
  ⟨by decide, by decide,
   C1_touch_restore_roundtrip (Dist_exp (fun x : Int => x)) exampleChain 1
    (exampleNode DAGType.StochasticNode [0] [2] [("rate", some 0)] 5 (some 5) false false)
    exampleRank 9 [] 42 (by decide) (by decide) (by decide) (by decide) (by decide) (by decide)
    (by decide)⟩

/-! ## C2: the four-way case split of the probability ratio -/

theorem areParentsTouched_iff {V : Type} (g : DAG V) (nd : DAGNode V) :
    StochasticNode.areParentsTouched g nd = true ↔
      ∃ p ∈ nd.parents, ∃ pn, g.node p = some pn ∧
        pn.dagType ≠ DAGType.ConstantNode ∧ pn.touched = true := by
  unfold StochasticNode.areParentsTouched isVariableNode
  simp only [List.any_eq_true, Bool.and_eq_true]
  constructor
  · rintro ⟨p, hp, h1, h2⟩
    cases hn : g.node p with
    | none => simp [hn] at h1
    | some pn =>
      simp [hn] at h1 h2
      exact ⟨p, hp, pn, hn, h1, h2⟩
  · rintro ⟨p, hp, pn, hn, h1, h2⟩
    exact ⟨p, hp, by simp [hn, h1], by simp [hn, h2]⟩

/-- C2. For every stochastic node and every distribution,
`getLnProbabilityRatio()` returns exactly 0 when neither the node nor a parent
is touched, `lnPriorRatio(value, storedValue)` when only the node is touched,
`lnLikelihoodRatio(value)` when only a parent is touched, and
`lnPdf(value) - lnPdf(storedValue)` when both are; a parent counts as touched
when it is a variable node whose touched flag is set. -/
theorem C2_getLnProbabilityRatio_cases {V R : Type} [Zero R] [Sub R]
    (dist : Distribution V R) (g : DAG V) (n : NodeId) (nd : DAGNode V)
    (hN : g.stochastic n = some nd) :
    (StochasticNode.areParentsTouched g nd = true ↔
      ∃ p ∈ nd.parents, ∃ pn, g.node p = some pn ∧
        pn.dagType ≠ DAGType.ConstantNode ∧ pn.touched = true) ∧
    (nd.touched = false → StochasticNode.areParentsTouched g nd = false →
      StochasticNode.getLnProbabilityRatio dist g n = some 0) ∧
    (nd.touched = true → StochasticNode.areParentsTouched g nd = false →
      StochasticNode.getLnProbabilityRatio dist g n
        = dist.lnPriorRatio (getMembers g nd.distribution) (some nd.value) nd.storedValue) ∧
    (nd.touched = false → StochasticNode.areParentsTouched g nd = true →
      StochasticNode.getLnProbabilityRatio dist g n
        = dist.lnLikelihoodRatio (getMembers g nd.distribution) (some nd.value)) ∧
    (nd.touched = true → StochasticNode.areParentsTouched g nd = true →
      ∀ a b, dist.lnPdf (getMembers g nd.distribution) (some nd.value) = some a →
        dist.lnPdf (getMembers g nd.distribution) nd.storedValue = some b →
        StochasticNode.getLnProbabilityRatio dist g n = some (a - b)) := by
  refine ⟨areParentsTouched_iff g nd, ?_, ?_, ?_, ?_⟩
  · intro h1 h2
    simp [StochasticNode.getLnProbabilityRatio, hN, h1, h2]
  · intro h1 h2
    simp [StochasticNode.getLnProbabilityRatio, hN, h1, h2]
  · intro h1 h2
    simp [StochasticNode.getLnProbabilityRatio, hN, h1, h2]
  · intro h1 h2 a b ha hb
    simp [StochasticNode.getLnProbabilityRatio, hN, h1, h2, ha, hb]

/-- Witness of C2 on `exampleChain`: node 1 and its parent are untouched, the
ratio is 0. -/
theorem C2_getLnProbabilityRatio_cases_witness :
    exampleChain.stochastic 1
      = some (exampleNode DAGType.StochasticNode [0] [2] [("rate", some 0)] 5 (some 5)
          false false) ∧
    StochasticNode.getLnProbabilityRatio (Dist_exp (fun x : Int => x)) exampleChain 1 = some 0 :=
  ⟨by decide,
   (C2_getLnProbabilityRatio_cases (Dist_exp (fun x : Int => x)) exampleChain 1
    (exampleNode DAGType.StochasticNode [0] [2] [("rate", some 0)] 5 (some 5) false false)
    (by decide)).2.1 (by decide) (by decide)⟩

/-! ## C3: both the node and its parameter touched -/

/-- With both the node and its rate parameter touched, the ratio is computed
with the current rate in both densities. -/
theorem getLnProbabilityRatio_exp_both_touched (lambdaOld lambdaNew xOld xNew : ℝ) :
    StochasticNode.getLnProbabilityRatio (Dist_exp Real.log)
        (exampleExpPair lambdaOld lambdaNew xOld xNew) 1
      = some ((Real.log lambdaNew - lambdaNew * xNew) - (Real.log lambdaNew - lambdaNew * xOld)) := by
  simp [StochasticNode.getLnProbabilityRatio, DAG.stochastic, DAG.node, exampleExpPair,
    exampleNode, StochasticNode.areParentsTouched, isVariableNode, getMembers, Dist_exp,
    Dist_exp.lnPdf, getVariable, StochasticNode.getStoredValue, List.lookup]

/-- C3, the code at the failing input: the rate changes from 2 to 1 while the
value changes from 0 to 1.  `getLnProbabilityRatio()` returns -1, which is the
density difference under the new rate only; the full density difference
`(ln 1 - 1 * 1) - (ln 2 - 2 * 0)` that the claim states is a different
number. -/
theorem C3_both_touched_ignores_old_rate :
    StochasticNode.getLnProbabilityRatio (Dist_exp Real.log)
        (exampleExpPair (2 : ℝ) 1 0 1) 1 = some (-1) ∧
    (Real.log 1 - 1 * 1) - (Real.log 2 - 2 * 0) ≠ (-1 : ℝ) := by
  constructor
  · rw [getLnProbabilityRatio_exp_both_touched]
    simp
  · have h : 0 < Real.log 2 := Real.log_pos (by norm_num)
    simp only [Real.log_one]
    intro h2
    linarith

/-! ## C9, C10: setValue, clamp, unclamp -/

theorem modify_inv {V : Type} (P : DAGNode V → Prop) (f : DAGNode V → DAGNode V)
    (hf : ∀ nd, P nd → P (f nd)) (g : DAG V) (k n : NodeId)
    (h : ∃ nd, g.node n = some nd ∧ P nd) :
    ∃ nd, (g.modify k f).node n = some nd ∧ P nd := by
  obtain ⟨nd, h1, h2⟩ := h
  rw [node_modify]
  by_cases e : n = k
  · subst e
    exact ⟨f nd, by simp [h1], hf nd h2⟩
  · exact ⟨nd, by simp [e, h1], h2⟩

theorem foldl_inv {V : Type} (Q : DAG V → Prop) (call : NodeId → DAG V → DAG V)
    (hcall : ∀ c g, Q g → Q (call c g)) (cs : List NodeId) (g : DAG V) (h : Q g) :
    Q (cs.foldl (fun acc c => call c acc) g) := by
  induction cs generalizing g with
  | nil => exact h
  | cons c rest ih => exact ih _ (hcall c g h)

/-- A property of the node object at `n` that `touchMe` preserves survives
any loop of `touchAffected()` calls. -/
theorem callTouchAffected_inv {V : Type} (P : DAGNode V → Prop)
    (hP : ∀ nd, P nd → P (touchMeObject nd)) (cs : List NodeId) (g : DAG V) (n : NodeId)
    (h : ∃ nd, g.node n = some nd ∧ P nd) :
    ∃ nd, ((cs.foldl (fun acc c => callTouchAffected c acc) g).node n = some nd) ∧ P nd := by
  apply foldl_inv (fun g1 => ∃ nd, g1.node n = some nd ∧ P nd) callTouchAffected _ cs g h
  intro c g1 h1
  unfold callTouchAffected DAGNode.touchAffected
  apply foldl_inv (fun g2 => ∃ nd, g2.node n = some nd ∧ P nd) touchMe _ _ g1 h1
  intro k g2 h2
  exact modify_inv P touchMeObject hP g2 k n h2

theorem touchMeObject_value {V : Type} (nd : DAGNode V) :
    (touchMeObject nd).value = nd.value ∧ (touchMeObject nd).clamped = nd.clamped ∧
    (touchMeObject nd).dagType = nd.dagType ∧
    ((touchMeObject nd).storedValue = nd.storedValue ∨
      (touchMeObject nd).storedValue = some nd.value) := by
  unfold touchMeObject
  cases hd : nd.dagType <;> simp [hd] <;> split <;> simp [hd]

/-- C9. `setValue(x)` on a stochastic node throws "Cannot set value of
clamped node" exactly when the node is clamped, and the throw leaves the whole
heap as it was; on an unclamped node it returns and the node then holds value
`x` and a stored value equal to `x`.  In particular `clamp(v)` followed by
`setValue(x)` throws, and `clamp(v)`, `unclamp()`, `setValue(x)` returns with
value `x`. -/
theorem C9_setValue_clamped {V : Type} (g : DAG V) (n : NodeId) (nd : DAGNode V) (x : V)
    (hN : g.stochastic n = some nd) :
    ((∃ e, StochasticNode.setValue n x g = Except.error e) ↔ nd.clamped = true) ∧
    (nd.clamped = true → StochasticNode.setValue n x g
        = Except.error (Failure.exception "Cannot set value of clamped node" g)) ∧
    (nd.clamped = false → ∃ g1, StochasticNode.setValue n x g = Except.ok g1 ∧
        (g1.node n).map (fun o => (o.value, o.storedValue, o.clamped))
          = some (x, some x, false)) ∧
    (∀ v, ∃ g1 g2 g3,
        StochasticNode.clamp n v g = Except.ok g1 ∧
        StochasticNode.setValue n x g1
          = Except.error (Failure.exception "Cannot set value of clamped node" g1) ∧
        StochasticNode.unclamp n g1 = Except.ok g2 ∧
        StochasticNode.setValue n x g2 = Except.ok g3 ∧
        (g3.node n).map (fun o => o.value) = some x) := by
  obtain ⟨hnode, htype⟩ := stochastic_some hN
  have hlen := node_some_lt hnode
  have hok : ∀ (g0 : DAG V) (nd0 : DAGNode V), g0.stochastic n = some nd0 →
      nd0.clamped = false → ∃ g1, StochasticNode.setValue n x g0 = Except.ok g1 ∧
        (g1.node n).map (fun o => (o.value, o.storedValue, o.clamped))
          = some (x, some x, false) := by
    intro g0 nd0 h0 hc
    obtain ⟨hnode0, _⟩ := stochastic_some h0
    refine ⟨nd0.children.foldl (fun acc c => callTouchAffected c acc)
      (g0.store n { nd0 with value := x, storedValue := some x }),
      by simp [StochasticNode.setValue, h0, hc], ?_⟩
    obtain ⟨o, ho, hv, hs, hcl⟩ := callTouchAffected_inv
      (fun o => o.value = x ∧ o.storedValue = some x ∧ o.clamped = false)
      (fun o ⟨h1, h2, h3⟩ => by
        obtain ⟨t1, t2, _, t4⟩ := touchMeObject_value o
        refine ⟨t1.trans h1, ?_, t2.trans h3⟩
        rcases t4 with t4 | t4
        · exact t4.trans h2
        · rw [t4, h1])
      nd0.children (g0.store n { nd0 with value := x, storedValue := some x }) n
      ⟨{ nd0 with value := x, storedValue := some x },
        by simp [node_store, node_some_lt hnode0], rfl, rfl, hc⟩
    simp [ho, hv, hs, hcl]
  refine ⟨?_, ?_, hok g nd hN, ?_⟩
  · constructor
    · rintro ⟨e, he⟩
      by_contra hc
      obtain ⟨g1, h1, _⟩ := hok g nd hN (by simpa using hc)
      rw [h1] at he
      cases he
    · intro hc
      exact ⟨Failure.exception "Cannot set value of clamped node" g,
        by simp [StochasticNode.setValue, hN, hc]⟩
  · intro hc
    simp [StochasticNode.setValue, hN, hc]
  · intro v
    have hinv := callTouchAffected_inv
      (fun o => o.clamped = true ∧ o.dagType = DAGType.StochasticNode)
      (fun o ⟨h1, h2⟩ => by
        obtain ⟨_, t2, t3, _⟩ := touchMeObject_value o
        exact ⟨t2.trans h1, t3.trans h2⟩)
      nd.children
      (g.store n { nd with value := v, storedValue := none, clamped := true, touched := false })
      n ⟨{ nd with value := v, storedValue := none, clamped := true, touched := false },
        by simp [node_store, hlen], rfl, htype⟩
    have hclamp : StochasticNode.clamp n v g = Except.ok
        (nd.children.foldl (fun acc c => callTouchAffected c acc) (g.store n
          { nd with value := v, storedValue := none, clamped := true, touched := false })) := by
      simp [StochasticNode.clamp, hN]
    generalize List.foldl (fun acc c => callTouchAffected c acc) (g.store n
      { nd with value := v, storedValue := none, clamped := true, touched := false })
      nd.children = gc at hinv hclamp
    obtain ⟨o, ho, hcl, hty⟩ := hinv
    have hst1 := stochastic_of_node ho hty
    have hlen1 := node_some_lt ho
    have hst2 : (gc.store n { o with clamped := false, storedValue := some o.value }).stochastic n
        = some { o with clamped := false, storedValue := some o.value } :=
      stochastic_of_node (by simp [node_store, hlen1]) hty
    obtain ⟨g3, h3, h4⟩ := hok _ _ hst2 rfl
    refine ⟨gc, gc.store n { o with clamped := false, storedValue := some o.value }, g3,
      hclamp, ?_, ?_, h3, ?_⟩
    · simp [StochasticNode.setValue, hst1, hcl]
    · simp [StochasticNode.unclamp, hst1]
    · cases hg : g3.node n with
      | none => simp [hg] at h4
      | some o3 =>
        simp [hg] at h4
        simp [h4.1]

theorem children_store {V : Type} {g : DAG V} {n : NodeId} {nd nd1 : DAGNode V}
    (h : g.node n = some nd) (hc : nd1.children = nd.children) (k : NodeId) :
    (g.store n nd1).children k = g.children k := by
  unfold DAG.children
  rw [node_store]
  by_cases e : k = n
  · subst e
    simp [node_some_lt h, h, hc]
  · simp [e]

/-- C10. `clamp(v)` on a stochastic node, clamped or not, touched or not, in
a heap where the node is not a child of one of its own children: the call
returns, the node then holds value `v`, is clamped, has no stored value and is
not touched, with every other field as before; the parents and children sets
of every node are unchanged. -/
theorem C10_clamp_state {V : Type} (g : DAG V) (n : NodeId) (nd : DAGNode V) (v : V)
    (hN : g.stochastic n = some nd)
    (hacyclic : ∀ c ∈ nd.children, n ∉ g.children c) :
    ∃ g1, StochasticNode.clamp n v g = Except.ok g1 ∧
      g1.node n = some
        { nd with value := v, storedValue := none, clamped := true, touched := false } ∧
      (g1.node n).map (fun o => (o.value, o.clamped, o.storedValue, o.touched))
        = some (v, true, none, false) ∧
      ∀ k, g1.parents k = g.parents k ∧ g1.children k = g.children k := by
  obtain ⟨hnode, htype⟩ := stochastic_some hN
  have hlen := node_some_lt hnode
  have hshape0 : SameShape g (g.store n
      { nd with value := v, storedValue := none, clamped := true, touched := false }) :=
    sameShape_store hnode rfl
  obtain ⟨hs, hframe⟩ := foldl_call_frame callTouchAffected callTouchAffected_frame
    nd.children (g.store n
      { nd with value := v, storedValue := none, clamped := true, touched := false })
  have hn := hframe n (by
    intro c hc
    rw [hshape0.children]
    exact hacyclic c hc)
  rw [node_store] at hn
  simp only [hlen, if_true] at hn
  refine ⟨nd.children.foldl (fun acc c => callTouchAffected c acc) (g.store n
      { nd with value := v, storedValue := none, clamped := true, touched := false }),
    by simp [StochasticNode.clamp, hN], hn, by simp [hn], fun k => ?_⟩
  have hs2 := hshape0.shape_trans hs
  refine ⟨?_, hs2.children k⟩
  have := hs2.2 k
  unfold DAG.parents
  cases h1 : (List.foldl (fun acc c => callTouchAffected c acc) (g.store n
      { nd with value := v, storedValue := none, clamped := true, touched := false })
      nd.children).node k <;> cases h0 : g.node k <;> simp [h1, h0] at this ⊢
  exact this.2.2.1

/-- Witness of C9 on `exampleChain`: node 1 is unclamped, `setValue(42)`
returns and leaves value 42 with stored value 42. -/
theorem C9_setValue_clamped_witness :
    exampleChain.stochastic 1
      = some (exampleNode DAGType.StochasticNode [0] [2] [("rate", some 0)] 5 (some 5)
          false false) ∧
    ∃ g1, StochasticNode.setValue 1 42 exampleChain = Except.ok g1 ∧
      (g1.node 1).map (fun o => (o.value, o.storedValue, o.clamped))
        = some (42, some 42, false) :=
  ⟨by decide,
   (C9_setValue_clamped exampleChain 1
    (exampleNode DAGType.StochasticNode [0] [2] [("rate", some 0)] 5 (some 5) false false)
    42 (by decide)).2.2.1 (by decide)⟩

/-- Witness of C10 on `exampleChain`: node 1 is clamped to 42. -/
theorem C10_clamp_state_witness :
    exampleChain.stochastic 1
      = some (exampleNode DAGType.StochasticNode [0] [2] [("rate", some 0)] 5 (some 5)
          false false) ∧
    ∃ g1, StochasticNode.clamp 1 42 exampleChain = Except.ok g1 ∧
      g1.node 1 = some
        (exampleNode DAGType.StochasticNode [0] [2] [("rate", some 0)] 42 none false true) ∧
      (g1.node 1).map (fun o => (o.value, o.clamped, o.storedValue, o.touched))
        = some (42, true, none, false) ∧
      ∀ k, g1.parents k = exampleChain.parents k ∧ g1.children k = exampleChain.children k :=
  ⟨by decide,
   C10_clamp_state exampleChain 1
    (exampleNode DAGType.StochasticNode [0] [2] [("rate", some 0)] 5 (some 5) false false)
    42 (by decide) (by decide)⟩

/-! ## C4: edges that close a cycle -/

theorem isParentInDAG_loop_ne_true (recurse : NodeId → Option Bool) (done : List NodeId)
    (h : ∀ i, recurse i ≠ some true) (ps : List NodeId) :
    DAGNode.isParentInDAG.loop recurse done ps ≠ some true := by
  induction ps with
  | nil => simp [DAGNode.isParentInDAG.loop]
  | cons i rest ih =>
    unfold DAGNode.isParentInDAG.loop
    split
    · exact ih
    · cases hr : recurse i with
      | none => simp
      | some b =>
        cases b with
        | true => exact absurd hr (h i)
        | false => simpa using ih

/-- The ancestor search never answers true: no call compares a node with
`x`. -/
theorem isParentInDAG_ne_true {V : Type} (g : DAG V) (x : NodeId) (done : List NodeId)
    (fuel : Nat) (this : NodeId) : DAGNode.isParentInDAG g x done fuel this ≠ some true := by
  induction fuel generalizing this with
  | zero => simp [DAGNode.isParentInDAG]
  | succ fuel ih =>
    unfold DAGNode.isParentInDAG
    exact isParentInDAG_loop_ne_true _ done ih _

/-- C4, the code at the failing input `exampleTriple`, where node 2 depends on
node 1.  Re-parenting node 1 from node 0 to node 2 with `swapParentNode`
returns normally and leaves the two nodes each a parent of the other;
`addChildNode` makes node 1 a child of node 2 without any failure; and the
ancestor search that the cycle check of the constructor relies on answers
false when asked whether node 1 is an ancestor of node 2. -/
theorem C4_cycle_accepted :
    (∃ g1, StochasticNode.swapParentNode 1 0 2 7 exampleTriple = Except.ok g1 ∧
      g1.parents 1 = [2] ∧ g1.children 2 = [1] ∧ g1.parents 2 = [1] ∧ g1.children 1 = [2]) ∧
    exampleTriple.children 2 = [] ∧
    (DAGNode.addChildNode 2 1 exampleTriple).children 2 = [1] ∧
    exampleTriple.parents 2 = [1] ∧
    DAGNode.isParentInDAG exampleTriple 1 [] 5 2 = some false := by
  refine ⟨⟨_, rfl, ?_, ?_, ?_, ?_⟩, ?_, ?_, ?_, ?_⟩ <;> decide

/-! ## Edge lemmas -/

theorem mem_setInsert {x y : NodeId} {s : List NodeId} :
    x ∈ setInsert y s ↔ x = y ∨ x ∈ s := by
  unfold setInsert
  split
  · constructor
    · exact Or.inr
    · rintro (h | h)
      · subst h; assumption
      · exact h
  · simp

theorem mem_setErase {x y : NodeId} {s : List NodeId} :
    x ∈ setErase y s ↔ x ∈ s ∧ x ≠ y := by
  simp [setErase]

theorem node_alloc {V : Type} (g : DAG V) (nd : DAGNode V) (k : NodeId) :
    (g.alloc nd).2.node k = if k = g.length then some nd else g.node k := by
  unfold DAG.alloc DAG.node
  simp only
  by_cases h : k < g.length
  · rw [List.getElem?_append_left h]
    simp [Nat.ne_of_lt h]
  · by_cases e : k = g.length
    · subst e
      simp
    · have h2 : g.length < k := by
        rcases Nat.lt_trichotomy k g.length with h3 | h3 | h3
        · exact absurd h3 h
        · exact absurd h3 e
        · exact h3
      rw [List.getElem?_eq_none (by simp; exact h2), List.getElem?_eq_none (Nat.le_of_lt h2)]
      simp [e]

theorem node_free {V : Type} (g : DAG V) (n k : NodeId) :
    (g.free n).node k = if k = n then none else g.node k := by
  unfold DAG.free DAG.node
  rw [List.getElem?_set]
  by_cases h : n = k
  · subst h
    simp
  · have h2 : ¬ k = n := fun e => h e.symm
    simp [h, h2]

theorem node_ge_length {V : Type} (g : DAG V) {k : NodeId} (h : g.length ≤ k) :
    g.node k = none := by
  unfold DAG.node
  rw [List.getElem?_eq_none h]
  rfl

theorem parents_modify {V : Type} (g : DAG V) (n k : NodeId) (f : DAGNode V → DAGNode V) :
    (g.modify n f).parents k
      = if k = n then (match g.node n with
                       | some nd => (f nd).parents
                       | none => []) else g.parents k := by
  unfold DAG.parents
  rw [node_modify]
  by_cases e : k = n
  · subst e
    cases g.node k <;> simp
  · simp [e]

theorem children_modify {V : Type} (g : DAG V) (n k : NodeId) (f : DAGNode V → DAGNode V) :
    (g.modify n f).children k
      = if k = n then (match g.node n with
                       | some nd => (f nd).children
                       | none => []) else g.children k := by
  unfold DAG.children
  rw [node_modify]
  by_cases e : k = n
  · subst e
    cases g.node k <;> simp
  · simp [e]

theorem parents_modify_same {V : Type} (g : DAG V) (n k : NodeId) (f : DAGNode V → DAGNode V)
    (hf : ∀ nd, (f nd).parents = nd.parents) : (g.modify n f).parents k = g.parents k := by
  rw [parents_modify]
  split
  · next e =>
    subst e
    unfold DAG.parents
    cases g.node k <;> simp [hf]
  · rfl

theorem children_modify_same {V : Type} (g : DAG V) (n k : NodeId) (f : DAGNode V → DAGNode V)
    (hf : ∀ nd, (f nd).children = nd.children) : (g.modify n f).children k = g.children k := by
  rw [children_modify]
  split
  · next e =>
    subst e
    unfold DAG.children
    cases g.node k <;> simp [hf]
  · rfl

theorem modify_eq_store {V : Type} {g : DAG V} {n : NodeId} {nd : DAGNode V}
    (h : g.node n = some nd) (f : DAGNode V → DAGNode V) : g.modify n f = g.store n (f nd) := by
  simp [DAG.modify, h]

/-- The edges after `addChildNode`: only the children set of `this` changes,
by the insertion of `c`. -/
theorem addChildNode_edges {V : Type} (this c : NodeId) (g : DAG V) (k : NodeId) :
    (DAGNode.addChildNode this c g).parents k = g.parents k ∧
    (DAGNode.addChildNode this c g).children k
      = if k = this ∧ (g.node this).isSome then setInsert c (g.children this)
        else g.children k := by
  unfold DAGNode.addChildNode
  cases h : g.node this with
  | none => simp
  | some nd =>
    have hst : g.store this { nd with children := setInsert c nd.children }
        = g.modify this (fun t => { t with children := setInsert c t.children }) := by
      rw [modify_eq_store h]
    simp only [hst]
    split
    · refine ⟨?_, ?_⟩
      · rw [parents_modify_same, parents_modify_same, parents_modify_same]
        all_goals intro _; rfl
      · rw [children_modify_same, children_modify_same, children_modify]
        · by_cases e : k = this
          · subst e
            simp [h, children_of_node h]
          · simp [e]
        all_goals intro _; rfl
    · refine ⟨?_, ?_⟩
      · rw [parents_modify_same]
        intro _; rfl
      rw [children_modify]
      by_cases e : k = this
      · subst e
        simp [h, children_of_node h]
      · simp [e]

/-- The edges after `removeChildNode`: only the children set of `this`
changes, by the removal of `c`. -/
theorem removeChildNode_edges {V : Type} (this c : NodeId) (g : DAG V) (k : NodeId) :
    (DAGNode.removeChildNode this c g).parents k = g.parents k ∧
    (DAGNode.removeChildNode this c g).children k
      = if k = this then setErase c (g.children this) else g.children k := by
  unfold DAGNode.removeChildNode
  refine ⟨?_, ?_⟩
  · rw [parents_modify_same]
    intro nd
    split <;> rfl
  rw [children_modify]
  by_cases e : k = this
  · subst e
    cases h : g.node k with
    | none => simp [DAG.children, h, setErase]
    | some nd =>
      simp only [if_true, children_of_node h]
      split
      · rfl
      · next hc =>
        unfold setErase
        symm
        rw [List.filter_eq_self]
        intro a ha
        simp only [bne_iff_ne, ne_eq]
        rintro rfl
        exact hc ha
  · simp [e]

theorem Consistent.node_of_mem_parents {V : Type} {g : DAG V} (h : Consistent g) {a b : NodeId}
    (hab : a ∈ g.parents b) : (g.node a).isSome ∧ (g.node b).isSome := by
  have h2 := (h a b).mp hab
  constructor
  · cases ha : g.node a with
    | none => simp [DAG.children, ha] at h2
    | some _ => rfl
  · cases hb : g.node b with
    | none => simp [DAG.parents, hb] at hab
    | some _ => rfl

theorem parents_of_node {V : Type} {g : DAG V} {c : NodeId} {cn : DAGNode V}
    (h : g.node c = some cn) : g.parents c = cn.parents := by
  simp [DAG.parents, h]

theorem Consistent.alloc {V : Type} {g : DAG V} (h : Consistent g) (nd : DAGNode V)
    (hp : nd.parents = []) (hc : nd.children = []) : Consistent (g.alloc nd).2 := by
  have hpar : ∀ k, (g.alloc nd).2.parents k = g.parents k := by
    intro k
    unfold DAG.parents
    rw [node_alloc]
    by_cases e : k = g.length
    · subst e
      simp [hp, node_ge_length g (Nat.le_refl _)]
    · simp [e]
  have hch : ∀ k, (g.alloc nd).2.children k = g.children k := by
    intro k
    unfold DAG.children
    rw [node_alloc]
    by_cases e : k = g.length
    · subst e
      simp [hc, node_ge_length g (Nat.le_refl _)]
    · simp [e]
  intro a b
  rw [hpar, hch]
  exact h a b

theorem lookup_mem {m : NodeMap} {k c : NodeId} (h : m.lookup k = some c) : (k, c) ∈ m := by
  induction m with
  | nil => simp at h
  | cons e rest ih =>
    obtain ⟨k1, c1⟩ := e
    rw [List.lookup_cons] at h
    by_cases e1 : k = k1
    · subst e1
      simp at h
      simp [h]
    · have : (k == k1) = false := by simpa using e1
      rw [this] at h
      exact List.mem_cons_of_mem _ (ih h)

/-- The fields of the object that `cloneDAG` allocates. -/
theorem cloneCopy_fields {V : Type} (nd : DAGNode V) :
    (DAGNode.cloneDAG.copy nd).parents = [] ∧ (DAGNode.cloneDAG.copy nd).children = [] ∧
    (DAGNode.cloneDAG.copy nd).distribution
      = nd.distribution.map (fun entry => (entry.1, none)) ∧
    IsCopyOf nd (DAGNode.cloneDAG.copy nd) := by
  unfold DAGNode.cloneDAG.copy IsCopyOf
  cases h : nd.dagType
  · simp [StochasticNode.pristine, h, Function.comp_def]
  · simp [StochasticNode.pristine, h, Function.comp_def]
  · simp only [StochasticNode.cloneDAG.copy, StochasticNode.pristine, if_true, List.map_map,
      true_and]
    refine ⟨?_, ?_⟩
    · cases nd.storedValue <;> rfl
    · apply List.map_congr_left
      intro e _
      rfl

theorem mem_paramRefs {table : VariableTable} {p : NodeId} :
    p ∈ paramRefs table ↔ ∃ name, (name, some p) ∈ table := by
  unfold paramRefs
  rw [List.mem_filterMap]
  constructor
  · rintro ⟨⟨name, ref⟩, he, hr⟩
    simp only at hr
    subst hr
    exact ⟨name, he⟩
  · rintro ⟨name, he⟩
    exact ⟨(name, some p), he, rfl⟩

theorem names_setVariable (name : String) (r : Option NodeId) (table : VariableTable) :
    (setVariable name r table).map Prod.fst = table.map Prod.fst := by
  unfold setVariable
  rw [List.map_map]
  apply List.map_congr_left
  intro e _
  simp only [Function.comp]
  split <;> rfl

theorem mem_setVariable {name : String} {r : Option NodeId} {table : VariableTable}
    {e : String × Option NodeId} :
    e ∈ setVariable name r table ↔
      (e = (name, r) ∧ name ∈ table.map Prod.fst) ∨ (e ∈ table ∧ e.1 ≠ name) := by
  unfold setVariable
  rw [List.mem_map]
  constructor
  · rintro ⟨a, ha, he⟩
    by_cases h : a.1 = name
    · rw [if_pos h] at he
      left
      refine ⟨?_, ?_⟩
      · rw [← he, h]
      · rw [← h]
        exact List.mem_map_of_mem _ ha
    · rw [if_neg h] at he
      subst he
      exact Or.inr ⟨ha, h⟩
  · rintro (⟨he, hn⟩ | ⟨he, hn⟩)
    · obtain ⟨a, ha, han⟩ := List.mem_map.mp hn
      exact ⟨a, ha, by rw [if_pos han, he, han]⟩
    · exact ⟨e, he, by rw [if_neg hn]⟩

theorem eta_children {V : Type} (xn : DAGNode V) :
    ({ xn with children := xn.children } : DAGNode V) = xn := by
  cases xn; rfl

theorem length_addChildNode {V : Type} (this c : NodeId) (g : DAG V) :
    (DAGNode.addChildNode this c g).length = g.length := by
  unfold DAGNode.addChildNode
  cases h : g.node this with
  | none => rfl
  | some nd =>
    simp only
    split
    · rw [length_modify, length_modify, length_store]
    · rw [length_store]

/-- The heap after one wiring step of `cloneDAG`, object by object: the copy
gets its parameter `name` and its parents set updated, the clone of the
parameter gets the copy as a child. -/
theorem node_wire {V : Type} (g : DAG V) (copy pc : NodeId) (name : String)
    (pcn : DAGNode V) (hpc : g.node pc = some pcn) (helim : pcn.type = VariableType.INSTANTIATED)
    (x : NodeId) :
    (DAGNode.addChildNode pc copy
      ((g.modify copy (fun c =>
        { c with distribution := setVariable name (some pc) c.distribution })).modify
        copy (fun c => { c with parents := setInsert pc c.parents }))).node x
    = (g.node x).map (fun xn =>
        { xn with
          distribution := if x = copy then setVariable name (some pc) xn.distribution
                          else xn.distribution
          parents := if x = copy then setInsert pc xn.parents else xn.parents
          children := if x = pc then setInsert copy xn.children else xn.children }) := by
  have h2 : ∀ y, ((g.modify copy (fun c =>
        { c with distribution := setVariable name (some pc) c.distribution })).modify
        copy (fun c => { c with parents := setInsert pc c.parents })).node y
      = (g.node y).map (fun xn =>
        { xn with
          distribution := if y = copy then setVariable name (some pc) xn.distribution
                          else xn.distribution
          parents := if y = copy then setInsert pc xn.parents else xn.parents }) := by
    intro y
    simp only [node_modify]
    by_cases e : y = copy
    · subst e
      cases g.node y <;> simp
    · simp only [e, if_false]
      cases hy : g.node y with
      | none => rfl
      | some yn => cases yn; rfl
  unfold DAGNode.addChildNode
  have hpc2 := h2 pc
  rw [hpc] at hpc2
  simp only [Option.map_some'] at hpc2
  rw [hpc2]
  simp only
  have hne : isEliminated ({ pcn with
      distribution := if pc = copy then setVariable name (some pc) pcn.distribution
                      else pcn.distribution
      parents := if pc = copy then setInsert pc pcn.parents else pcn.parents } : DAGNode V)
      = false := by
    simp [isEliminated, helim]
  rw [hne]
  simp only [Bool.false_eq_true, if_false]
  rw [node_store]
  by_cases e : x = pc
  · subst e
    have hlen : x < (((g.modify copy (fun c =>
        { c with distribution := setVariable name (some x) c.distribution })).modify
        copy (fun c => { c with parents := setInsert x c.parents }))).length :=
      node_some_lt hpc2
    simp only [if_true, hlen, hpc, Option.map_some']
  · simp only [e, if_false]
    rw [h2]

theorem pairs_snd_inj {m : NodeMap} (h : (m.map Prod.snd).Nodup) {a b c : NodeId}
    (ha : (a, c) ∈ m) (hb : (b, c) ∈ m) : a = b := by
  induction m with
  | nil => cases ha
  | cons e rest ih =>
    rw [List.map_cons, List.nodup_cons] at h
    rcases List.mem_cons.mp ha with ha | ha <;> rcases List.mem_cons.mp hb with hb | hb
    · rw [← ha] at hb
      exact (Prod.mk.inj hb).1.symm
    · exfalso
      apply h.1
      rw [← ha]
      exact List.mem_map.mpr ⟨(b, c), hb, rfl⟩
    · exfalso
      apply h.1
      rw [← hb]
      exact List.mem_map.mpr ⟨(a, c), ha, rfl⟩
    · exact ih h.2 ha hb

theorem pairs_fst_inj {m : NodeMap} (h : (m.map Prod.fst).Nodup) {k a b : NodeId}
    (ha : (k, a) ∈ m) (hb : (k, b) ∈ m) : a = b := by
  induction m with
  | nil => cases ha
  | cons e rest ih =>
    rw [List.map_cons, List.nodup_cons] at h
    rcases List.mem_cons.mp ha with ha | ha <;> rcases List.mem_cons.mp hb with hb | hb
    · rw [← ha] at hb
      exact (Prod.mk.inj hb).2.symm
    · exfalso
      apply h.1
      rw [← ha]
      exact List.mem_map.mpr ⟨(k, b), hb, rfl⟩
    · exfalso
      apply h.1
      rw [← hb]
      exact List.mem_map.mpr ⟨(k, a), ha, rfl⟩
    · exact ih h.2 ha hb

theorem paramRefs_setVariable_fresh {name : String} {pc x : NodeId} {table : VariableTable}
    (hname : name ∈ table.map Prod.fst) (hfresh : ∀ y, (name, some y) ∉ table) :
    x ∈ paramRefs (setVariable name (some pc) table) ↔ x = pc ∨ x ∈ paramRefs table := by
  rw [mem_paramRefs, mem_paramRefs]
  constructor
  · rintro ⟨nm, h⟩
    rcases mem_setVariable.mp h with ⟨h1, _⟩ | ⟨h1, _⟩
    · left
      have := (Prod.mk.inj h1).2
      exact Option.some.inj this
    · exact Or.inr ⟨nm, h1⟩
  · rintro (h | ⟨nm, h⟩)
    · subst h
      exact ⟨name, mem_setVariable.mpr (Or.inl ⟨rfl, hname⟩)⟩
    · refine ⟨nm, mem_setVariable.mpr (Or.inr ⟨h, ?_⟩)⟩
      intro e
      simp only at e
      subst e
      exact hfresh x h

theorem CloneInv.val_range {V : Type} {g0 : DAG V} {s : NodeMap × DAG V} (h : CloneInv g0 s)
    {k c : NodeId} (hk : (k, c) ∈ s.1) : g0.length ≤ c ∧ c < s.2.length :=
  (h.vals_range c).mp (List.mem_map_of_mem Prod.snd hk)

theorem CloneInv.key_lt {V : Type} {g0 : DAG V} {s : NodeMap × DAG V} (h : CloneInv g0 s)
    {k c : NodeId} (hk : (k, c) ∈ s.1) : k < g0.length := by
  obtain ⟨nd, _, h1, _⟩ := h.copies k c hk
  exact node_some_lt h1

/-- The wiring step of `cloneDAG` keeps the invariant. -/
theorem cloneInv_wire {V : Type} {g0 : DAG V} {m : NodeMap} {g : DAG V}
    (hinv : CloneInv g0 (m, g)) {n copy p pc : NodeId} {name : String} {nd : DAGNode V}
    (hn : g0.node n = some nd) (hcopy : (n, copy) ∈ m) (hp : (p, pc) ∈ m)
    (hname : (name, some p) ∈ nd.distribution)
    (hfresh : ∀ cn, g.node copy = some cn → ∀ y, (name, some y) ∉ cn.distribution) :
    CloneInv g0 (m, DAGNode.addChildNode pc copy
      ((g.modify copy (fun c =>
        { c with distribution := setVariable name (some pc) c.distribution })).modify
        copy (fun c => { c with parents := setInsert pc c.parents }))) := by
  obtain ⟨pnd, pcn, _, hpcn, hpcopy⟩ := hinv.copies p pc hp
  obtain ⟨nd1, cn, hnd1, hcn, hcopyOf⟩ := hinv.copies n copy hcopy
  simp only at hpcn hcn
  rw [hn] at hnd1
  injection hnd1 with hnd1
  subst hnd1
  have hW := node_wire g copy pc name pcn hpcn hpcopy.2.2.2.2.2.1
  have hlenW : (DAGNode.addChildNode pc copy
      ((g.modify copy (fun c =>
        { c with distribution := setVariable name (some pc) c.distribution })).modify
        copy (fun c => { c with parents := setInsert pc c.parents }))).length = g.length := by
    rw [length_addChildNode, length_modify, length_modify]
  generalize DAGNode.addChildNode pc copy
      ((g.modify copy (fun c =>
        { c with distribution := setVariable name (some pc) c.distribution })).modify
        copy (fun c => { c with parents := setInsert pc c.parents })) = W at hW hlenW
  have hcopyR := hinv.val_range hcopy
  have hpcR := hinv.val_range hp
  simp only at hcopyR hpcR
  -- the edges of the wired heap
  have hparW : ∀ x y, y ∈ g.parents x → y ∈ W.parents x := by
    intro x y hy
    unfold DAG.parents at hy ⊢
    rw [hW]
    cases hx : g.node x with
    | none => simp [hx] at hy
    | some xn =>
      simp only [hx, Option.map_some'] at hy ⊢
      split
      · exact mem_setInsert.mpr (Or.inr hy)
      · exact hy
  have hchW : ∀ x y, y ∈ g.children x → y ∈ W.children x := by
    intro x y hy
    unfold DAG.children at hy ⊢
    rw [hW]
    cases hx : g.node x with
    | none => simp [hx] at hy
    | some xn =>
      simp only [hx, Option.map_some'] at hy ⊢
      split
      · exact mem_setInsert.mpr (Or.inr hy)
      · exact hy
  have hnewP : pc ∈ W.parents copy := by
    unfold DAG.parents
    rw [hW, hcn]
    simp [mem_setInsert]
  have hnewC : copy ∈ W.children pc := by
    unfold DAG.children
    rw [hW, hpcn]
    simp [mem_setInsert]
  have hnameIn : name ∈ cn.distribution.map Prod.fst := by
    rw [hcopyOf.2.2.2.2.2.2]
    exact List.mem_map.mpr ⟨(name, some p), hname, rfl⟩
  have hold : ∀ x xn1, W.node x = some xn1 → ∃ xn, g.node x = some xn ∧ xn1 =
      { xn with
        distribution := if x = copy then setVariable name (some pc) xn.distribution
                        else xn.distribution
        parents := if x = copy then setInsert pc xn.parents else xn.parents
        children := if x = pc then setInsert copy xn.children else xn.children } := by
    intro x xn1 hx
    rw [hW] at hx
    cases hg : g.node x with
    | none => simp [hg] at hx
    | some xn =>
      simp only [hg, Option.map_some'] at hx
      injection hx with hx
      exact ⟨xn, rfl, hx.symm⟩
  refine ⟨?_, ?_, hinv.keys_nodup, hinv.vals_nodup, ?_, ?_, ?_, ?_, ?_⟩
  · -- originals
    intro k hk
    simp only
    rw [hW, ← hinv.originals k hk]
    have e1 : k ≠ copy := fun e => by subst e; exact absurd hk (Nat.not_lt.mpr hcopyR.1)
    have e2 : k ≠ pc := fun e => by subst e; exact absurd hk (Nat.not_lt.mpr hpcR.1)
    simp only [e1, e2, if_false]
    cases hg : g.node k with
    | none => rfl
    | some xn => cases xn; rfl
  · simp only
    rw [hlenW]
    exact hinv.length_le
  · intro c
    simp only
    rw [hlenW]
    exact hinv.vals_range c
  · -- copies
    intro k c hk
    obtain ⟨knd, kcn, h1, h2, h3⟩ := hinv.copies k c hk
    simp only at h2
    refine ⟨knd, _, h1, by simp only; rw [hW, h2]; rfl, ?_⟩
    obtain ⟨c1, c2, c3, c4, c5, c6, c7⟩ := h3
    refine ⟨c1, c2, c3, c4, c5, c6, ?_⟩
    simp only
    split
    · rw [names_setVariable]; exact c7
    · exact c7
  · -- edges
    intro c cn1 hc hcn1
    simp only at hcn1
    obtain ⟨xn, hxn, hdef⟩ := hold c cn1 hcn1
    obtain ⟨o1, o2⟩ := hinv.edges c xn hc hxn
    simp only at o1 o2
    subst hdef
    simp only
    constructor
    · intro x hx
      by_cases e : c = copy
      · simp only [e, if_true, mem_setInsert] at hx
        rcases hx with hx | hx
        · subst hx
          subst e
          exact ⟨hpcR.1, hnewC⟩
        · have := o1 x hx
          exact ⟨this.1, hchW x c this.2⟩
      · simp only [e, if_false] at hx
        have := o1 x hx
        exact ⟨this.1, hchW x c this.2⟩
    · intro x hx
      by_cases e : c = pc
      · simp only [e, if_true, mem_setInsert] at hx
        rcases hx with hx | hx
        · subst hx
          subst e
          exact ⟨hcopyR.1, hnewP⟩
        · have := o2 x hx
          exact ⟨this.1, hparW x c this.2⟩
      · simp only [e, if_false] at hx
        have := o2 x hx
        exact ⟨this.1, hparW x c this.2⟩
  · -- wired
    intro c cn1 hc hcn1 x
    simp only at hcn1
    obtain ⟨xn, hxn, hdef⟩ := hold c cn1 hcn1
    have o := hinv.wired c xn hc hxn x
    subst hdef
    simp only
    by_cases e : c = copy
    · subst e
      rw [hcn] at hxn
      injection hxn with hxn
      subst hxn
      simp only [if_true, mem_setInsert]
      rw [paramRefs_setVariable_fresh hnameIn (hfresh cn hcn), o]
    · simp only [e, if_false]
      exact o
  · -- wiredFrom
    intro k c knd cn1 hk hknd hcn1 nm x hx
    simp only at hcn1 hk
    obtain ⟨xn, hxn, hdef⟩ := hold c cn1 hcn1
    subst hdef
    simp only at hx
    by_cases e : c = copy
    · subst e
      have hkn : k = n := pairs_snd_inj hinv.vals_nodup hk hcopy
      subst hkn
      rw [hn] at hknd
      injection hknd with hknd
      subst hknd
      simp only [if_true] at hx
      rcases mem_setVariable.mp hx with ⟨h1, _⟩ | ⟨h1, _⟩
      · obtain ⟨h2, h3⟩ := Prod.mk.inj h1
        subst h2
        have h4 := Option.some.inj h3
        subst h4
        exact ⟨p, hname, hp⟩
      · exact hinv.wiredFrom k c nd xn hk hn hxn nm x h1
    · simp only [e, if_false] at hx
      exact hinv.wiredFrom k c knd xn hk hknd hxn nm x hx

/-! ## Cloning: frames -/

theorem CloneFrame.frame_refl {V : Type} (g : DAG V) : CloneFrame g g := by
  intro x xn hx
  exact ⟨xn, hx, (eta_children xn).symm, fun _ hy => hy⟩

theorem CloneFrame.frame_trans {V : Type} {a b c : DAG V} (h1 : CloneFrame a b) (h2 : CloneFrame b c) :
    CloneFrame a c := by
  intro x xn hx
  obtain ⟨xn1, e1, e2, e3⟩ := h1 x xn hx
  obtain ⟨xn2, f1, f2, f3⟩ := h2 x xn1 e1
  refine ⟨xn2, f1, ?_, fun y hy => f3 y (e3 y hy)⟩
  rw [f2, e2]

theorem CloneFrame.except {V : Type} {a b : DAG V} (h : CloneFrame a b) (copy : NodeId) :
    CloneFrameExcept copy a b :=
  fun x xn _ hx => h x xn hx

theorem CloneFrameExcept.except_trans {V : Type} {copy : NodeId} {a b c : DAG V}
    (h1 : CloneFrameExcept copy a b) (h2 : CloneFrameExcept copy b c) :
    CloneFrameExcept copy a c := by
  intro x xn hne hx
  obtain ⟨xn1, e1, e2, e3⟩ := h1 x xn hne hx
  obtain ⟨xn2, f1, f2, f3⟩ := h2 x xn1 hne e1
  refine ⟨xn2, f1, ?_, fun y hy => f3 y (e3 y hy)⟩
  rw [f2, e2]

theorem cloneFrame_alloc {V : Type} (g : DAG V) (nd : DAGNode V) :
    CloneFrame g (g.alloc nd).2 := by
  intro x xn hx
  refine ⟨xn, ?_, (eta_children xn).symm, fun _ hy => hy⟩
  rw [node_alloc]
  have : x ≠ g.length := fun e => by
    subst e
    exact absurd (node_some_lt hx) (Nat.lt_irrefl _)
  simp [this, hx]

theorem cloneFrameExcept_wire {V : Type} (g : DAG V) (copy pc : NodeId) (name : String)
    (pcn : DAGNode V) (hpc : g.node pc = some pcn)
    (helim : pcn.type = VariableType.INSTANTIATED) :
    CloneFrameExcept copy g (DAGNode.addChildNode pc copy
      ((g.modify copy (fun c =>
        { c with distribution := setVariable name (some pc) c.distribution })).modify
        copy (fun c => { c with parents := setInsert pc c.parents }))) := by
  intro x xn hne hx
  refine ⟨_, by rw [node_wire g copy pc name pcn hpc helim, hx]; rfl, ?_, ?_⟩
  · simp only [hne, if_false]
  · intro y hy
    simp only
    split
    · exact mem_setInsert.mpr (Or.inr hy)
    · exact hy

theorem Finished.frame {V : Type} {g0 : DAG V} {s s1 : NodeMap × DAG V} {k c copy : NodeId}
    (h : Finished g0 s k c) (hne : c ≠ copy) (hf : CloneFrameExcept copy s.2 s1.2)
    (hm : ∀ e ∈ s.1, e ∈ s1.1) : Finished g0 s1 k c := by
  obtain ⟨nd, cn, h1, h2, h3, h4⟩ := h
  obtain ⟨cn1, e1, e2, _⟩ := hf c cn hne h2
  refine ⟨nd, cn1, h1, e1, ?_, ?_⟩
  · intro name p hp
    obtain ⟨x, hx1, hx2⟩ := h3 name p hp
    refine ⟨x, hm _ hx1, ?_⟩
    rw [e2]
    exact hx2
  · intro ch hch
    obtain ⟨e, he1, he2⟩ := List.mem_map.mp (h4 ch hch)
    exact List.mem_map.mpr ⟨e, hm e he1, he2⟩

/-- Allocating the pristine copy of `n` and entering it into the node map
keeps the invariant. -/
theorem cloneInv_alloc {V : Type} {g0 : DAG V} {m : NodeMap} {g : DAG V}
    (hinv : CloneInv g0 (m, g)) {n : NodeId} {nd : DAGNode V}
    (hn : g0.node n = some nd) (hnew : n ∉ m.map Prod.fst) :
    CloneInv g0 ((n, g.length) :: m, g ++ [some (DAGNode.cloneDAG.copy nd)]) := by
  obtain ⟨fpar, fch, fdist, fcopy⟩ := cloneCopy_fields nd
  generalize DAGNode.cloneDAG.copy nd = newObj at fpar fch fdist fcopy
  have hnode : ∀ k, DAG.node (g ++ [some newObj]) k
      = if k = g.length then some newObj else g.node k := node_alloc g newObj
  have hold : ∀ k, k < g.length → DAG.node (g ++ [some newObj]) k = g.node k := by
    intro k hk
    rw [hnode]
    simp [Nat.ne_of_lt hk]
  have hmonoC : ∀ x y, y ∈ g.children x → y ∈ DAG.children (g ++ [some newObj]) x := by
    intro x y hy
    cases hx : g.node x with
    | none => simp [DAG.children, hx] at hy
    | some xn =>
      unfold DAG.children
      rw [hold x (node_some_lt hx)]
      exact hy
  have hmonoP : ∀ x y, y ∈ g.parents x → y ∈ DAG.parents (g ++ [some newObj]) x := by
    intro x y hy
    cases hx : g.node x with
    | none => simp [DAG.parents, hx] at hy
    | some xn =>
      unfold DAG.parents
      rw [hold x (node_some_lt hx)]
      exact hy
  have hnoval : g.length ∉ m.map Prod.snd := by
    intro h
    exact absurd ((hinv.vals_range _).mp h).2 (Nat.lt_irrefl _)
  refine ⟨?_, ?_, ?_, ?_, ?_, ?_, ?_, ?_, ?_⟩
  · intro k hk
    simp only
    rw [hold k (Nat.lt_of_lt_of_le hk hinv.length_le)]
    exact hinv.originals k hk
  · simp only [List.length_append, List.length_singleton]
    exact Nat.le_succ_of_le hinv.length_le
  · simp only [List.map_cons, List.nodup_cons]
    exact ⟨hnew, hinv.keys_nodup⟩
  · simp only [List.map_cons, List.nodup_cons]
    exact ⟨hnoval, hinv.vals_nodup⟩
  · intro c
    simp only [List.map_cons, List.mem_cons, List.length_append, List.length_singleton]
    have := hinv.vals_range c
    simp only at this
    rw [this]
    constructor
    · rintro (h | h)
      · subst h
        exact ⟨hinv.length_le, Nat.lt_succ_self _⟩
      · exact ⟨h.1, Nat.lt_succ_of_lt h.2⟩
    · rintro ⟨h1, h2⟩
      rcases Nat.lt_succ_iff_lt_or_eq.mp h2 with h3 | h3
      · exact Or.inr ⟨h1, h3⟩
      · exact Or.inl h3
  · intro k c hk
    rcases List.mem_cons.mp hk with h | h
    · obtain ⟨h1, h2⟩ := Prod.mk.inj h
      subst h1; subst h2
      exact ⟨nd, newObj, hn, by simp only; rw [hnode]; simp, fcopy⟩
    · obtain ⟨knd, kcn, h1, h2, h3⟩ := hinv.copies k c h
      refine ⟨knd, kcn, h1, ?_, h3⟩
      simp only at h2 ⊢
      rw [hold c (node_some_lt h2)]
      exact h2
  · intro c cn hc hcn
    simp only at hcn
    rw [hnode] at hcn
    by_cases e : c = g.length
    · simp only [e, if_true] at hcn
      injection hcn with hcn
      subst hcn
      simp [fpar, fch]
    · simp only [e, if_false] at hcn
      obtain ⟨o1, o2⟩ := hinv.edges c cn hc hcn
      simp only at o1 o2
      exact ⟨fun x hx => ⟨(o1 x hx).1, hmonoC x c (o1 x hx).2⟩,
        fun x hx => ⟨(o2 x hx).1, hmonoP x c (o2 x hx).2⟩⟩
  · intro c cn hc hcn x
    simp only at hcn
    rw [hnode] at hcn
    by_cases e : c = g.length
    · simp only [e, if_true] at hcn
      injection hcn with hcn
      subst hcn
      rw [fpar, fdist]
      simp only [List.not_mem_nil, false_iff, mem_paramRefs, not_exists]
      intro nm h
      obtain ⟨a, _, ha⟩ := List.mem_map.mp h
      cases (Prod.mk.inj ha).2
    · simp only [e, if_false] at hcn
      exact hinv.wired c cn hc hcn x
  · intro k c knd cn hk hknd hcn nm x hx
    simp only at hcn
    rw [hnode] at hcn
    by_cases e : c = g.length
    · simp only [e, if_true] at hcn
      injection hcn with hcn
      subst hcn
      rw [fdist] at hx
      obtain ⟨a, _, ha⟩ := List.mem_map.mp hx
      cases (Prod.mk.inj ha).2
    · simp only [e, if_false] at hcn
      rcases List.mem_cons.mp hk with h | h
      · exact absurd (Prod.mk.inj h).2 e
      · obtain ⟨p, hp1, hp2⟩ := hinv.wiredFrom k c knd cn h hknd hcn nm x hx
        exact ⟨p, hp1, List.mem_cons_of_mem _ hp2⟩

/-! ## Cloning: the loops -/

theorem Cloneable.cloneable_of_node {V : Type} {g : DAG V} (h : Cloneable g) {k : NodeId}
    {nd : DAGNode V} (hk : g.node k = some nd) :
    (∀ entry ∈ nd.distribution, (entry.2.bind g.node).isSome = true) ∧
    (∀ c ∈ nd.children, (g.node c).isSome = true) ∧
    (nd.distribution.map Prod.fst).Nodup := by
  apply h (some nd) _ nd rfl
  unfold DAG.node at hk
  cases hg : g[k]? with
  | none => simp [hg] at hk
  | some o =>
    simp [hg] at hk
    subst hk
    exact List.getElem?_mem hg

/-- The wiring loop of `cloneDAG`: with the parameters `done` already wired,
the loop over the remaining parameters `rest` returns, keeps the invariant,
changes no existing object other than the copy except by adding children, and
leaves every parameter of the original wired in the copy. -/
theorem params_spec {V : Type} {g0 : DAG V} (hW : Cloneable g0)
    (recurse : NodeId → NodeMap × DAG V → Result V (NodeId × (NodeMap × DAG V)))
    (size : Nat) (hrec : CloneTotal g0 recurse size) {n copy : NodeId} {nd : DAGNode V}
    (hn : g0.node n = some nd) :
    ∀ (rest done : VariableTable), nd.distribution = done ++ rest →
    ∀ s : NodeMap × DAG V, CloneInv g0 s → size ≤ s.1.length → (n, copy) ∈ s.1 →
      (∃ cn, s.2.node copy = some cn ∧
        (∀ name x, (name, some x) ∈ cn.distribution → name ∈ done.map Prod.fst) ∧
        (∀ name p, (name, some p) ∈ done →
          ∃ x, (p, x) ∈ s.1 ∧ (name, some x) ∈ cn.distribution)) →
      ∃ s1, StochasticNode.cloneDAG.params recurse copy rest s = Except.ok s1 ∧
        CloneInv g0 s1 ∧ CloneFrameExcept copy s.2 s1.2 ∧ (∃ added, s1.1 = added ++ s.1) ∧
        (∃ cn, s1.2.node copy = some cn ∧
          ∀ name p, (name, some p) ∈ nd.distribution →
            ∃ x, (p, x) ∈ s1.1 ∧ (name, some x) ∈ cn.distribution) ∧
        (∀ k cl, (k, cl) ∈ s1.1 → k ∉ s.1.map Prod.fst →
          Finished g0 s1 k cl ∧
            ∃ p ∈ paramRefs rest, Relation.ReflTransGen (Linked g0) p k) := by
  intro rest
  induction rest with
  | nil =>
    intro done hsplit s hinv _ _ hprog
    rw [List.append_nil] at hsplit
    obtain ⟨cn, h1, _, h3⟩ := hprog
    refine ⟨s, rfl, hinv, (CloneFrame.frame_refl s.2).except copy, ⟨[], rfl⟩,
      ⟨cn, h1, by rw [hsplit]; exact h3⟩, ?_⟩
    intro k cl hk hnk
    exact absurd (List.mem_map.mpr ⟨(k, cl), hk, rfl⟩) hnk
  | cons entry rest ih =>
    intro done hsplit s hinv hsize hcopy hprog
    obtain ⟨name, ref⟩ := entry
    obtain ⟨hrefs, _, hnames⟩ := hW.cloneable_of_node hn
    have hentry : (name, ref) ∈ nd.distribution := by
      rw [hsplit]
      exact List.mem_append_right _ (List.mem_cons_self _ _)
    have hrefSome := hrefs (name, ref) hentry
    cases ref with
    | none => simp at hrefSome
    | some p =>
      simp only [Option.some_bind] at hrefSome
      obtain ⟨pc, s1, hcall, hstep⟩ := hrec p s hinv hrefSome hsize
      obtain ⟨m1, g1⟩ := s1
      obtain ⟨hinv1, hframe1, ⟨added1, hadd1⟩, hppc, hnew1⟩ := hstep
      simp only at hadd1 hppc hframe1
      have hsub1 : ∀ e ∈ s.1, e ∈ m1 := by
        intro e he
        rw [hadd1]
        exact List.mem_append_right _ he
      have hcopy1 := hsub1 _ hcopy
      obtain ⟨cn, hcn, hprog1, hprog2⟩ := hprog
      obtain ⟨cn1, hcn1, hcn1eq, _⟩ := hframe1 copy cn hcn
      have hdist1 : cn1.distribution = cn.distribution := by rw [hcn1eq]
      have hnameNotDone : name ∉ done.map Prod.fst := by
        rw [hsplit, List.map_append, List.map_cons] at hnames
        intro hmem
        have := (List.nodup_append.mp hnames).2.2
        exact this hmem (List.mem_cons_self _ _)
      have hfresh : ∀ c0, g1.node copy = some c0 → ∀ y, (name, some y) ∉ c0.distribution := by
        intro c0 hc0 y hy
        rw [hcn1] at hc0
        injection hc0 with hc0
        subst hc0
        rw [hdist1] at hy
        exact hnameNotDone (hprog1 name y hy)
      obtain ⟨pnd, pcn, _, hpcn, hpcopy⟩ := hinv1.copies p pc hppc
      simp only at hpcn
      have hinvW := cloneInv_wire hinv1 hn hcopy1 hppc hentry hfresh
      have hframeW := cloneFrameExcept_wire g1 copy pc name pcn hpcn hpcopy.2.2.2.2.2.1
      have hnodeW := node_wire g1 copy pc name pcn hpcn hpcopy.2.2.2.2.2.1 copy
      generalize hWdef : DAGNode.addChildNode pc copy
        ((g1.modify copy (fun c =>
          { c with distribution := setVariable name (some pc) c.distribution })).modify
          copy (fun c => { c with parents := setInsert pc c.parents })) = W
        at hinvW hframeW hnodeW
      rw [hcn1] at hnodeW
      simp only [Option.map_some', if_true] at hnodeW
      obtain ⟨nd1, cn1c, hnd1, hcn1c, hcopyOf⟩ := hinv1.copies n copy hcopy1
      simp only at hcn1c
      rw [hn] at hnd1
      injection hnd1 with hnd1
      subst hnd1
      rw [hcn1] at hcn1c
      injection hcn1c with hcn1c
      subst hcn1c
      have hnameIn : name ∈ cn1.distribution.map Prod.fst := by
        rw [hcopyOf.2.2.2.2.2.2]
        exact List.mem_map.mpr ⟨(name, some p), hentry, rfl⟩
      have hsplit2 : nd.distribution = (done ++ [(name, some p)]) ++ rest := by
        rw [hsplit, List.append_assoc]
        rfl
      obtain ⟨s2, hloop, hinv2, hframe2, ⟨added2, hadd2⟩, hfin2, hnew2⟩ :=
        ih (done ++ [(name, some p)]) hsplit2 (m1, W) hinvW
          (by simp only; rw [hadd1, List.length_append]; exact Nat.le_trans hsize (Nat.le_add_left _ _))
          hcopy1
          ⟨_, hnodeW, by
            intro nm x hx
            simp only at hx
            rw [List.map_append, List.mem_append]
            rcases mem_setVariable.mp hx with ⟨h1, _⟩ | ⟨h1, _⟩
            · right
              rw [(Prod.mk.inj h1).1]
              simp
            · left
              rw [hdist1] at h1
              exact hprog1 nm x h1, by
            intro nm q hq
            simp only
            rcases List.mem_append.mp hq with hq1 | hq1
            · obtain ⟨x, hx1, hx2⟩ := hprog2 nm q hq1
              refine ⟨x, hsub1 _ hx1, mem_setVariable.mpr (Or.inr ⟨by rw [hdist1]; exact hx2, ?_⟩)⟩
              intro e
              simp only at e
              rw [← e] at hnameNotDone
              exact hnameNotDone (List.mem_map.mpr ⟨(nm, some q), hq1, rfl⟩)
            · simp only [List.mem_singleton] at hq1
              obtain ⟨h1, h2⟩ := Prod.mk.inj hq1
              have h3 := Option.some.inj h2
              subst h1; subst h3
              exact ⟨pc, hppc, mem_setVariable.mpr (Or.inl ⟨rfl, hnameIn⟩)⟩⟩
      simp only at hadd2 hframe2
      refine ⟨s2, ?_, hinv2, ?_, ⟨added2 ++ added1, ?_⟩, hfin2, ?_⟩
      · unfold StochasticNode.cloneDAG.params
        simp only [hcall]
        rw [hWdef]
        exact hloop
      · exact ((hframe1.except copy).except_trans hframeW).except_trans hframe2
      · rw [hadd2, hadd1, List.append_assoc]
      · intro k cl hk hnk
        by_cases hk1 : k ∈ m1.map Prod.fst
        · obtain ⟨e, he1, he2⟩ := List.mem_map.mp hk1
          obtain ⟨k0, cl0⟩ := e
          simp only at he2
          subst he2
          have hin2 : (k0, cl0) ∈ s2.1 := by
            rw [hadd2]
            exact List.mem_append_right _ he1
          have hcl : cl0 = cl := pairs_fst_inj hinv2.keys_nodup hin2 hk
          subst hcl
          obtain ⟨hfin, hreach⟩ := hnew1 k0 cl0 he1 hnk
          have hne : cl0 ≠ copy := by
            intro e
            subst e
            have := pairs_snd_inj hinv1.vals_nodup he1 hcopy1
            subst this
            exact hnk (List.mem_map.mpr ⟨(k0, cl0), hcopy, rfl⟩)
          have hfinW : Finished g0 (m1, W) k0 cl0 :=
            hfin.frame hne hframeW (fun _ h => h)
          refine ⟨hfinW.frame hne hframe2 (fun e he => by
            rw [hadd2]; exact List.mem_append_right _ he), p, ?_, hreach⟩
          simp [paramRefs]
        · obtain ⟨hfin, q, hq, hreach⟩ := hnew2 k cl hk hk1
          refine ⟨hfin, q, ?_, hreach⟩
          rw [mem_paramRefs] at hq ⊢
          obtain ⟨nm, hnm⟩ := hq
          exact ⟨nm, List.mem_cons_of_mem _ hnm⟩

theorem Finished.of_cloneFrame {V : Type} {g0 : DAG V} {s s1 : NodeMap × DAG V}
    {k c : NodeId} (h : Finished g0 s k c) (hf : CloneFrame s.2 s1.2)
    (hm : ∀ e ∈ s.1, e ∈ s1.1) : Finished g0 s1 k c :=
  h.frame (Nat.succ_ne_self c).symm (hf.except (c + 1)) hm

/-- The loop of `cloneDAG` over the children: it returns, keeps the
invariant, changes existing objects only by adding children, and leaves every
child in the node map. -/
theorem children_spec {V : Type} {g0 : DAG V}
    (recurse : NodeId → NodeMap × DAG V → Result V (NodeId × (NodeMap × DAG V)))
    (size : Nat) (hrec : CloneTotal g0 recurse size) :
    ∀ (cs : List NodeId), (∀ c ∈ cs, (g0.node c).isSome) →
    ∀ s : NodeMap × DAG V, CloneInv g0 s → size ≤ s.1.length →
      ∃ s1, StochasticNode.cloneDAG.children recurse cs s = Except.ok s1 ∧
        CloneInv g0 s1 ∧ CloneFrame s.2 s1.2 ∧ (∃ added, s1.1 = added ++ s.1) ∧
        (∀ c ∈ cs, c ∈ s1.1.map Prod.fst) ∧
        (∀ k cl, (k, cl) ∈ s1.1 → k ∉ s.1.map Prod.fst →
          Finished g0 s1 k cl ∧ ∃ c ∈ cs, Relation.ReflTransGen (Linked g0) c k) := by
  intro cs
  induction cs with
  | nil =>
    intro _ s hinv _
    refine ⟨s, rfl, hinv, CloneFrame.frame_refl s.2, ⟨[], rfl⟩, (fun c hc => by cases hc), ?_⟩
    intro k cl hk hnk
    exact absurd (List.mem_map.mpr ⟨(k, cl), hk, rfl⟩) hnk
  | cons c rest ih =>
    intro hex s hinv hsize
    obtain ⟨cc, s1, hcall, hinv1, hframe1, ⟨added1, hadd1⟩, hccc, hnew1⟩ :=
      hrec c s hinv (hex c (List.mem_cons_self _ _)) hsize
    have hsub1 : ∀ e ∈ s.1, e ∈ s1.1 := by
      intro e he
      rw [hadd1]
      exact List.mem_append_right _ he
    obtain ⟨s2, hloop, hinv2, hframe2, ⟨added2, hadd2⟩, hin2, hnew2⟩ :=
      ih (fun x hx => hex x (List.mem_cons_of_mem _ hx)) s1 hinv1
        (by rw [hadd1, List.length_append]; exact Nat.le_trans hsize (Nat.le_add_left _ _))
    have hsub2 : ∀ e ∈ s1.1, e ∈ s2.1 := by
      intro e he
      rw [hadd2]
      exact List.mem_append_right _ he
    refine ⟨s2, ?_, hinv2, hframe1.frame_trans hframe2, ⟨added2 ++ added1, ?_⟩, ?_, ?_⟩
    · unfold StochasticNode.cloneDAG.children
      simp only [hcall]
      exact hloop
    · rw [hadd2, hadd1, List.append_assoc]
    · intro x hx
      rcases List.mem_cons.mp hx with hx | hx
      · subst hx
        exact List.mem_map.mpr ⟨(x, cc), hsub2 _ hccc, rfl⟩
      · exact hin2 x hx
    · intro k cl hk hnk
      by_cases hk1 : k ∈ s1.1.map Prod.fst
      · obtain ⟨e, he1, he2⟩ := List.mem_map.mp hk1
        obtain ⟨k0, cl0⟩ := e
        simp only at he2
        subst he2
        have hcl : cl0 = cl := pairs_fst_inj hinv2.keys_nodup (hsub2 _ he1) hk
        subst hcl
        obtain ⟨hfin, hreach⟩ := hnew1 k0 cl0 he1 hnk
        exact ⟨hfin.of_cloneFrame hframe2 hsub2, c, List.mem_cons_self _ _, hreach⟩
      · obtain ⟨hfin, q, hq, hreach⟩ := hnew2 k cl hk hk1
        exact ⟨hfin, q, List.mem_cons_of_mem _ hq, hreach⟩

theorem lookup_none_not_mem {m : NodeMap} {k : NodeId} (h : m.lookup k = none) :
    k ∉ m.map Prod.fst := by
  induction m with
  | nil => simp
  | cons e rest ih =>
    obtain ⟨k1, c1⟩ := e
    rw [List.lookup_cons] at h
    by_cases e1 : k = k1
    · subst e1
      simp at h
    · have hb : (k == k1) = false := by simpa using e1
      rw [hb] at h
      simp only [List.map_cons, List.mem_cons, not_or]
      exact ⟨e1, ih h⟩

theorem CloneInv.size_le {V : Type} {g0 : DAG V} {s : NodeMap × DAG V} (h : CloneInv g0 s) :
    s.1.length ≤ g0.length := by
  have hsub : s.1.map Prod.fst ⊆ List.range g0.length := by
    intro k hk
    obtain ⟨e, he1, he2⟩ := List.mem_map.mp hk
    obtain ⟨k0, c0⟩ := e
    simp only at he2
    subst he2
    exact List.mem_range.mpr (h.key_lt he1)
  have := (List.subperm_of_subset h.keys_nodup hsub).length_le
  simpa using this

theorem node_of_original {V : Type} {g0 : DAG V} {s : NodeMap × DAG V}
    (hinv : CloneInv g0 s) {n : NodeId} {nd : DAGNode V} (hn : g0.node n = some nd) :
    s.2.node n = some nd := by
  rw [hinv.originals n (node_some_lt hn)]
  exact hn

/-! ## Cloning: the recursion -/

/-- On a cloneable heap `cloneDAG` returns, with the guarantees of
`CloneStep`, as soon as the depth budget plus the number of nodes already in
the map exceeds the number of addresses of the original heap. -/
theorem cloneDAG_total {V : Type} {g0 : DAG V} (hW : Cloneable g0) :
    ∀ (fuel size : Nat), g0.length < fuel + size →
      CloneTotal g0 (StochasticNode.cloneDAG fuel) size := by
  intro fuel
  induction fuel with
  | zero =>
    intro size hlt n s hinv _ hsize
    have := hinv.size_le
    rw [Nat.zero_add] at hlt
    exact absurd (Nat.lt_of_lt_of_le hlt (Nat.le_trans hsize this)) (Nat.lt_irrefl _)
  | succ fuel ih =>
    intro size hlt n s hinv hex hsize
    obtain ⟨m, g⟩ := s
    obtain ⟨nd, hn⟩ := Option.isSome_iff_exists.mp hex
    unfold StochasticNode.cloneDAG
    cases hl : m.lookup n with
    | some c0 =>
      refine ⟨c0, (m, g), rfl, hinv, CloneFrame.frame_refl g, ⟨[], rfl⟩, lookup_mem hl, ?_⟩
      intro k cl hk hnk
      exact absurd (List.mem_map.mpr ⟨(k, cl), hk, rfl⟩) hnk
    | none =>
      have hnew := lookup_none_not_mem hl
      have hst := node_of_original hinv hn
      simp only at hst
      simp only [hst, DAG.alloc]
      have hinv0 := cloneInv_alloc hinv hn hnew
      have hframe0 : CloneFrame g (g ++ [some (DAGNode.cloneDAG.copy nd)]) :=
        cloneFrame_alloc g _
      have hnode0 : DAG.node (g ++ [some (DAGNode.cloneDAG.copy nd)]) g.length
          = some (DAGNode.cloneDAG.copy nd) := by
        have := node_alloc g (DAGNode.cloneDAG.copy nd) g.length
        simpa [DAG.alloc] using this
      generalize g ++ [some (DAGNode.cloneDAG.copy nd)] = ga at hinv0 hframe0 hnode0 ⊢
      have hrec : CloneTotal g0 (StochasticNode.cloneDAG fuel) (m.length + 1) := by
        apply ih
        have : fuel + 1 + size ≤ fuel + (m.length + 1) := by
          have h1 : size ≤ m.length := hsize
          omega
        exact Nat.lt_of_lt_of_le hlt this
      obtain ⟨s2, hloop, hinv2, hframe2, ⟨added2, hadd2⟩, ⟨cn2, hcn2, hfin2⟩, hnew2⟩ :=
        params_spec hW _ _ hrec hn nd.distribution [] rfl ((n, g.length) :: m, ga) hinv0
          (by simp) (List.mem_cons_self _ _)
          ⟨_, hnode0, (by
            intro nm x hx
            rw [(cloneCopy_fields nd).2.2.1] at hx
            obtain ⟨a, _, ha⟩ := List.mem_map.mp hx
            cases (Prod.mk.inj ha).2), (by
            intro nm p hp
            cases hp)⟩
      simp only at hadd2 hframe2
      have hsub2 : ∀ e ∈ (n, g.length) :: m, e ∈ s2.1 := by
        intro e he
        rw [hadd2]
        exact List.mem_append_right _ he
      have hch2 : s2.2.children n = nd.children := by
        unfold DAG.children
        rw [hinv2.originals n (node_some_lt hn), hn]
      obtain ⟨s3, hloop3, hinv3, hframe3, ⟨added3, hadd3⟩, hin3, hnew3⟩ :=
        children_spec _ _ hrec nd.children (hW.cloneable_of_node hn).2.1 s2 hinv2
          (by rw [hadd2, List.length_append]
              exact Nat.le_trans (by simp) (Nat.le_add_left _ _))
      have hsub3 : ∀ e ∈ s2.1, e ∈ s3.1 := by
        intro e he
        rw [hadd3]
        exact List.mem_append_right _ he
      refine ⟨g.length, s3, ?_, hinv3, ?_, ⟨added3 ++ added2 ++ [(n, g.length)], ?_⟩,
        hsub3 _ (hsub2 _ (List.mem_cons_self _ _)), ?_⟩
      · simp only [hloop, hch2, hloop3]
      · intro x xn hx
        have hne : x ≠ g.length := fun e => by
          subst e
          exact absurd (node_some_lt hx) (Nat.lt_irrefl _)
        exact (((hframe0.except g.length).except_trans hframe2).except_trans (hframe3.except g.length))
          x xn hne hx
      · simp only
        rw [hadd3, hadd2]
        simp
      · intro k cl hk hnk
        simp only at hnk
        by_cases hk2 : k ∈ s2.1.map Prod.fst
        · obtain ⟨e, he1, he2⟩ := List.mem_map.mp hk2
          obtain ⟨k0, cl0⟩ := e
          simp only at he2
          subst he2
          have hcl : cl0 = cl := pairs_fst_inj hinv3.keys_nodup (hsub3 _ he1) hk
          subst hcl
          by_cases hk0 : k0 = n
          · subst hk0
            have hcl0 : cl0 = g.length :=
              pairs_fst_inj hinv2.keys_nodup he1 (hsub2 _ (List.mem_cons_self _ _))
            subst hcl0
            refine ⟨?_, Relation.ReflTransGen.refl⟩
            obtain ⟨cn3, hcn3, hcn3eq, _⟩ := hframe3 _ cn2 hcn2
            refine ⟨nd, cn3, hn, hcn3, ?_, hin3⟩
            intro name p hp
            obtain ⟨x, hx1, hx2⟩ := hfin2 name p hp
            refine ⟨x, hsub3 _ hx1, ?_⟩
            rw [hcn3eq]
            exact hx2
          · have hk0new : k0 ∉ ((n, g.length) :: m).map Prod.fst := by
              simp only [List.map_cons, List.mem_cons, not_or]
              exact ⟨hk0, hnk⟩
            obtain ⟨hfin, p, hp, hreach⟩ := hnew2 k0 cl0 he1 hk0new
            refine ⟨hfin.of_cloneFrame hframe3 hsub3, ?_⟩
            apply Relation.ReflTransGen.head _ hreach
            left
            unfold DAG.params
            rw [hn]
            exact hp
        · obtain ⟨hfin, c, hc, hreach⟩ := hnew3 k cl hk hk2
          refine ⟨hfin, ?_⟩
          apply Relation.ReflTransGen.head _ hreach
          right
          unfold DAG.children
          rw [hn]
          exact hc

/-! ## Cloning: the whole run -/

theorem cloneInv_start {V : Type} (g0 : DAG V) : CloneInv g0 ([], g0) := by
  refine ⟨fun _ _ => rfl, Nat.le_refl _, List.nodup_nil, List.nodup_nil, ?_, ?_, ?_, ?_, ?_⟩
  · intro c
    simp only [List.map_nil, List.not_mem_nil, false_iff, not_and, Nat.not_lt]
    exact fun h => h
  · intro k c hk
    cases hk
  · intro c cn hc hcn
    exact absurd (node_some_lt hcn) (Nat.not_lt.mpr hc)
  · intro c cn hc hcn
    exact absurd (node_some_lt hcn) (Nat.not_lt.mpr hc)
  · intro k c nd cn hk
    cases hk

/-- A run of `cloneDAG` from an empty node map on a cloneable heap returns
once the budget exceeds the number of addresses; the invariant holds in the
final state, the root is in the map, and every entry of the map is complete
and linked to the root. -/
theorem cloneDAG_run {V : Type} {g0 : DAG V} (hW : Cloneable g0) (root fuel : NodeId)
    (hroot : (g0.node root).isSome = true) (hfuel : g0.length < fuel) :
    ∃ c newNodes g1,
      StochasticNode.cloneDAG fuel root ([], g0) = Except.ok (c, (newNodes, g1)) ∧
      CloneInv g0 (newNodes, g1) ∧ (root, c) ∈ newNodes ∧
      ∀ k cl, (k, cl) ∈ newNodes →
        Finished g0 (newNodes, g1) k cl ∧ Relation.ReflTransGen (Linked g0) root k := by
  obtain ⟨c, s1, hcall, hinv, _, _, hrc, hnew⟩ :=
    cloneDAG_total hW fuel 0 (by simpa using hfuel) root ([], g0) (cloneInv_start g0) hroot
      (Nat.zero_le _)
  obtain ⟨m, g1⟩ := s1
  exact ⟨c, m, g1, hcall, hinv, hrc, fun k cl hk => hnew k cl hk (by simp)⟩

theorem mem_lookup {m : NodeMap} (h : (m.map Prod.fst).Nodup) {k c : NodeId}
    (hk : (k, c) ∈ m) : m.lookup k = some c := by
  cases hl : m.lookup k with
  | none => exact absurd (List.mem_map.mpr ⟨(k, c), hk, rfl⟩) (lookup_none_not_mem hl)
  | some c1 => rw [pairs_fst_inj h (lookup_mem hl) hk]

theorem ParentsAreParams.params_of_node {V : Type} {g : DAG V} (h : ParentsAreParams g) {k : NodeId}
    {nd : DAGNode V} (hk : g.node k = some nd) (p : NodeId) :
    p ∈ nd.parents ↔ p ∈ paramRefs nd.distribution := by
  have : some nd ∈ g := by
    unfold DAG.node at hk
    cases hg : g[k]? with
    | none => simp [hg] at hk
    | some o =>
      simp [hg] at hk
      subst hk
      exact List.getElem?_mem hg
  obtain ⟨h1, h2⟩ := h (some nd) this nd rfl
  exact ⟨h1 p, h2 p⟩

theorem linked_iff_adjacent {V : Type} {g : DAG V} (h : ParentsAreParams g) (a b : NodeId) :
    Linked g a b ↔ Adjacent g a b := by
  unfold Linked Adjacent DAG.params DAG.parents
  cases ha : g.node a with
  | none => simp
  | some nd =>
    simp only
    rw [h.params_of_node ha b]

theorem connected_iff_linked {V : Type} {g : DAG V} (h : ParentsAreParams g) (a b : NodeId) :
    Connected g a b ↔ Relation.ReflTransGen (Linked g) a b := by
  unfold Connected
  constructor
  · intro hc
    exact Relation.ReflTransGen.mono (fun x y hxy => (linked_iff_adjacent h x y).mpr hxy) hc
  · intro hc
    exact Relation.ReflTransGen.mono (fun x y hxy => (linked_iff_adjacent h x y).mp hxy) hc

theorem CloneInv.count {V : Type} {g0 : DAG V} {s : NodeMap × DAG V} (h : CloneInv g0 s) :
    s.2.length = g0.length + s.1.length := by
  have hperm : (s.1.map Prod.snd).Perm (List.range' g0.length (s.2.length - g0.length)) := by
    rw [List.perm_ext_iff_of_nodup h.vals_nodup (List.nodup_range' _ _)]
    intro a
    rw [h.vals_range a, List.mem_range']
    have hle : (g0.length : Nat) ≤ (s.2.length : Nat) := h.length_le
    constructor
    · rintro ⟨h1, h2⟩
      have h1n : (g0.length : Nat) ≤ (a : Nat) := h1
      have h2n : (a : Nat) < (s.2.length : Nat) := h2
      refine ⟨(a : Nat) - (g0.length : Nat), ?_, ?_⟩
      · exact (Nat.sub_lt_sub_iff_right h1n).mpr h2n
      · rw [Nat.one_mul]
        exact (Nat.add_sub_cancel' h1n).symm
    · rintro ⟨i, hi, rfl⟩
      have hin : (i : Nat) < (s.2.length : Nat) - (g0.length : Nat) := hi
      rw [Nat.one_mul]
      constructor
      · exact Nat.le_add_right _ _
      · have := Nat.add_lt_of_lt_sub hin
        rw [Nat.add_comm]
        exact this
  have hlen := hperm.length_eq
  rw [List.length_map, List.length_range'] at hlen
  have hle : (g0.length : Nat) ≤ (s.2.length : Nat) := h.length_le
  rw [hlen]
  exact (Nat.add_sub_cancel' hle).symm

/-- Closure of the final node map under the links of the original heap. -/
theorem finished_closed {V : Type} {g0 : DAG V} {s : NodeMap × DAG V}
    (hfin : ∀ k cl, (k, cl) ∈ s.1 → Finished g0 s k cl) {a b : NodeId}
    (ha : a ∈ s.1.map Prod.fst) (hab : Linked g0 a b) : b ∈ s.1.map Prod.fst := by
  obtain ⟨e, he1, he2⟩ := List.mem_map.mp ha
  obtain ⟨a0, ca⟩ := e
  simp only at he2
  subst he2
  obtain ⟨nd, cn, hnd, _, hpar, hch⟩ := hfin a0 ca he1
  rcases hab with h | h
  · unfold DAG.params at h
    rw [hnd] at h
    obtain ⟨name, hname⟩ := mem_paramRefs.mp h
    obtain ⟨x, hx, _⟩ := hpar name b hname
    exact List.mem_map.mpr ⟨(b, x), hx, rfl⟩
  · unfold DAG.children at h
    rw [hnd] at h
    exact hch b h

/-! ## C6: one clone for each node of the component -/

/-- C6. On a finite heap of nodes of any class, without dangling pointers
and in which the parents of a node are the nodes its parameters refer to,
`cloneDAG` started at `root` with an empty node map returns once the budget
exceeds the number of addresses.  The keys of the final map are exactly the nodes of the
connected component of `root`, no key occurs twice, distinct originals have
distinct clones, the clones are exactly the addresses allocated by the run and
there are as many of them as entries in the map, and the originals are left as
they were.  In any state, a call on a node that is already in the map returns
the mapped clone and leaves the map and the heap as they are. -/
theorem C6_cloneDAG_one_clone_per_node {V : Type} (g0 : DAG V) (root : NodeId) (fuel : Nat)
    (hW : Cloneable g0) (hP : ParentsAreParams g0) (hroot : (g0.node root).isSome = true)
    (hfuel : g0.length < fuel) :
    (∃ c newNodes g1,
      StochasticNode.cloneDAG fuel root ([], g0) = Except.ok (c, (newNodes, g1)) ∧
      (root, c) ∈ newNodes ∧
      (∀ k, k ∈ newNodes.map Prod.fst ↔ Connected g0 root k) ∧
      (newNodes.map Prod.fst).Nodup ∧
      (newNodes.map Prod.snd).Nodup ∧
      (∀ x, x ∈ newNodes.map Prod.snd ↔ g0.length ≤ x ∧ x < g1.length) ∧
      g1.length = g0.length + newNodes.length ∧
      (∀ k, k < g0.length → g1.node k = g0.node k)) ∧
    (∀ (fuel1 : Nat) (k c1 : NodeId) (m : NodeMap) (g : DAG V), m.lookup k = some c1 →
      StochasticNode.cloneDAG (fuel1 + 1) k (m, g) = Except.ok (c1, (m, g))) := by
  constructor
  · obtain ⟨c, m, g1, hcall, hinv, hrc, hall⟩ := cloneDAG_run hW root fuel hroot hfuel
    refine ⟨c, m, g1, hcall, hrc, ?_, hinv.keys_nodup, hinv.vals_nodup, hinv.vals_range,
      hinv.count, hinv.originals⟩
    intro k
    rw [connected_iff_linked hP]
    constructor
    · intro hk
      obtain ⟨e, he1, he2⟩ := List.mem_map.mp hk
      obtain ⟨k0, cl⟩ := e
      simp only at he2
      subst he2
      exact (hall k0 cl he1).2
    · intro hreach
      induction hreach with
      | refl => exact List.mem_map.mpr ⟨(root, c), hrc, rfl⟩
      | tail _ hab ih =>
        exact finished_closed (fun k cl hk => (hall k cl hk).1) ih hab
  · intro fuel1 k c1 m g hl
    simp [StochasticNode.cloneDAG, hl]

/-- Witness of C6 on the diamond: the run from A creates the 4 clones at the
addresses 4 to 7.  On `exampleMixed`, whose nodes are of the three classes, the
run from the constant node also creates one clone for each of the 4 nodes. -/
theorem C6_cloneDAG_one_clone_per_node_witness :
    Cloneable exampleDiamond ∧ ParentsAreParams exampleDiamond ∧
    (∃ c newNodes g1,
      StochasticNode.cloneDAG 5 0 ([], exampleDiamond) = Except.ok (c, (newNodes, g1)) ∧
      g1.length = 8 ∧ newNodes = [(2, 7), (3, 6), (1, 5), (0, 4)]) ∧
    ((∃ c newNodes g1,
      StochasticNode.cloneDAG 5 0 ([], exampleDiamond) = Except.ok (c, (newNodes, g1)) ∧
      (0, c) ∈ newNodes ∧
      (∀ k, k ∈ newNodes.map Prod.fst ↔ Connected exampleDiamond 0 k) ∧
      (newNodes.map Prod.fst).Nodup ∧
      (newNodes.map Prod.snd).Nodup ∧
      (∀ x, x ∈ newNodes.map Prod.snd ↔ exampleDiamond.length ≤ x ∧ x < g1.length) ∧
      g1.length = exampleDiamond.length + newNodes.length ∧
      (∀ k, k < exampleDiamond.length → g1.node k = exampleDiamond.node k)) ∧
    (∀ (fuel1 : Nat) (k c1 : NodeId) (m : NodeMap) (g : DAG Int), m.lookup k = some c1 →
      StochasticNode.cloneDAG (fuel1 + 1) k (m, g) = Except.ok (c1, (m, g)))) ∧
    Cloneable exampleMixed ∧ ParentsAreParams exampleMixed ∧
    (∃ c newNodes g1,
      StochasticNode.cloneDAG 5 0 ([], exampleMixed) = Except.ok (c, (newNodes, g1)) ∧
      g1.length = 8 ∧ newNodes = [(3, 7), (2, 6), (1, 5), (0, 4)]) ∧
    (∃ c newNodes g1,
      StochasticNode.cloneDAG 5 0 ([], exampleMixed) = Except.ok (c, (newNodes, g1)) ∧
      (0, c) ∈ newNodes ∧
      (∀ k, k ∈ newNodes.map Prod.fst ↔ Connected exampleMixed 0 k) ∧
      (newNodes.map Prod.fst).Nodup ∧
      (newNodes.map Prod.snd).Nodup ∧
      (∀ x, x ∈ newNodes.map Prod.snd ↔ exampleMixed.length ≤ x ∧ x < g1.length) ∧
      g1.length = exampleMixed.length + newNodes.length ∧
      (∀ k, k < exampleMixed.length → g1.node k = exampleMixed.node k)) :=
  ⟨by decide, by decide, ⟨_, _, _, rfl, by decide, by decide⟩,
   C6_cloneDAG_one_clone_per_node exampleDiamond 0 5 (by decide) (by decide) (by decide)
    (by decide),
   by decide, by decide, ⟨_, _, _, rfl, by decide, by decide⟩,
   (C6_cloneDAG_one_clone_per_node exampleMixed 0 5 (by decide) (by decide) (by decide)
    (by decide)).1⟩

/-! ## C7: the clones are wired among themselves -/

theorem table_eq_map (f : Option NodeId → Option NodeId) :
    ∀ (t2 t1 : VariableTable), t1.map Prod.fst = t2.map Prod.fst →
      (t2.map Prod.fst).Nodup → (∀ e ∈ t2, (e.1, f e.2) ∈ t1) →
      t1 = t2.map (fun e => (e.1, f e.2)) := by
  intro t2
  induction t2 with
  | nil =>
    intro t1 hn _ _
    simpa using hn
  | cons e2 rest ih =>
    intro t1 hn hnd hmem
    cases t1 with
    | nil => simp at hn
    | cons e1 rest1 =>
      simp only [List.map_cons, List.cons.injEq] at hn
      obtain ⟨hn1, hn2⟩ := hn
      simp only [List.map_cons, List.nodup_cons] at hnd
      obtain ⟨hnd1, hnd2⟩ := hnd
      have hhead : e1 = (e2.1, f e2.2) := by
        rcases List.mem_cons.mp (hmem e2 (List.mem_cons_self _ _)) with h | h
        · exact h.symm
        · exfalso
          apply hnd1
          rw [← hn2]
          exact List.mem_map.mpr ⟨_, h, rfl⟩
      have htail := ih rest1 hn2 hnd2 (by
        intro e he
        rcases List.mem_cons.mp (hmem e (List.mem_cons_of_mem _ he)) with h | h
        · exfalso
          apply hnd1
          have : e.1 = e2.1 := by
            rw [← hn1, ← h]
          rw [← this]
          exact List.mem_map.mpr ⟨e, he, rfl⟩
        · exact h)
      simp only [List.map_cons]
      rw [hhead, ← htail]

/-- The distribution table of a complete clone is the table of the original
with every reference replaced by its clone. -/
theorem finished_table {V : Type} {g0 : DAG V} (hW : Cloneable g0) {s : NodeMap × DAG V}
    (hinv : CloneInv g0 s) {k ck : NodeId} (hk : (k, ck) ∈ s.1)
    (hfin : Finished g0 s k ck) {nd cn : DAGNode V} (hnd : g0.node k = some nd)
    (hcn : s.2.node ck = some cn) :
    cn.distribution = nd.distribution.map (fun e => (e.1, e.2.bind s.1.lookup)) := by
  obtain ⟨nd1, cn1, h1, h2, hpar, _⟩ := hfin
  rw [hnd] at h1
  injection h1 with h1
  subst h1
  rw [hcn] at h2
  injection h2 with h2
  subst h2
  obtain ⟨nd2, cn2, i1, i2, hcopy⟩ := hinv.copies k ck hk
  rw [hnd] at i1
  injection i1 with i1
  subst i1
  rw [hcn] at i2
  injection i2 with i2
  subst i2
  obtain ⟨hrefs, _, hnames⟩ := hW.cloneable_of_node hnd
  apply table_eq_map (fun r => r.bind s.1.lookup) _ _ hcopy.2.2.2.2.2.2 hnames
  intro e he
  obtain ⟨name, ref⟩ := e
  have := hrefs _ he
  cases ref with
  | none => simp at this
  | some p =>
    obtain ⟨x, hx1, hx2⟩ := hpar name p he
    simp only [Option.some_bind]
    rw [mem_lookup hinv.keys_nodup hx1]
    exact hx2

/-- C7. After `cloneDAG` has returned from a run started with an empty map on
a heap of nodes of any class, without dangling pointers and whose parents sets
are the nodes the parameters refer to, for every
entry `(k, ck)` of the node map: the parents of the clone are exactly the
clones of the parents of `k`; the clone is a child of each of them; its
distribution table is the table of `k` with every reference replaced by the
clone of the referenced node, none of them NULL; all parents and children of
the clone are clones, and the originals are unchanged, so that the two graphs
are disjoint; and when the original heap is mutually consistent the children
of the clone are exactly the clones of the children of `k`. -/
theorem C7_cloneDAG_wiring {V : Type} (g0 : DAG V) (root : NodeId) (fuel : Nat)
    (hW : Cloneable g0) (hP : ParentsAreParams g0) (hroot : (g0.node root).isSome = true)
    (hfuel : g0.length < fuel) :
    ∃ c newNodes g1,
      StochasticNode.cloneDAG fuel root ([], g0) = Except.ok (c, (newNodes, g1)) ∧
      (∀ k, k < g0.length → g1.node k = g0.node k) ∧
      ∀ k ck, (k, ck) ∈ newNodes →
        ∃ nd cn, g0.node k = some nd ∧ g1.node ck = some cn ∧
          (∀ x, x ∈ cn.parents ↔ ∃ p ∈ nd.parents, (p, x) ∈ newNodes) ∧
          (∀ x ∈ cn.parents, ck ∈ g1.children x) ∧
          cn.distribution = nd.distribution.map (fun e => (e.1, e.2.bind newNodes.lookup)) ∧
          (∀ e ∈ cn.distribution, ∃ p x, e.2 = some x ∧ (p, x) ∈ newNodes ∧
            (e.1, some p) ∈ nd.distribution) ∧
          (∀ x ∈ cn.parents, g0.length ≤ x) ∧
          (∀ x ∈ cn.children, g0.length ≤ x) ∧
          (Consistent g0 → ∀ x, x ∈ cn.children ↔ ∃ ch ∈ nd.children, (ch, x) ∈ newNodes) := by
  obtain ⟨c, m, g1, hcall, hinv, hrc, hall⟩ := cloneDAG_run hW root fuel hroot hfuel
  refine ⟨c, m, g1, hcall, hinv.originals, ?_⟩
  intro k ck hk
  obtain ⟨nd, cn, hnd, hcn, hcopy⟩ := hinv.copies k ck hk
  simp only at hcn
  have hckR := (hinv.val_range hk).1
  have htable := finished_table hW hinv hk (hall k ck hk).1 hnd hcn
  simp only at htable
  obtain ⟨hrefs, _, _⟩ := hW.cloneable_of_node hnd
  have hwired := hinv.wired ck cn hckR hcn
  obtain ⟨hedgeP, hedgeC⟩ := hinv.edges ck cn hckR hcn
  simp only at hedgeP hedgeC
  have hparams : ∀ e ∈ cn.distribution, ∃ p x, e.2 = some x ∧ (p, x) ∈ m ∧
      (e.1, some p) ∈ nd.distribution := by
    intro e he
    rw [htable] at he
    obtain ⟨e0, he0, hee⟩ := List.mem_map.mp he
    obtain ⟨name, ref⟩ := e0
    have := hrefs _ he0
    cases ref with
    | none => simp at this
    | some p =>
      obtain ⟨nd1, _, j1, _, hpar, _⟩ := (hall k ck hk).1
      rw [hnd] at j1
      injection j1 with j1
      subst j1
      obtain ⟨x, hx1, _⟩ := hpar name p he0
      refine ⟨p, x, ?_, hx1, ?_⟩
      · rw [← hee]
        simp only [Option.some_bind]
        exact mem_lookup hinv.keys_nodup hx1
      · rw [← hee]
        exact he0
  refine ⟨nd, cn, hnd, hcn, ?_, fun x hx => (hedgeP x hx).2, htable, hparams,
    fun x hx => (hedgeP x hx).1, fun x hx => (hedgeC x hx).1, ?_⟩
  · intro x
    rw [hwired x, mem_paramRefs]
    constructor
    · rintro ⟨name, hname⟩
      obtain ⟨p, x1, h1, h2, h3⟩ := hparams _ hname
      simp only at h1 h3
      have := Option.some.inj h1
      subst this
      exact ⟨p, (hP.params_of_node hnd p).mpr (mem_paramRefs.mpr ⟨name, h3⟩), h2⟩
    · rintro ⟨p, hp, hpx⟩
      obtain ⟨name, hname⟩ := mem_paramRefs.mp ((hP.params_of_node hnd p).mp hp)
      refine ⟨name, ?_⟩
      rw [htable]
      refine List.mem_map.mpr ⟨(name, some p), hname, ?_⟩
      simp only [Option.some_bind]
      rw [mem_lookup hinv.keys_nodup hpx]
  · intro hcons x
    constructor
    · intro hx
      obtain ⟨hxR, hxP⟩ := hedgeC x hx
      obtain ⟨e, he1, he2⟩ := List.mem_map.mp ((hinv.vals_range x).mpr
        ⟨hxR, by
          cases hxn : g1.node x with
          | none => simp [DAG.parents, hxn] at hxP
          | some xn => exact node_some_lt hxn⟩)
      obtain ⟨b, x0⟩ := e
      simp only at he2
      subst he2
      obtain ⟨bnd, xn, hbnd, hxn, _⟩ := hinv.copies b x0 he1
      simp only at hxn
      rw [parents_of_node hxn, hinv.wired x0 xn hxR hxn, mem_paramRefs] at hxP
      obtain ⟨name, hname⟩ := hxP
      obtain ⟨p, hp1, hp2⟩ := hinv.wiredFrom b x0 bnd xn he1 hbnd hxn name ck hname
      have hpk : p = k := pairs_snd_inj hinv.vals_nodup hp2 hk
      subst hpk
      have h1 : p ∈ g0.parents b := by
        rw [parents_of_node hbnd, hP.params_of_node hbnd p]
        exact mem_paramRefs.mpr ⟨name, hp1⟩
      have h2 := (hcons p b).mp h1
      rw [children_of_node hnd] at h2
      exact ⟨b, h2, he1⟩
    · rintro ⟨ch, hch, hchx⟩
      have h1 : k ∈ g0.parents ch := (hcons k ch).mpr (by
        rw [children_of_node hnd]; exact hch)
      obtain ⟨chnd, xn, hchnd, hxn, _⟩ := hinv.copies ch x hchx
      simp only at hxn
      rw [parents_of_node hchnd, hP.params_of_node hchnd k, mem_paramRefs] at h1
      obtain ⟨name, hname⟩ := h1
      obtain ⟨nd1, xn1, j1, j2, hpar, _⟩ := (hall ch x hchx).1
      rw [hchnd] at j1
      injection j1 with j1
      subst j1
      simp only at j2
      rw [hxn] at j2
      injection j2 with j2
      subst j2
      obtain ⟨x1, hx1, hx2⟩ := hpar name k hname
      have := pairs_fst_inj hinv.keys_nodup hx1 hk
      subst this
      have hxR := (hinv.val_range hchx).1
      have h3 : x1 ∈ xn.parents := (hinv.wired x xn hxR hxn x1).mpr
        (mem_paramRefs.mpr ⟨name, hx2⟩)
      have h4 := ((hinv.edges x xn hxR hxn).1 x1 h3).2
      simp only at h4
      rw [children_of_node hcn] at h4
      exact h4

/-- Witness of C7 on the diamond: in the run from A, the clone 6 of D has the
clones 7 and 5 of C and B as parents, and each of these has the clone 4 of A
as its only parent.  On `exampleMixed`, whose nodes are of the three classes,
the clones 4, 5, 6, 7 form the same chain as the originals 0, 1, 2, 3. -/
theorem C7_cloneDAG_wiring_witness :
    Cloneable exampleDiamond ∧ ParentsAreParams exampleDiamond ∧
    (∃ c newNodes g1,
      StochasticNode.cloneDAG 5 0 ([], exampleDiamond) = Except.ok (c, (newNodes, g1)) ∧
      newNodes = [(2, 7), (3, 6), (1, 5), (0, 4)] ∧
      g1.parents 6 = [7, 5] ∧ g1.parents 5 = [4] ∧ g1.parents 7 = [4] ∧ g1.parents 4 = []) ∧
    (∃ c newNodes g1,
      StochasticNode.cloneDAG 5 0 ([], exampleDiamond) = Except.ok (c, (newNodes, g1)) ∧
      (∀ k, k < exampleDiamond.length → g1.node k = exampleDiamond.node k) ∧
      ∀ k ck, (k, ck) ∈ newNodes →
        ∃ nd cn, exampleDiamond.node k = some nd ∧ g1.node ck = some cn ∧
          (∀ x, x ∈ cn.parents ↔ ∃ p ∈ nd.parents, (p, x) ∈ newNodes) ∧
          (∀ x ∈ cn.parents, ck ∈ g1.children x) ∧
          cn.distribution = nd.distribution.map (fun e => (e.1, e.2.bind newNodes.lookup)) ∧
          (∀ e ∈ cn.distribution, ∃ p x, e.2 = some x ∧ (p, x) ∈ newNodes ∧
            (e.1, some p) ∈ nd.distribution) ∧
          (∀ x ∈ cn.parents, exampleDiamond.length ≤ x) ∧
          (∀ x ∈ cn.children, exampleDiamond.length ≤ x) ∧
          (Consistent exampleDiamond →
            ∀ x, x ∈ cn.children ↔ ∃ ch ∈ nd.children, (ch, x) ∈ newNodes)) ∧
    Cloneable exampleMixed ∧ ParentsAreParams exampleMixed ∧
    (∃ c newNodes g1,
      StochasticNode.cloneDAG 5 0 ([], exampleMixed) = Except.ok (c, (newNodes, g1)) ∧
      newNodes = [(3, 7), (2, 6), (1, 5), (0, 4)] ∧
      g1.parents 7 = [6] ∧ g1.parents 6 = [5] ∧ g1.parents 5 = [4] ∧ g1.parents 4 = [] ∧
      g1.children 4 = [5] ∧ g1.children 5 = [6] ∧ g1.children 6 = [7] ∧
      (g1.node 6).map (fun o => (o.dagType, o.distribution))
        = some (DAGType.DeterministicNode, [("x", some 5)])) ∧
    (∃ c newNodes g1,
      StochasticNode.cloneDAG 5 0 ([], exampleMixed) = Except.ok (c, (newNodes, g1)) ∧
      (∀ k, k < exampleMixed.length → g1.node k = exampleMixed.node k) ∧
      ∀ k ck, (k, ck) ∈ newNodes →
        ∃ nd cn, exampleMixed.node k = some nd ∧ g1.node ck = some cn ∧
          (∀ x, x ∈ cn.parents ↔ ∃ p ∈ nd.parents, (p, x) ∈ newNodes) ∧
          (∀ x ∈ cn.parents, ck ∈ g1.children x) ∧
          cn.distribution = nd.distribution.map (fun e => (e.1, e.2.bind newNodes.lookup)) ∧
          (∀ e ∈ cn.distribution, ∃ p x, e.2 = some x ∧ (p, x) ∈ newNodes ∧
            (e.1, some p) ∈ nd.distribution) ∧
          (∀ x ∈ cn.parents, exampleMixed.length ≤ x) ∧
          (∀ x ∈ cn.children, exampleMixed.length ≤ x) ∧
          (Consistent exampleMixed →
            ∀ x, x ∈ cn.children ↔ ∃ ch ∈ nd.children, (ch, x) ∈ newNodes)) :=
  ⟨by decide, by decide,
   ⟨_, _, _, rfl, by decide, by decide, by decide, by decide, by decide⟩,
   C7_cloneDAG_wiring exampleDiamond 0 5 (by decide) (by decide) (by decide) (by decide),
   by decide, by decide,
   ⟨_, _, _, rfl, by decide, by decide, by decide, by decide, by decide, by decide, by decide,
     by decide, by decide⟩,
   C7_cloneDAG_wiring exampleMixed 0 5 (by decide) (by decide) (by decide) (by decide)⟩

/-! ## C8: the value state of a clone -/

theorem getMembers_values {V : Type} (g : DAG V) (table : VariableTable) :
    (getMembers g table).map (fun e => (e.1, e.2.value))
      = table.map (fun e => (e.1, (e.2.bind g.node).map (fun pn => pn.value))) := by
  unfold getMembers
  rw [List.map_map]
  apply List.map_congr_left
  intro e _
  simp only [Function.comp]
  cases e.2.bind g.node <;> rfl

/-- C8, counterexample to the claim as stated: the node of `exampleTouched`
is touched, with value 9 and stored value 5; its clone has stored value 9. -/
theorem C8_clone_stored_value_differs :
    ∃ c newNodes g1,
      StochasticNode.cloneDAG 2 0 ([], exampleTouched) = Except.ok (c, (newNodes, g1)) ∧
      (exampleTouched.node 0).map (fun nd => (nd.value, nd.storedValue)) = some (9, some 5) ∧
      (g1.node c).map (fun cn => (cn.value, cn.storedValue)) = some (9, some 9) :=
  ⟨_, _, _, rfl, by decide, by decide⟩

/-- C8 as amended.  For every entry `(k, ck)` of the node map of a finished
`cloneDAG` run on a heap of nodes of any class, when the original `k` is a
`StochasticNode`, whatever its state (touched or not, clamped or not): the
clone is a `StochasticNode` that holds the value of `k` and its clamped flag;
its stored value is absent exactly when that of `k` is and is otherwise a copy
of the value of `k` (not of its stored value); the clone is not touched; and
for a distribution whose density reads the current values of its parameters
the log-probability `calculateLnProbability()` of the clone equals that of
`k`. -/
theorem C8_cloneDAG_value_state {V R : Type} (dist : Distribution V R) (g0 : DAG V)
    (root : NodeId) (fuel : Nat)
    (hW : Cloneable g0) (hroot : (g0.node root).isSome = true) (hfuel : g0.length < fuel)
    (hdist : ∀ m1 m2 v, m1.map (fun e => (e.1, e.2.value)) = m2.map (fun e => (e.1, e.2.value)) →
      dist.lnPdf m1 v = dist.lnPdf m2 v) :
    ∃ c newNodes g1,
      StochasticNode.cloneDAG fuel root ([], g0) = Except.ok (c, (newNodes, g1)) ∧
      ∀ k ck, (k, ck) ∈ newNodes →
        ∃ nd cn, g0.node k = some nd ∧ g1.node ck = some cn ∧
          (nd.dagType = DAGType.StochasticNode →
            cn.dagType = DAGType.StochasticNode ∧
            cn.value = nd.value ∧ cn.clamped = nd.clamped ∧
            (cn.storedValue = none ↔ nd.storedValue = none) ∧
            (nd.storedValue ≠ none → cn.storedValue = some nd.value) ∧
            cn.touched = false ∧
            StochasticNode.calculateLnProbability dist g1 ck
              = StochasticNode.calculateLnProbability dist g0 k) := by
  obtain ⟨c, m, g1, hcall, hinv, hrc, hall⟩ := cloneDAG_run hW root fuel hroot hfuel
  refine ⟨c, m, g1, hcall, ?_⟩
  intro k ck hk
  obtain ⟨nd, cn, hnd, hcn, hcopy⟩ := hinv.copies k ck hk
  simp only at hcn
  obtain ⟨c1, c2, c3, c4, c5, _, _⟩ := hcopy
  refine ⟨nd, cn, hnd, hcn, fun hst => ?_⟩
  rw [if_pos hst] at c4
  refine ⟨c1.trans hst, c2, c3, ?_, ?_, c5, ?_⟩
  · rw [c4]
    cases nd.storedValue <;> simp
  · intro h
    rw [c4]
    cases hs : nd.storedValue with
    | none => exact absurd hs h
    | some _ => rfl
  · unfold StochasticNode.calculateLnProbability
    rw [stochastic_of_node hcn (c1.trans hst), stochastic_of_node hnd hst]
    simp only
    rw [c2]
    apply hdist
    rw [getMembers_values, getMembers_values,
      finished_table hW hinv hk (hall k ck hk).1 hnd hcn, List.map_map]
    apply List.map_congr_left
    intro e he
    obtain ⟨name, ref⟩ := e
    have hsome := (hW.cloneable_of_node hnd).1 _ he
    cases ref with
    | none => simp at hsome
    | some p =>
      obtain ⟨nd1, _, j1, _, hpar, _⟩ := (hall k ck hk).1
      rw [hnd] at j1
      injection j1 with j1
      subst j1
      obtain ⟨x, hx1, _⟩ := hpar name p he
      obtain ⟨pnd, xn, hpnd, hxn, hxcopy⟩ := hinv.copies p x hx1
      simp only at hxn
      simp only [Function.comp, Option.some_bind, mem_lookup hinv.keys_nodup hx1, hxn, hpnd,
        Option.map_some', hxcopy.2.1]

theorem lookup_map_snd {β γ : Type} (f : β → γ) (name : String) (members : List (String × β)) :
    (members.map (fun e => (e.1, f e.2))).lookup name = (members.lookup name).map f := by
  induction members with
  | nil => rfl
  | cons e rest ih =>
    obtain ⟨k, b⟩ := e
    simp only [List.map_cons, List.lookup_cons]
    cases name == k
    · exact ih
    · rfl

/-- The density of the exponential distribution reads the current values of
its member variables only. -/
theorem Dist_exp_lnPdf_values {R : Type} [Add R] [Sub R] [Mul R] (log : R → R)
    (m1 m2 : List (String × Variable R)) (v : Option R)
    (h : m1.map (fun e => (e.1, e.2.value)) = m2.map (fun e => (e.1, e.2.value))) :
    (Dist_exp log).lnPdf m1 v = (Dist_exp log).lnPdf m2 v := by
  have key : ∀ m : List (String × Variable R),
      (getVariable m "rate").bind (fun x => x.value)
        = ((m.map (fun e => (e.1, e.2.value))).lookup "rate").bind id := by
    intro m
    unfold getVariable
    rw [lookup_map_snd]
    cases m.lookup "rate" <;> rfl
  simp only [Dist_exp, Dist_exp.lnPdf]
  rw [key m1, key m2, h]

/-- Witness of C8 as amended, with the exponential density, on
`exampleChain`, whose nodes are a constant node, a stochastic node, a
deterministic node and a stochastic node. -/
theorem C8_cloneDAG_value_state_witness :
    Cloneable exampleChain ∧
    ∃ c newNodes g1,
      StochasticNode.cloneDAG 5 0 ([], exampleChain) = Except.ok (c, (newNodes, g1)) ∧
      ∀ k ck, (k, ck) ∈ newNodes →
        ∃ nd cn, exampleChain.node k = some nd ∧ g1.node ck = some cn ∧
          (nd.dagType = DAGType.StochasticNode →
            cn.dagType = DAGType.StochasticNode ∧
            cn.value = nd.value ∧ cn.clamped = nd.clamped ∧
            (cn.storedValue = none ↔ nd.storedValue = none) ∧
            (nd.storedValue ≠ none → cn.storedValue = some nd.value) ∧
            cn.touched = false ∧
            StochasticNode.calculateLnProbability (Dist_exp (fun x : Int => x)) g1 ck
              = StochasticNode.calculateLnProbability (Dist_exp (fun x : Int => x))
                  exampleChain k) :=
  ⟨by decide,
   C8_cloneDAG_value_state (Dist_exp (fun x : Int => x)) exampleChain 0 5 (by decide)
    (by decide) (by decide) (Dist_exp_lnPdf_values (fun x : Int => x))⟩

/-! ## C12: unclamp -/

/-- C12. `unclamp()` on a stochastic node (clamped or not) returns; the node
is then not clamped, its stored value is a copy of its value, its value and
every other field are as before, and no other node has changed.  Hence
`clamp(v)` followed by `unclamp()` returns and leaves the node unclamped with
value `v` and stored value `v`. -/
theorem C12_unclamp_state {V : Type} (g : DAG V) (n : NodeId) (nd : DAGNode V)
    (hN : g.stochastic n = some nd) :
    (∃ g1, StochasticNode.unclamp n g = Except.ok g1 ∧
      g1.node n = some { nd with clamped := false, storedValue := some nd.value } ∧
      (g1.node n).map (fun o => (o.clamped, o.storedValue, o.value))
        = some (false, some nd.value, nd.value) ∧
      ∀ k, k ≠ n → g1.node k = g.node k) ∧
    (∀ v, ∃ g1 g2, StochasticNode.clamp n v g = Except.ok g1 ∧
      StochasticNode.unclamp n g1 = Except.ok g2 ∧
      (g2.node n).map (fun o => (o.value, o.storedValue, o.clamped))
        = some (v, some v, false)) := by
  obtain ⟨hnode, htype⟩ := stochastic_some hN
  have hlen := node_some_lt hnode
  constructor
  · refine ⟨g.store n { nd with clamped := false, storedValue := some nd.value },
      by simp [StochasticNode.unclamp, hN], by simp [node_store, hlen],
      by simp [node_store, hlen], fun k hk => by simp [node_store, hk]⟩
  · intro v
    have hinv := callTouchAffected_inv
      (fun o => o.value = v ∧ o.dagType = DAGType.StochasticNode)
      (fun o ⟨h1, h2⟩ => by
        obtain ⟨t1, _, t3, _⟩ := touchMeObject_value o
        exact ⟨t1.trans h1, t3.trans h2⟩)
      nd.children
      (g.store n { nd with value := v, storedValue := none, clamped := true, touched := false })
      n ⟨{ nd with value := v, storedValue := none, clamped := true, touched := false },
        by simp [node_store, hlen], rfl, htype⟩
    have hclamp : StochasticNode.clamp n v g = Except.ok
        (nd.children.foldl (fun acc c => callTouchAffected c acc) (g.store n
          { nd with value := v, storedValue := none, clamped := true, touched := false })) := by
      simp [StochasticNode.clamp, hN]
    generalize List.foldl (fun acc c => callTouchAffected c acc) (g.store n
      { nd with value := v, storedValue := none, clamped := true, touched := false })
      nd.children = gc at hinv hclamp
    obtain ⟨o, ho, hv, hty⟩ := hinv
    refine ⟨gc, gc.store n { o with clamped := false, storedValue := some o.value }, hclamp,
      by simp [StochasticNode.unclamp, stochastic_of_node ho hty], ?_⟩
    simp [node_store, node_some_lt ho, hv]

/-- Witness of C12 on `exampleChain`: node 1 is clamped to 42 and
unclamped. -/
theorem C12_unclamp_state_witness :
    exampleChain.stochastic 1
      = some (exampleNode DAGType.StochasticNode [0] [2] [("rate", some 0)] 5 (some 5)
          false false) ∧
    ∃ g1 g2, StochasticNode.clamp 1 42 exampleChain = Except.ok g1 ∧
      StochasticNode.unclamp 1 g1 = Except.ok g2 ∧
      (g2.node 1).map (fun o => (o.value, o.storedValue, o.clamped))
        = some (42, some 42, false) :=
  ⟨by decide,
   (C12_unclamp_state exampleChain 1
    (exampleNode DAGType.StochasticNode [0] [2] [("rate", some 0)] 5 (some 5) false false)
    (by decide)).2 42⟩

/-! ## Node-local updates: the heap after a propagation loop -/

theorem ext_node {V : Type} {g g1 : DAG V} (hl : g.length = g1.length)
    (h : ∀ k, g.node k = g1.node k) : g = g1 := by
  apply List.ext_getElem?
  intro k
  have hk := h k
  unfold DAG.node at hk
  by_cases hlt : k < g.length
  · have hlt1 : k < g1.length := hl ▸ hlt
    rw [List.getElem?_eq_getElem hlt, List.getElem?_eq_getElem hlt1] at hk ⊢
    simpa using hk
  · rw [List.getElem?_eq_none (Nat.le_of_not_lt hlt),
      List.getElem?_eq_none (hl ▸ Nat.le_of_not_lt hlt)]

theorem touchMeObject_idem {V : Type} (nd : DAGNode V) :
    touchMeObject (touchMeObject nd) = touchMeObject nd := by
  obtain ⟨dt, _, _, _, t, _, _, _, _, _, _, _, _⟩ := nd
  cases dt <;> cases t <;> rfl

theorem restoreMeObject_idem {V : Type} (nd : DAGNode V) :
    restoreMeObject (restoreMeObject nd) = restoreMeObject nd := by
  obtain ⟨dt, _, _, _, t, _, _, _, _, _, _, _, _⟩ := nd
  cases dt <;> cases t <;> rfl

/-- A loop applying an idempotent node-local update `f` to each node of `cs`:
every node of `cs` has received `f`, every other node is as before. -/
theorem foldl_modify_node {V : Type} (f : DAGNode V → DAGNode V) (hf : ∀ nd, f (f nd) = f nd)
    (cs : List NodeId) (g : DAG V) (k : NodeId) :
    (cs.foldl (fun acc c => acc.modify c f) g).node k
      = if k ∈ cs then (g.node k).map f else g.node k := by
  induction cs generalizing g with
  | nil => simp
  | cons c rest ih =>
    simp only [List.foldl_cons, ih, node_modify, List.mem_cons]
    by_cases e : k = c
    · subst e
      by_cases hr : k ∈ rest
      · simp only [hr, if_true, or_true]
        cases g.node k <;> simp [hf]
      · simp [hr]
    · simp [e]

/-- The heap after a loop of propagation calls over `cs`, when each call
applies the idempotent node-local update `f` to the children of the nodes that
`sel` selects: a node that is a child of a selected node of `cs` has received
`f`, every other node is as before. -/
theorem foldl_call_node {V : Type} (f : DAGNode V → DAGNode V) (hf : ∀ nd, f (f nd) = f nd)
    (call : NodeId → DAG V → DAG V) (sel : DAG V → NodeId → Prop)
    (hsel : ∀ g g1 c, SameShape g g1 → (sel g1 c ↔ sel g c))
    (hshape : ∀ c g, SameShape g (call c g))
    (hcall : ∀ c g k,
      (sel g c ∧ k ∈ g.children c → (call c g).node k = (g.node k).map f) ∧
      (¬ (sel g c ∧ k ∈ g.children c) → (call c g).node k = g.node k))
    (cs : List NodeId) (g : DAG V) (k : NodeId) :
    ((∃ c ∈ cs, sel g c ∧ k ∈ g.children c) →
      (cs.foldl (fun acc c => call c acc) g).node k = (g.node k).map f) ∧
    (¬ (∃ c ∈ cs, sel g c ∧ k ∈ g.children c) →
      (cs.foldl (fun acc c => call c acc) g).node k = g.node k) := by
  induction cs generalizing g with
  | nil => simp
  | cons c rest ih =>
    obtain ⟨ih1, ih2⟩ := ih (call c g)
    obtain ⟨hc1, hc2⟩ := hcall c g k
    have hs := hshape c g
    have hiff : (∃ c1 ∈ rest, sel (call c g) c1 ∧ k ∈ (call c g).children c1) ↔
        (∃ c1 ∈ rest, sel g c1 ∧ k ∈ g.children c1) := by
      constructor
      · rintro ⟨c1, h1, h2, h3⟩
        exact ⟨c1, h1, (hsel g _ c1 hs).mp h2, by rw [← hs.children]; exact h3⟩
      · rintro ⟨c1, h1, h2, h3⟩
        exact ⟨c1, h1, (hsel g _ c1 hs).mpr h2, by rw [hs.children]; exact h3⟩
    simp only [List.foldl_cons]
    by_cases hq : sel g c ∧ k ∈ g.children c
    · refine ⟨fun _ => ?_, fun hn => absurd ⟨c, List.mem_cons_self _ _, hq⟩ hn⟩
      by_cases hp : ∃ c1 ∈ rest, sel g c1 ∧ k ∈ g.children c1
      · rw [ih1 (hiff.mpr hp), hc1 hq]
        cases g.node k <;> simp [hf]
      · rw [ih2 (fun h => hp (hiff.mp h)), hc1 hq]
    · constructor
      · rintro ⟨c1, h1, h2⟩
        rcases List.mem_cons.mp h1 with e | h1
        · subst e
          exact absurd h2 hq
        · rw [ih1 (hiff.mpr ⟨c1, h1, h2⟩), hc2 hq]
      · intro hn
        rw [ih2, hc2 hq]
        intro h
        obtain ⟨c1, h1, h2⟩ := hiff.mp h
        exact hn ⟨c1, List.mem_cons_of_mem _ h1, h2⟩

/-- Whether the virtual calls `keepAffected()` and `restoreAffected()` pass
through a node depends on the shape of the heap only. -/
theorem passes_sameShape {V : Type} (g g1 : DAG V) (c : NodeId) (hs : SameShape g g1) :
    ((g1.node c).map (fun nd => nd.dagType) ≠ some DAGType.StochasticNode) ↔
    ((g.node c).map (fun nd => nd.dagType) ≠ some DAGType.StochasticNode) := by
  rw [hs.dagType]

theorem touchAffected_node {V : Type} (c : NodeId) (g : DAG V) (k : NodeId) :
    (DAGNode.touchAffected c g).node k
      = if k ∈ g.children c then (g.node k).map touchMeObject else g.node k :=
  foldl_modify_node touchMeObject touchMeObject_idem (g.children c) g k

theorem restoreAffected_node {V : Type} (c : NodeId) (g : DAG V) (k : NodeId) :
    (DAGNode.restoreAffected c g).node k
      = if k ∈ g.children c then (g.node k).map restoreMeObject else g.node k :=
  foldl_modify_node restoreMeObject restoreMeObject_idem (g.children c) g k

theorem callTouchAffected_node {V : Type} (c : NodeId) (g : DAG V) (k : NodeId) :
    (True ∧ k ∈ g.children c → (callTouchAffected c g).node k = (g.node k).map touchMeObject) ∧
    (¬ (True ∧ k ∈ g.children c) → (callTouchAffected c g).node k = g.node k) := by
  unfold callTouchAffected
  rw [touchAffected_node]
  by_cases h : k ∈ g.children c <;> simp [h]

theorem callRestoreAffected_node {V : Type} (c : NodeId) (g : DAG V) (k : NodeId) :
    ((g.node c).map (fun nd => nd.dagType) ≠ some DAGType.StochasticNode ∧ k ∈ g.children c →
      (callRestoreAffected c g).node k = (g.node k).map restoreMeObject) ∧
    (¬ ((g.node c).map (fun nd => nd.dagType) ≠ some DAGType.StochasticNode ∧
        k ∈ g.children c) → (callRestoreAffected c g).node k = g.node k) := by
  unfold callRestoreAffected
  cases hc : g.node c with
  | none => simp [DAG.children, hc]
  | some cn =>
    by_cases hd : cn.dagType = DAGType.StochasticNode
    · simp [hd, StochasticNode.restoreAffected]
    · simp only [hd, if_false, restoreAffected_node, Option.map_some', ne_eq, Option.some.injEq,
        not_false_eq_true, true_and]
      by_cases h : k ∈ g.children c <;> simp [h]

/-- The heap after a node-local update `f` of the node `n` followed by the
same update of each of its children, as `touch()`, `keep()` and `restore()` of
`DAGNode` run it: `n` and its children have received `f`, every other node is
as before. -/
theorem propagate_node {V : Type} (f : DAGNode V → DAGNode V) (hf : ∀ nd, f (f nd) = f nd)
    (hshape : ∀ nd, ((f nd).dagType, (f nd).children, (f nd).parents, (f nd).distribution)
      = (nd.dagType, nd.children, nd.parents, nd.distribution))
    (n : NodeId) (g : DAG V) (k : NodeId) :
    (((g.modify n f).children n).foldl (fun acc c => acc.modify c f) (g.modify n f)).node k
      = if k = n ∨ k ∈ g.children n then (g.node k).map f else g.node k := by
  rw [foldl_modify_node f hf, (sameShape_modify g n f hshape).children, node_modify]
  by_cases e : k = n
  · subst e
    by_cases h : k ∈ g.children k
    · simp only [h, if_true, or_true]
      cases g.node k <;> simp [hf]
    · simp [h]
  · simp [e]

theorem touchMeObject_shape {V : Type} (nd : DAGNode V) :
    ((touchMeObject nd).dagType, (touchMeObject nd).children, (touchMeObject nd).parents,
      (touchMeObject nd).distribution)
      = (nd.dagType, nd.children, nd.parents, nd.distribution) := by
  obtain ⟨dt, _, _, _, t, _, _, _, _, _, _, _, _⟩ := nd
  cases dt <;> cases t <;> rfl

theorem restoreMeObject_shape {V : Type} (nd : DAGNode V) :
    ((restoreMeObject nd).dagType, (restoreMeObject nd).children, (restoreMeObject nd).parents,
      (restoreMeObject nd).distribution)
      = (nd.dagType, nd.children, nd.parents, nd.distribution) := by
  obtain ⟨dt, _, _, _, t, _, _, _, _, _, _, _, _⟩ := nd
  cases dt <;> cases t <;> rfl

theorem touch_node {V : Type} (n : NodeId) (g : DAG V) (k : NodeId) :
    (DAGNode.touch n g).node k
      = if k = n ∨ k ∈ g.children n then (g.node k).map touchMeObject else g.node k :=
  propagate_node touchMeObject touchMeObject_idem touchMeObject_shape n g k

theorem restore_node {V : Type} (n : NodeId) (g : DAG V) (k : NodeId) :
    (DAGNode.restore n g).node k
      = if k = n ∨ k ∈ g.children n then (g.node k).map restoreMeObject else g.node k :=
  propagate_node restoreMeObject restoreMeObject_idem restoreMeObject_shape n g k

/-! ## C13: keep is idempotent -/

/-- A loop over calls that each add a fixed contribution to the collector adds
the contributions one after the other. -/
theorem forEach_contribution {E : Type} (body : NodeId → List NodeId → Except E (List NodeId))
    (cs : List NodeId)
    (hbody : ∀ c ∈ cs, ∀ S R, body c S = Except.ok R →
      ∃ C : List NodeId, ∀ S1, ∃ R1, body c S1 = Except.ok R1 ∧ ∀ x, x ∈ R1 ↔ x ∈ S1 ∨ x ∈ C)
    (S R : List NodeId) (h : forEach body cs S = Except.ok R) :
    ∃ C : List NodeId, ∀ S1, ∃ R1, forEach body cs S1 = Except.ok R1 ∧
      ∀ x, x ∈ R1 ↔ x ∈ S1 ∨ x ∈ C := by
  induction cs generalizing S with
  | nil => exact ⟨[], fun S1 => ⟨S1, rfl, by simp⟩⟩
  | cons c rest ih =>
    unfold forEach at h
    cases hb : body c S with
    | error e => simp [hb] at h
    | ok S2 =>
      simp only [hb] at h
      obtain ⟨C1, hC1⟩ := hbody c (List.mem_cons_self _ _) S S2 hb
      obtain ⟨C2, hC2⟩ := ih (fun y hy => hbody y (List.mem_cons_of_mem _ hy)) S2 h
      refine ⟨C1 ++ C2, fun S1 => ?_⟩
      obtain ⟨R1, h1, h2⟩ := hC1 S1
      obtain ⟨R2, h3, h4⟩ := hC2 R1
      refine ⟨R2, by simp [forEach, h1, h3], fun x => ?_⟩
      rw [h4, h2, List.mem_append, or_assoc]

/-- A returning call of `getAffected` adds to the collector a contribution
that does not depend on the collector. -/
theorem callGetAffected_contribution {V : Type} (g : DAG V) (fuel : Nat) :
    ∀ (c : NodeId) (S R : List NodeId), callGetAffected g fuel c S = Except.ok R →
      ∃ C : List NodeId, ∀ S1, ∃ R1, callGetAffected g fuel c S1 = Except.ok R1 ∧
        ∀ x, x ∈ R1 ↔ x ∈ S1 ∨ x ∈ C := by
  induction fuel with
  | zero => intro c S R h; simp [callGetAffected] at h
  | succ fuel ih =>
    intro c S R h
    unfold callGetAffected at h ⊢
    cases hc : g.node c with
    | none => exact ⟨[], fun S1 => ⟨S1, rfl, by simp⟩⟩
    | some cn =>
      simp only [hc] at h ⊢
      cases hd : cn.dagType with
      | StochasticNode =>
        refine ⟨[c], fun S1 => ⟨_, rfl, fun x => ?_⟩⟩
        unfold StochasticNode.getAffected
        rw [mem_setInsert, List.mem_singleton, or_comm]
      | ConstantNode => exact ⟨[], fun S1 => ⟨S1, rfl, by simp⟩⟩
      | DeterministicNode =>
        simp only [hd] at h ⊢
        exact forEach_contribution _ cn.children (fun k _ => ih k) S R h

/-- A returning loop of `getAffected` calls leaves in the collector what it
held before and the results of the calls. -/
theorem forEach_union {V : Type} (g : DAG V) (fuel : Nat) (cs : List NodeId)
    (S R : List NodeId) (h : forEach (callGetAffected g fuel) cs S = Except.ok R) :
    ∀ x, x ∈ R ↔ x ∈ S ∨ ∃ c ∈ cs, ∃ Rc, callGetAffected g fuel c [] = Except.ok Rc ∧ x ∈ Rc := by
  induction cs generalizing S with
  | nil =>
    unfold forEach at h
    injection h with h
    subst h
    simp
  | cons c rest ih =>
    unfold forEach at h
    cases hb : callGetAffected g fuel c S with
    | error e => simp [hb] at h
    | ok S2 =>
      simp only [hb] at h
      obtain ⟨C, hC⟩ := callGetAffected_contribution g fuel c S S2 hb
      obtain ⟨R1, h1, h2⟩ := hC S
      obtain ⟨R0, h3, h4⟩ := hC []
      rw [hb] at h1
      injection h1 with h1
      subst h1
      intro x
      rw [ih S2 h, h2]
      constructor
      · rintro ((hx | hx) | ⟨c1, hc1, Rc, h5, h6⟩)
        · exact Or.inl hx
        · exact Or.inr ⟨c, List.mem_cons_self _ _, R0, h3, (h4 x).mpr (Or.inr hx)⟩
        · exact Or.inr ⟨c1, List.mem_cons_of_mem _ hc1, Rc, h5, h6⟩
      · rintro (hx | ⟨c1, hc1, Rc, h5, h6⟩)
        · exact Or.inl (Or.inl hx)
        · rcases List.mem_cons.mp hc1 with e | hc1
          · subst e
            rw [h3] at h5
            injection h5 with h5
            subst h5
            rcases (h4 x).mp h6 with h7 | h7
            · simp at h7
            · exact Or.inl (Or.inr h7)
          · exact Or.inr ⟨c1, hc1, Rc, h5, h6⟩

theorem forEach_congr {E S : Type} (body body1 : NodeId → S → Except E S) (xs : List NodeId)
    (h : ∀ x ∈ xs, ∀ s, body1 x s = body x s) (s : S) :
    forEach body1 xs s = forEach body xs s := by
  induction xs generalizing s with
  | nil => rfl
  | cons x rest ih =>
    unfold forEach
    rw [h x (List.mem_cons_self _ _) s]
    cases body x s with
    | error e => rfl
    | ok s1 => exact ih (fun y hy => h y (List.mem_cons_of_mem _ hy)) s1

/-- The collection of affected nodes reads the class and the children of the
nodes only. -/
theorem callGetAffected_congr {V : Type} {g g1 : DAG V} (hs : SameShape g g1) (fuel : Nat) :
    ∀ (c : NodeId) (S : List NodeId), callGetAffected g1 fuel c S = callGetAffected g fuel c S := by
  induction fuel with
  | zero => intro c S; rfl
  | succ fuel ih =>
    intro c S
    have h1 := hs.dagType c
    have h2 := hs.children c
    unfold callGetAffected
    cases hc : g.node c with
    | none =>
      cases hc1 : g1.node c with
      | none => rfl
      | some cn1 => simp [hc, hc1] at h1
    | some cn =>
      cases hc1 : g1.node c with
      | none => simp [hc, hc1] at h1
      | some cn1 =>
        simp only [hc, hc1, Option.map_some', Option.some.injEq] at h1
        rw [children_of_node hc, children_of_node hc1] at h2
        simp only [h1, h2]
        cases cn.dagType with
        | StochasticNode => rfl
        | ConstantNode => rfl
        | DeterministicNode => exact forEach_congr _ _ _ (fun k _ s => ih k s) S

/-- C14. For a stochastic node `n` of an acyclic heap (certified by `rank`)
and a collector `S`: `StochasticNode::getAffected` leaves the collector equal
to `S ∪ {n}`, whatever children `n` has; collecting the affected nodes of `n`
with `getAffectedNodes`, or with `getValuePtr`, returns and leaves in the
collector `S` and the union of the results of `getAffected` on the children of
`n`.  Hence, whenever the only child of `n` is a deterministic node `b` whose
only child is a stochastic node `c`, the collection started from `n` with an
empty collector yields exactly `{c}`, whatever lies below `c`.  The
pass-through of a deterministic node is modelled from the spec. -/
theorem C14_getAffected_stops {V : Type} (g : DAG V) (rank : NodeId → Nat) (n : NodeId)
    (nd : DAGNode V) (fuel : Nat) (S : List NodeId)
    (hN : g.stochastic n = some nd) (hrank : IsRanking g rank) (hfuel : rank n ≤ fuel) :
    (∀ x, x ∈ StochasticNode.getAffected n S ↔ x ∈ S ∨ x = n) ∧
    callGetAffected g (fuel + 1) n S = Except.ok (StochasticNode.getAffected n S) ∧
    (∃ R, DAGNode.getAffectedNodes g fuel n S = Except.ok R ∧
      ∀ x, x ∈ R ↔ x ∈ S ∨
        ∃ c ∈ g.children n, ∃ Rc, callGetAffected g fuel c [] = Except.ok Rc ∧ x ∈ Rc) ∧
    (∃ R, StochasticNode.getValuePtr fuel n S g
        = Except.ok (nd.value, R, g.store n { nd with touched := true }) ∧
      ∀ x, x ∈ R ↔ x ∈ S ∨
        ∃ c ∈ g.children n, ∃ Rc, callGetAffected g fuel c [] = Except.ok Rc ∧ x ∈ Rc) ∧
    (∀ (b c : NodeId) (bn cn : DAGNode V), g.children n = [b] → g.node b = some bn →
      bn.dagType = DAGType.DeterministicNode → bn.children = [c] → g.node c = some cn →
      cn.dagType = DAGType.StochasticNode → ∀ fuel1,
        DAGNode.getAffectedNodes g (fuel1 + 2) n [] = Except.ok [c] ∧
        StochasticNode.getValuePtr (fuel1 + 2) n [] g
          = Except.ok (nd.value, [c], g.store n { nd with touched := true })) := by
  obtain ⟨hnode, htype⟩ := stochastic_some hN
  have hshape : SameShape g (g.store n { nd with touched := true }) := sameShape_store hnode rfl
  have hptr : ∀ (fuel0 : Nat) (S0 : List NodeId),
      forEach (callGetAffected (g.store n { nd with touched := true }) fuel0) nd.children S0
        = DAGNode.getAffectedNodes g fuel0 n S0 := by
    intro fuel0 S0
    unfold DAGNode.getAffectedNodes
    rw [children_of_node hnode]
    exact forEach_congr _ _ _ (fun c _ s => callGetAffected_congr hshape fuel0 c s) S0
  obtain ⟨R, hR⟩ := forEach_ok (callGetAffected g fuel) (g.children n)
    (fun c hc s => callGetAffected_ok g rank hrank fuel c s
      (Nat.lt_of_lt_of_le (hrank.lt hc) hfuel)) S
  have hR2 : DAGNode.getAffectedNodes g fuel n S = Except.ok R := hR
  refine ⟨fun x => ?_, ?_, ⟨R, hR2, forEach_union g fuel _ S R hR⟩,
    ⟨R, ?_, forEach_union g fuel _ S R hR⟩, ?_⟩
  · unfold StochasticNode.getAffected
    rw [mem_setInsert, or_comm]
  · simp [callGetAffected, hnode, htype]
  · simp [StochasticNode.getValuePtr, hN, hptr, hR2]
  · intro b c bn cn h1 h2 h3 h4 h5 h6 fuel1
    have hchain : DAGNode.getAffectedNodes g (fuel1 + 2) n [] = Except.ok [c] := by
      simp [DAGNode.getAffectedNodes, h1, forEach, callGetAffected, h2, h3, h4, h5, h6,
        StochasticNode.getAffected, setInsert]
    refine ⟨hchain, ?_⟩
    simp [StochasticNode.getValuePtr, hN, hptr, hchain]

/-- Witness of C14 on `exampleLongChain`: from node 0 (A) the collector
receives node 2 (C) only, neither the deterministic node 1 (B) nor the nodes 3
and 4 below C. -/
theorem C14_getAffected_stops_witness :
    exampleLongChain.stochastic 0
      = some (exampleNode DAGType.StochasticNode [] [1] [] 10 (some 10) false false) ∧
    IsRanking exampleLongChain exampleRank ∧
    DAGNode.getAffectedNodes exampleLongChain 10 0 [] = Except.ok [2] ∧
    StochasticNode.getValuePtr 10 0 [] exampleLongChain
      = Except.ok (10, [2], exampleLongChain.store 0
          { exampleNode DAGType.StochasticNode [] [1] [] 10 (some 10) false false
            with touched := true }) :=
  ⟨by decide, by decide,
   (C14_getAffected_stops exampleLongChain exampleRank 0
    (exampleNode DAGType.StochasticNode [] [1] [] 10 (some 10) false false) 10 []
    (by decide) (by decide) (by decide)).2.2.2.2 1 2
    (exampleNode DAGType.DeterministicNode [0] [2] [] 11 none false false)
    (exampleNode DAGType.StochasticNode [1] [3] [("rate", some 1)] 12 (some 12) false false)
    (by decide) (by decide) (by decide) (by decide) (by decide) (by decide) 8⟩

/-! ## C15: removeChildNode -/

theorem setErase_of_not_mem {c : NodeId} {s : List NodeId} (h : c ∉ s) : setErase c s = s := by
  unfold setErase
  rw [List.filter_eq_self]
  intro a ha
  simp only [bne_iff_ne, ne_eq]
  rintro rfl
  exact h ha

theorem setErase_setInsert {c : NodeId} {s : List NodeId} (h : c ∉ s) :
    setErase c (setInsert c s) = s := by
  unfold setInsert
  simp only [h, if_false]
  unfold setErase
  rw [List.filter_cons]
  simp only [bne_self_eq_false, Bool.false_eq_true, if_false]
  exact setErase_of_not_mem h

/-- C15. `removeChildNode(c)` has no failing path (it is a total function of
the heap) and writes nothing but the children set of `this`.  When `c` is not
a registered child the heap is unchanged; when it is, the children set becomes
exactly the previous set minus `c`.  Hence a second `removeChildNode(c)`
changes nothing, and `addChildNode(c)` followed by `removeChildNode(c)` gives
back the children set whenever `c` was not a child beforehand. -/
theorem C15_removeChildNode {V : Type} (g : DAG V) (this c : NodeId) :
    (∀ k, k ≠ this → (DAGNode.removeChildNode this c g).node k = g.node k) ∧
    (DAGNode.removeChildNode this c g).node this
      = (g.node this).map (fun nd => { nd with children := setErase c nd.children }) ∧
    (c ∉ g.children this → DAGNode.removeChildNode this c g = g) ∧
    (c ∈ g.children this →
      (DAGNode.removeChildNode this c g).children this = setErase c (g.children this)) ∧
    (∀ x, x ∈ (DAGNode.removeChildNode this c g).children this ↔ x ∈ g.children this ∧ x ≠ c) ∧
    DAGNode.removeChildNode this c (DAGNode.removeChildNode this c g)
      = DAGNode.removeChildNode this c g ∧
    (c ∉ g.children this →
      (DAGNode.removeChildNode this c (DAGNode.addChildNode this c g)).children this
        = g.children this) := by
  have hnode : (DAGNode.removeChildNode this c g).node this
      = (g.node this).map (fun nd => { nd with children := setErase c nd.children }) := by
    unfold DAGNode.removeChildNode
    rw [node_modify]
    simp only [if_true]
    cases g.node this with
    | none => rfl
    | some nd =>
      simp only [Option.map_some', Option.some.injEq]
      split
      · rfl
      · next h => rw [setErase_of_not_mem h]
  have hne : ∀ (h : DAG V) k, k ≠ this → (DAGNode.removeChildNode this c h).node k = h.node k :=
    fun h k hk => node_modify_ne h _ hk
  have hlen : ∀ h : DAG V, (DAGNode.removeChildNode this c h).length = h.length :=
    fun h => length_modify h _ _
  have hsame : c ∉ g.children this → DAGNode.removeChildNode this c g = g := by
    intro hc
    apply ext_node (hlen g)
    intro k
    by_cases e : k = this
    · subst e
      rw [hnode]
      cases hk : g.node k with
      | none => rfl
      | some nd =>
        rw [children_of_node hk] at hc
        simp [setErase_of_not_mem hc]
    · exact hne g k e
  have hmem : ∀ (h : DAG V) x, x ∈ (DAGNode.removeChildNode this c h).children this ↔
      x ∈ h.children this ∧ x ≠ c := by
    intro h x
    rw [(removeChildNode_edges this c h this).2]
    simp [mem_setErase]
  refine ⟨hne g, hnode, hsame, fun _ => ?_, hmem g, ?_, fun hc => ?_⟩
  · rw [(removeChildNode_edges this c g this).2]
    simp
  · apply ext_node (hlen _)
    intro k
    by_cases e : k = this
    · subst e
      unfold DAGNode.removeChildNode
      rw [node_modify, node_modify]
      simp only [if_true]
      cases g.node k with
      | none => rfl
      | some nd =>
        simp only [Option.map_some', Option.some.injEq]
        split
        · next h =>
          rw [if_neg]
          simp [mem_setErase]
        · next h => simp [h]
    · rw [hne _ k e]
  · rw [(removeChildNode_edges this c _ this).2, (addChildNode_edges this c g this).2]
    simp only [if_true, true_and]
    split
    · exact setErase_setInsert hc
    · exact setErase_of_not_mem hc

/-- Witness of C15 on `exampleTwo`, where node 1 is the only child of node 0:
removing node 5, not a child, changes nothing; removing node 1 empties the
children set; adding node 5 and removing it again gives back the children
set. -/
theorem C15_removeChildNode_witness :
    (5 ∉ exampleTwo.children 0 ∧ DAGNode.removeChildNode 0 5 exampleTwo = exampleTwo) ∧
    (1 ∈ exampleTwo.children 0 ∧
      (DAGNode.removeChildNode 0 1 exampleTwo).children 0 = setErase 1 (exampleTwo.children 0)) ∧
    (DAGNode.removeChildNode 0 5 (DAGNode.addChildNode 0 5 exampleTwo)).children 0
      = exampleTwo.children 0 :=
  ⟨⟨by decide, (C15_removeChildNode exampleTwo 0 5).2.2.1 (by decide)⟩,
   ⟨by decide, (C15_removeChildNode exampleTwo 0 1).2.2.2.1 (by decide)⟩,
   (C15_removeChildNode exampleTwo 0 5).2.2.2.2.2.2 (by decide)⟩

/-! ## C16, C17: destruction -/

theorem SnapshotKept.touched {V : Type} {nd o : DAGNode V} (h : SnapshotKept nd o) :
    SnapshotKept nd { o with touched := true } :=
  ⟨h.1, fun ht => ⟨rfl, (h.2.1 ht).2⟩, fun hu hs => ⟨(h.2.2 hu hs).1, fun hf => by cases hf⟩⟩

theorem SnapshotKept.written {V : Type} {nd o : DAGNode V} (h : SnapshotKept nd o)
    (ht : o.touched = true) (v : V) : SnapshotKept nd { o with value := v } :=
  ⟨h.1, fun hn => h.2.1 hn, fun hu hs => ⟨(h.2.2 hu hs).1, fun hf => by
    simp only at hf
    rw [ht] at hf
    cases hf⟩⟩

theorem SnapshotKept.touchMe {V : Type} {nd o : DAGNode V} (h : SnapshotKept nd o) :
    SnapshotKept nd (touchMeObject o) := by
  obtain ⟨h1, h2, h3⟩ := h
  obtain ⟨dt, ch, pa, rc, t, fr, cl, di, va, sv, ty, np, nl⟩ := o
  simp only at h1 h2 h3
  subst h1
  cases t with
  | true =>
    exact ⟨rfl, h2, fun hu hs => ⟨(h3 hu hs).1, fun hx => by cases hx⟩⟩
  | false =>
    refine ⟨rfl, fun hn => (by cases (h2 hn).1), fun hu hs => ⟨?_, fun hx => (by cases hx)⟩⟩
    have := (h3 hu hs).2 rfl
    subst this
    rfl

/-- Every operation of `TouchStep` preserves `SnapshotKept` at every node. -/
theorem touchStep_snapshot {V : Type} {g g1 : DAG V} (hstep : TouchStep g g1) (n : NodeId)
    (nd : DAGNode V) (h : ∃ o, g.node n = some o ∧ SnapshotKept nd o) :
    ∃ o, g1.node n = some o ∧ SnapshotKept nd o := by
  obtain ⟨o, ho, hk⟩ := h
  cases hstep with
  | getValuePtr fuel m affected g0 v affected1 g2 hp =>
    unfold StochasticNode.getValuePtr at hp
    cases hm : g.stochastic m with
    | none => simp [hm] at hp
    | some md =>
      obtain ⟨hmnode, _⟩ := stochastic_some hm
      simp only [hm] at hp
      split at hp
      · cases hp
      · injection hp with hp
        injection hp with _ hp
        injection hp with _ hp
        subst hp
        rw [node_store]
        by_cases e : n = m
        · subst e
          rw [hmnode] at ho
          injection ho with ho
          subst ho
          exact ⟨_, by simp [node_some_lt hmnode], hk.touched⟩
        · exact ⟨o, by simp [e, ho], hk⟩
  | write m newValue g0 md hm ht =>
    obtain ⟨hmnode, _⟩ := stochastic_some hm
    unfold writeThroughValuePtr
    rw [node_modify]
    by_cases e : n = m
    · subst e
      rw [hmnode] at ho
      injection ho with ho
      subst ho
      exact ⟨_, by simp [hmnode], hk.written ht newValue⟩
    · exact ⟨o, by simp [e, ho], hk⟩
  | touch p g0 =>
    rw [touch_node]
    split
    · exact ⟨_, by simp [ho], hk.touchMe⟩
    · exact ⟨o, ho, hk⟩
  | touchAffected p g0 =>
    rw [touchAffected_node]
    split
    · exact ⟨_, by simp [ho], hk.touchMe⟩
    · exact ⟨o, ho, hk⟩

/-- C19, counterexample.  In `exampleTouched` node 0 is touched, holds the
proposed value 9 and the snapshot 5 of the value it had before the touch;
`setValue(7)`, called before any `keep()` or `restore()`, returns and leaves
the node touched with the stored value 7.  In `exampleClamped` node 0 is
untouched with value 5 and no stored value; `getValuePtr` touches it and
writes no snapshot, so its stored value is not the value 5 it held before the
touch. -/
theorem C19_setValue_overwrites_snapshot :
    exampleTouched.stochastic 0
      = some (exampleNode DAGType.StochasticNode [] [] [] 9 (some 5) true false) ∧
    (∃ g1, StochasticNode.setValue 0 7 exampleTouched = Except.ok g1 ∧
      (g1.node 0).map (fun o => (o.touched, o.storedValue)) = some (true, some 7)) ∧
    exampleClamped.stochastic 0
      = some (exampleNode DAGType.StochasticNode [] [] [] 5 none false true) ∧
    (∃ g1, StochasticNode.getValuePtr 1 0 [] exampleClamped = Except.ok (5, [], g1) ∧
      (g1.node 0).map (fun o => (o.touched, o.storedValue)) = some (true, none)) :=
  ⟨by decide, ⟨_, rfl, by decide⟩, by decide, ⟨_, rfl, by decide⟩⟩

/-- C19 as amended.  Through any sequence of touching operations
(`getValuePtr`, writes through the value pointer of a touched node, `touch()`
and `touchAffected()` on any nodes, so also touches arriving from several
parents) a stochastic node that is touched stays touched and keeps its stored
value; and a node that starts the cycle untouched with a stored value equal to
its value keeps, whatever touches it first and however often it is touched
again, a stored value equal to the value it held before the first touch.
`setValue` on an unclamped node is different: it returns and replaces the
stored value by a copy of the new value.  `touchMe` is modelled from the
spec. -/
theorem C19_touches_keep_snapshot {V : Type} (g g1 : DAG V) (n : NodeId) (nd : DAGNode V)
    (hN : g.stochastic n = some nd) (hsteps : Relation.ReflTransGen TouchStep g g1) :
    (∃ nd1, g1.stochastic n = some nd1 ∧
      (nd.touched = true → nd1.touched = true ∧ nd1.storedValue = nd.storedValue) ∧
      (nd.touched = false → nd.storedValue = some nd.value →
        nd1.storedValue = some nd.value ∧ (nd1.touched = false → nd1 = nd))) ∧
    (nd.clamped = false → ∀ x, ∃ g2, StochasticNode.setValue n x g = Except.ok g2 ∧
      (g2.node n).map (fun o => o.storedValue) = some (some x)) := by
  obtain ⟨hnode, htype⟩ := stochastic_some hN
  constructor
  · have hall : ∃ o, g1.node n = some o ∧ SnapshotKept nd o := by
      induction hsteps with
      | refl => exact ⟨nd, hnode, htype, fun _ => ⟨by assumption, rfl⟩, fun _ hs => ⟨hs, fun _ => rfl⟩⟩
      | tail _ hstep ih => exact touchStep_snapshot hstep n nd ih
    obtain ⟨o, ho, h1, h2, h3⟩ := hall
    exact ⟨o, stochastic_of_node ho h1, h2, h3⟩
  · intro hc x
    refine ⟨nd.children.foldl (fun acc c => callTouchAffected c acc)
      (g.store n { nd with value := x, storedValue := some x }),
      by simp [StochasticNode.setValue, hN, hc], ?_⟩
    obtain ⟨o, ho, hv, hs⟩ := callTouchAffected_inv
      (fun o => o.value = x ∧ o.storedValue = some x)
      (fun o ⟨h1, h2⟩ => by
        obtain ⟨t1, _, _, t4⟩ := touchMeObject_value o
        refine ⟨t1.trans h1, ?_⟩
        rcases t4 with t4 | t4
        · exact t4.trans h2
        · rw [t4, h1])
      nd.children (g.store n { nd with value := x, storedValue := some x }) n
      ⟨{ nd with value := x, storedValue := some x },
        by simp [node_store, node_some_lt hnode], rfl, rfl⟩
    simp [ho, hs]

/-- Witness of C19 on `exampleDiamond`, where node 3 has the parents 1 and 2:
`touch()` on node 1 touches node 3, a move changes the value of node 3 to 99,
and `touch()` on node 2 touches node 3 again.  The stored value of node 3 is
still 13, the value it held before the first touch. -/
theorem C19_touches_keep_snapshot_witness :
    exampleDiamond.stochastic 3
      = some (exampleNode DAGType.StochasticNode [1, 2] [] [("shape", some 1), ("rate", some 2)]
          13 (some 13) false false) ∧
    ∃ nd1, (DAGNode.touch 2 (writeThroughValuePtr 3 99 (DAGNode.touch 1 exampleDiamond))).stochastic 3
        = some nd1 ∧ nd1.storedValue = some 13 :=
  ⟨by decide,
   (C19_touches_keep_snapshot exampleDiamond
    (DAGNode.touch 2 (writeThroughValuePtr 3 99 (DAGNode.touch 1 exampleDiamond))) 3
    (exampleNode DAGType.StochasticNode [1, 2] [] [("shape", some 1), ("rate", some 2)]
      13 (some 13) false false)
    (by decide)
    (((Relation.ReflTransGen.single (TouchStep.touch 1 exampleDiamond)).tail
      (TouchStep.write 3 99 (DAGNode.touch 1 exampleDiamond)
        { exampleNode DAGType.StochasticNode [1, 2] [] [("shape", some 1), ("rate", some 2)]
            13 (some 13) true false with needsProbabilityRecalculation := true }
        (by decide) (by decide))).tail
      (TouchStep.touch 2 _))).1.imp
    (fun _ h => ⟨h.1, (h.2.2 (by decide) (by decide)).1⟩)⟩

/-! ## C20: swapParentNode when it raises -/

/-- C20, the code at the failing input `exampleStrayParent`.  The call
`swapParentNode(node 0, node 2)` on node 1 raises "Node is not a parameter",
and the heap it leaves has been rewired: node 0 has lost node 1 as a child,
node 2 has gained it, and the parents of node 1 are node 2 instead of node 0.
The other raise is atomic: `swapParentNode(node 2, node 0)` raises "Node is
not a parent" and leaves the heap as it was. -/
theorem C20_swapParentNode_not_atomic :
    exampleStrayParent.parents 1 = [0] ∧ exampleStrayParent.children 0 = [1] ∧
    exampleStrayParent.children 2 = [] ∧
    (∃ g1, StochasticNode.swapParentNode 1 0 2 7 exampleStrayParent
        = Except.error (Failure.exception "Node is not a parameter" g1) ∧
      g1.parents 1 = [2] ∧ g1.children 0 = [] ∧ g1.children 2 = [1] ∧
      (g1.node 1).map (fun o => (o.distribution, o.value, o.storedValue))
        = some ([("rate", some 2)], 4, some 4)) ∧
    StochasticNode.swapParentNode 1 2 0 7 exampleStrayParent
      = Except.error (Failure.exception "Node is not a parent" exampleStrayParent) := by
  refine ⟨?_, ?_, ?_, ⟨_, rfl, ?_, ?_, ?_, ?_⟩, rfl⟩ <;> decide

/-! ## C21: the ancestor search -/

theorem isParentInDAG_loop_false (recurse : NodeId → Option Bool) (done ps : List NodeId)
    (h : ∀ i ∈ ps, recurse i = some false) :
    DAGNode.isParentInDAG.loop recurse done ps = some false := by
  induction ps with
  | nil => rfl
  | cons i rest ih =>
    unfold DAGNode.isParentInDAG.loop
    have hr := ih (fun j hj => h j (List.mem_cons_of_mem _ hj))
    split
    · exact hr
    · rw [h i (List.mem_cons_self _ _)]
      exact hr

/-- C21, the code on every acyclic heap (certified by `height`): for every
node `n` and every node `x`, `n.isParentInDAG(x, done)` called with an empty
`done` list returns, as soon as the budget exceeds the height of `n`, and the
answer is false, also when `x` is a proper ancestor of `n`.  The search visits
the parents without ever comparing a node with `x`. -/
theorem C21_isParentInDAG_never_true {V : Type} (g : DAG V) (height : NodeId → Nat)
    (hh : IsHeight g height) (x : NodeId) :
    ∀ (fuel : Nat) (n : NodeId), height n < fuel →
      DAGNode.isParentInDAG g x [] fuel n = some false := by
  intro fuel
  induction fuel with
  | zero => intro n h; exact absurd h (Nat.not_lt_zero _)
  | succ fuel ih =>
    intro n hlt
    unfold DAGNode.isParentInDAG
    apply isParentInDAG_loop_false
    intro p hp
    apply ih
    cases hn : g.node n with
    | none => simp [DAG.parents, hn] at hp
    | some nd =>
      exact Nat.lt_of_lt_of_le (hh n (node_some_lt hn) p hp) (Nat.le_of_lt_succ hlt)

/-- Witness of C21 on `exampleTriple`, the chain 0 → 1 → 2: node 0 is a proper
ancestor of node 2 and the search from node 2 for node 0 answers false. -/
theorem C21_isParentInDAG_never_true_witness :
    IsHeight exampleTriple (fun k => k) ∧ ProperAncestor exampleTriple 2 0 ∧
    DAGNode.isParentInDAG exampleTriple 0 [] 5 2 = some false :=
  ⟨by decide,
   Relation.TransGen.tail
     (Relation.TransGen.single (show 1 ∈ exampleTriple.parents 2 by decide))
     (show 0 ∈ exampleTriple.parents 1 by decide),
   C21_isParentInDAG_never_true exampleTriple (fun k => k) (by decide) 0 5 2 (by decide)⟩

/-! ## C22, C23: the shortcuts of the exponential distribution -/

/-- C22. For the exponential distribution whose member variable `rate` has
the value `lambda`, and any real values `newX` and `oldX`:
`Dist_exp::lnPriorRatio(newX, oldX)` returns `lambda * (oldX - newX)`, and this
equals `lnPdf(newX) - lnPdf(oldX)` computed with the same rate, as an identity
over the reals (for every `lambda`, positive or not). -/
theorem C22_lnPriorRatio_is_density_ratio (members : List (String × Variable ℝ))
    (lambda newX oldX : ℝ)
    (hrate : (getVariable members "rate").bind (fun v => v.value) = some lambda) :
    Dist_exp.lnPriorRatio members (some newX) (some oldX) = some (lambda * (oldX - newX)) ∧
    Dist_exp.lnPdf Real.log members (some newX) = some (Real.log lambda - lambda * newX) ∧
    Dist_exp.lnPdf Real.log members (some oldX) = some (Real.log lambda - lambda * oldX) ∧
    lambda * (oldX - newX)
      = (Real.log lambda - lambda * newX) - (Real.log lambda - lambda * oldX) := by
  refine ⟨?_, ?_, ?_, by ring⟩
  · simp [Dist_exp.lnPriorRatio, hrate]
  · simp [Dist_exp.lnPdf, hrate]
  · simp [Dist_exp.lnPdf, hrate]

/-- Witness of C22: rate 2, new value 1, old value 3. -/
theorem C22_lnPriorRatio_is_density_ratio_witness :
    Dist_exp.lnPriorRatio [("rate", ({ value := some 2, storedValue := some 2 } : Variable ℝ))]
      (some 1) (some 3) = some (2 * (3 - 1)) ∧
    (2 : ℝ) * (3 - 1) = (Real.log 2 - 2 * 1) - (Real.log 2 - 2 * 3) :=
  have h := C22_lnPriorRatio_is_density_ratio
    [("rate", ({ value := some 2, storedValue := some 2 } : Variable ℝ))] 2 1 3
    (by simp [getVariable, List.lookup])
  ⟨h.1, h.2.2.2⟩

/-- C23. For the exponential distribution whose member variable `rate` has
the value `lambdaNew` and the stored value `lambdaOld`, and any real value `x`:
`Dist_exp::lnLikelihoodRatio(x)` returns
`ln(lambdaNew) - ln(lambdaOld) + (lambdaOld - lambdaNew) * x`, and this equals
`lnPdf(x)` evaluated with the rate `lambdaNew` minus `lnPdf(x)` evaluated with
the rate `lambdaOld`, the value being the same in both, as an identity over the
reals. -/
theorem C23_lnLikelihoodRatio_is_density_ratio
    (members underNew underOld : List (String × Variable ℝ)) (lambdaNew lambdaOld x : ℝ)
    (hnew : (getVariable members "rate").bind (fun v => v.value) = some lambdaNew)
    (hold : (getVariable members "rate").bind (fun v => v.storedValue) = some lambdaOld)
    (h1 : (getVariable underNew "rate").bind (fun v => v.value) = some lambdaNew)
    (h2 : (getVariable underOld "rate").bind (fun v => v.value) = some lambdaOld) :
    Dist_exp.lnLikelihoodRatio Real.log members (some x)
      = some (Real.log lambdaNew - Real.log lambdaOld + (lambdaOld - lambdaNew) * x) ∧
    Dist_exp.lnPdf Real.log underNew (some x) = some (Real.log lambdaNew - lambdaNew * x) ∧
    Dist_exp.lnPdf Real.log underOld (some x) = some (Real.log lambdaOld - lambdaOld * x) ∧
    Real.log lambdaNew - Real.log lambdaOld + (lambdaOld - lambdaNew) * x
      = (Real.log lambdaNew - lambdaNew * x) - (Real.log lambdaOld - lambdaOld * x) := by
  refine ⟨?_, ?_, ?_, by ring⟩
  · simp [Dist_exp.lnLikelihoodRatio, hnew, hold]
  · simp [Dist_exp.lnPdf, h1]
  · simp [Dist_exp.lnPdf, h2]

/-- Witness of C23: the rate changed from 3 to 2, the value is 5. -/
theorem C23_lnLikelihoodRatio_is_density_ratio_witness :
    Dist_exp.lnLikelihoodRatio Real.log
      [("rate", ({ value := some 2, storedValue := some 3 } : Variable ℝ))] (some 5)
      = some (Real.log 2 - Real.log 3 + (3 - 2) * 5) ∧
    Real.log 2 - Real.log 3 + ((3 : ℝ) - 2) * 5
      = (Real.log 2 - 2 * 5) - (Real.log 3 - 3 * 5) :=
  have h := C23_lnLikelihoodRatio_is_density_ratio
    [("rate", ({ value := some 2, storedValue := some 3 } : Variable ℝ))]
    [("rate", ({ value := some 2, storedValue := some 3 } : Variable ℝ))]
    [("rate", ({ value := some 3, storedValue := some 3 } : Variable ℝ))] 2 3 5
    (by simp [getVariable, List.lookup]) (by simp [getVariable, List.lookup])
    (by simp [getVariable, List.lookup]) (by simp [getVariable, List.lookup])
  ⟨h.1, h.2.2.2⟩

/-! ## C26: cloneDAG terminates -/

theorem CloneInv.size_le_numNodes {V : Type} {g0 : DAG V} {s : NodeMap × DAG V}
    (h : CloneInv g0 s) : s.1.length ≤ g0.numNodes := by
  have hsub : s.1.map Prod.fst ⊆ (List.range g0.length).filter (fun k => (g0.node k).isSome) := by
    intro k hk
    obtain ⟨e, he1, he2⟩ := List.mem_map.mp hk
    obtain ⟨k0, c0⟩ := e
    simp only at he2
    subst he2
    obtain ⟨nd, _, hk0, _⟩ := h.copies k0 c0 he1
    exact List.mem_filter.mpr ⟨List.mem_range.mpr (h.key_lt he1), by simp [hk0]⟩
  have := (List.subperm_of_subset h.keys_nodup hsub).length_le
  simpa [DAG.numNodes] using this

/-- C26. On a finite heap of nodes of any class, without dangling pointers,
`cloneDAG` started at an existing node with an empty node map returns as soon
as the depth budget exceeds the number of addresses, whatever the shape of the
graph; the number
of clones it has created is the number of entries of the node map and is at
most the number of nodes.  In the middle of a run (any state that satisfies
the invariant `CloneInv`) a call returns too; it leaves the state as it is when
its node is already in the map, and otherwise the map has strictly grown; the
map only ever gains entries and never holds more entries than there are
nodes. -/
theorem C26_cloneDAG_terminates {V : Type} (g0 : DAG V) (fuel : Nat) (hW : Cloneable g0)
    (hfuel : g0.length < fuel) :
    (∀ root, (g0.node root).isSome = true → ∃ c newNodes g1,
      StochasticNode.cloneDAG fuel root ([], g0) = Except.ok (c, (newNodes, g1)) ∧
      g1.length - g0.length = newNodes.length ∧ newNodes.length ≤ g0.numNodes) ∧
    (∀ n s, CloneInv g0 s → (g0.node n).isSome = true → ∃ c s1,
      StochasticNode.cloneDAG fuel n s = Except.ok (c, s1) ∧
      (∃ added, s1.1 = added ++ s.1) ∧
      (n ∈ s.1.map Prod.fst → s1 = s) ∧
      (n ∉ s.1.map Prod.fst → s.1.length < s1.1.length) ∧
      s1.1.length ≤ g0.numNodes) := by
  have htotal := cloneDAG_total hW fuel 0 (by simpa using hfuel)
  have hmid : ∀ n s, CloneInv g0 s → (g0.node n).isSome = true → ∃ c s1,
      StochasticNode.cloneDAG fuel n s = Except.ok (c, s1) ∧ CloneInv g0 s1 ∧
      (∃ added, s1.1 = added ++ s.1) ∧
      (n ∈ s.1.map Prod.fst → s1 = s) ∧
      (n ∉ s.1.map Prod.fst → s.1.length < s1.1.length) := by
    intro n s hinv hn
    obtain ⟨c, s1, hcall, hinv1, _, ⟨added, hadd⟩, hnc, _⟩ := htotal n s hinv hn (Nat.zero_le _)
    refine ⟨c, s1, hcall, hinv1, ⟨added, hadd⟩, fun hk => ?_, fun hk => ?_⟩
    · obtain ⟨e, he1, he2⟩ := List.mem_map.mp hk
      obtain ⟨k0, c0⟩ := e
      simp only at he2
      subst he2
      have hl := mem_lookup hinv.keys_nodup he1
      cases fuel with
      | zero => exact absurd hfuel (Nat.not_lt_zero _)
      | succ fuel1 =>
        obtain ⟨m, g⟩ := s
        simp only [StochasticNode.cloneDAG, hl] at hcall
        injection hcall with hcall
        injection hcall with _ hcall
        exact hcall.symm
    · rw [hadd, List.length_append]
      cases added with
      | nil =>
        rw [List.nil_append] at hadd
        rw [hadd] at hnc
        exact absurd (List.mem_map.mpr ⟨(n, c), hnc, rfl⟩) hk
      | cons a rest => simp
  refine ⟨fun root hroot => ?_, fun n s hinv hn => ?_⟩
  · obtain ⟨c, s1, hcall, hinv1, _⟩ := hmid root ([], g0) (cloneInv_start g0) hroot
    obtain ⟨m, g1⟩ := s1
    refine ⟨c, m, g1, hcall, ?_, hinv1.size_le_numNodes⟩
    have := hinv1.count
    simp only at this
    rw [this, Nat.add_sub_cancel_left]
  · obtain ⟨c, s1, hcall, hinv1, hadd, h1, h2⟩ := hmid n s hinv hn
    exact ⟨c, s1, hcall, hadd, h1, h2, hinv1.size_le_numNodes⟩

/-- Witness of C26 on the diamond: the run from node 0 returns with 4 clones,
one for each of the 4 nodes; and so does the run from the constant node of
`exampleChain`, whose nodes are a constant node, a stochastic node, a
deterministic node and a stochastic node. -/
theorem C26_cloneDAG_terminates_witness :
    Cloneable exampleDiamond ∧ exampleDiamond.numNodes = 4 ∧
    (∃ c newNodes g1,
      StochasticNode.cloneDAG 5 0 ([], exampleDiamond) = Except.ok (c, (newNodes, g1)) ∧
      g1.length - exampleDiamond.length = newNodes.length ∧
      newNodes.length ≤ exampleDiamond.numNodes) ∧
    Cloneable exampleChain ∧ exampleChain.numNodes = 4 ∧
    (∃ c newNodes g1,
      StochasticNode.cloneDAG 5 0 ([], exampleChain) = Except.ok (c, (newNodes, g1)) ∧
      g1.length - exampleChain.length = newNodes.length ∧
      newNodes.length ≤ exampleChain.numNodes) ∧
    (∃ c g1, StochasticNode.cloneDAG 5 0 ([], exampleChain)
      = Except.ok (c, ([(3, 7), (2, 6), (1, 5), (0, 4)], g1))) :=
  ⟨by decide, by decide,
   (C26_cloneDAG_terminates exampleDiamond 5 (by decide) (by decide)).1 0 (by decide),
   by decide, by decide,
   (C26_cloneDAG_terminates exampleChain 5 (by decide) (by decide)).1 0 (by decide),
   ⟨_, _, rfl⟩⟩

/-! ## C27: swapParentNode and the parameters of the distribution -/

/-- C27, the code at the failing input `exampleDoubleBinding`, where the
parents of every node are the nodes its parameters refer to and node 0 is
bound to both parameters of node 1.  `swapParentNode(node 0, node 2)` on node 1
returns; node 0 is no longer a parent of node 1 and node 1 is no longer its
child, node 2 is the parent, the parameter `shape` refers to node 2, but the
parameter `rate` still refers to node 0: the search loop stops at the first
parameter that refers to the old node.  The parents of node 1 are no longer
the nodes its parameters refer to. -/
theorem C27_swapParentNode_leaves_second_binding :
    ParentsAreParams exampleDoubleBinding ∧
    ∃ g1, StochasticNode.swapParentNode 1 0 2 7 exampleDoubleBinding = Except.ok g1 ∧
      g1.parents 1 = [2] ∧ g1.children 0 = [] ∧ g1.children 2 = [1] ∧
      (g1.node 1).map (fun o => o.distribution)
        = some [("shape", some 2), ("rate", some 0)] ∧
      0 ∈ g1.params 1 ∧ 0 ∉ g1.parents 1 ∧ ¬ ParentsAreParams g1 := by
  refine ⟨?_, _, rfl, ?_, ?_, ?_, ?_, ?_, ?_, ?_⟩ <;> decide

/-! ## C28: the index of the `[]` method -/

/-- For an index between 1 and the number of taxa the position passed to
`getTaxonData` is `index - 1`, below the number of taxa; an index above the
number of taxa is rejected. -/
theorem squareBracket_in_range (numberOfTaxa : Nat) (index : Nat) (hi : index < 2 ^ 31) :
    (1 ≤ index → index ≤ numberOfTaxa →
      AbstractHomologousDiscreteCharacterData.executeMethod.squareBracket numberOfTaxa index
        = Except.ok (index - 1) ∧ index - 1 < numberOfTaxa) ∧
    (numberOfTaxa < index →
      AbstractHomologousDiscreteCharacterData.executeMethod.squareBracket numberOfTaxa index
        = Except.error "Index out of bounds in []") := by
  have h64 : (index : Int) % 2 ^ 64 = index := by
    apply Int.emod_eq_of_lt (Int.ofNat_nonneg _)
    have : index < 2 ^ 64 := Nat.lt_trans hi (by norm_num)
    exact_mod_cast this
  have hto : toSizeT index = index := by
    unfold toSizeT
    rw [h64]
    simp
  unfold AbstractHomologousDiscreteCharacterData.executeMethod.squareBracket
  rw [hto]
  constructor
  · intro h1 h2
    have h3 : ¬ numberOfTaxa < index := Nat.not_lt.mpr h2
    simp only [h3, if_false]
    have h4 : index + 2 ^ 64 - 1 = (index - 1) + 2 ^ 64 := by omega
    have h5 : index - 1 < 2 ^ 64 := by omega
    rw [h4, Nat.add_mod_right, Nat.mod_eq_of_lt h5]
    exact ⟨rfl, by omega⟩
  · intro h
    simp [h]

/-- C28, the code at the failing index 0.  Whatever the number of taxa, the
index 0 passes the bounds check, and the position passed to `getTaxonData` is
`0 - 1` in `size_t`, that is `2 ^ 64 - 1`, which is below no number of taxa
that a `size_t` can hold.  With 3 taxa the indices 1, 2 and 3 give the
positions 0, 1 and 2 and the index 4 is rejected. -/
theorem C28_index_zero_wraps :
    (∀ numberOfTaxa,
      AbstractHomologousDiscreteCharacterData.executeMethod.squareBracket numberOfTaxa 0
        = Except.ok (2 ^ 64 - 1)) ∧
    (∀ numberOfTaxa, numberOfTaxa < 2 ^ 64 → ¬ (2 ^ 64 - 1 < numberOfTaxa)) ∧
    AbstractHomologousDiscreteCharacterData.executeMethod.squareBracket 3 1 = Except.ok 0 ∧
    AbstractHomologousDiscreteCharacterData.executeMethod.squareBracket 3 3 = Except.ok 2 ∧
    AbstractHomologousDiscreteCharacterData.executeMethod.squareBracket 3 4
      = Except.error "Index out of bounds in []" := by
  refine ⟨fun n => ?_, fun n h => by omega, by rfl, by rfl, by rfl⟩
  simp [AbstractHomologousDiscreteCharacterData.executeMethod.squareBracket, toSizeT]

/-! ## C29: the reference count held by the wrapper -/

/-- C29, the code at the failing input: the wrapper holds the node `n`, whose
reference count is 1, and `setdag_node(n)` is called with that same node
(`replace` leaving the node object alone).  The decrement brings the count to
0 and the node is deleted before the wrapper is bound again; the increment
that follows addresses a deleted object. -/
theorem C29_setdag_node_same_node_deletes {V : Type}
    (replace : NodeId → Option NodeId → DAG V → DAG V) (g : DAG V) (n : NodeId)
    (nd : DAGNode V) (hnode : g.node n = some nd) (hcount : nd.refCount = 1)
    (hreplace : (replace n (some n) g).node n = g.node n) :
    (∃ g1, AbstractHomologousDiscreteCharacterData.setdag_node.release replace (some n)
        (some n) g = Except.ok g1 ∧ g1.node n = none) ∧
    AbstractHomologousDiscreteCharacterData.setdag_node replace (some n) (some n, g)
      = Except.error Failure.badPointer := by
  have hrel : AbstractHomologousDiscreteCharacterData.setdag_node.release replace (some n)
      (some n) g = Except.ok (deleteNode n
        ((replace n (some n) g).store n { nd with refCount := 0 })) := by
    rw [hnode] at hreplace
    simp [AbstractHomologousDiscreteCharacterData.setdag_node.release,
      DAGNode.decrementReferenceCount, hreplace, hcount]
  have hgone : (deleteNode n
      ((replace n (some n) g).store n { nd with refCount := 0 })).node n = none := by
    simp [deleteNode, node_free]
  refine ⟨⟨_, hrel, hgone⟩, ?_⟩
  simp only [AbstractHomologousDiscreteCharacterData.setdag_node, hrel, hgone]

/-- Witness of C29 on `exampleHeld`; for comparison, rebinding the wrapper of
`exampleHeldAndNew` from node 0 to the different node 1 deletes node 0 and
leaves node 1 with count 1. -/
theorem C29_setdag_node_same_node_deletes_witness :
    (∃ g1, AbstractHomologousDiscreteCharacterData.setdag_node.release (fun _ _ g => g)
        (some 0) (some 0) exampleHeld = Except.ok g1 ∧ g1.node 0 = none) ∧
    AbstractHomologousDiscreteCharacterData.setdag_node (fun _ _ g => g) (some 0)
        (some 0, exampleHeld) = Except.error Failure.badPointer ∧
    ∃ g1, AbstractHomologousDiscreteCharacterData.setdag_node (fun _ _ g => g) (some 1)
        (some 0, exampleHeldAndNew) = Except.ok (some 1, g1) ∧
      g1.node 0 = none ∧ (g1.node 1).map (fun o => o.refCount) = some 1 :=
  have h := C29_setdag_node_same_node_deletes (fun _ _ g => g) exampleHeld 0
    { exampleNode DAGType.ConstantNode [] [] [] 2 none false false with refCount := 1 }
    (by decide) (by decide) (by decide)
  ⟨h.1, h.2, _, rfl, by decide, by decide⟩

/-! ## C30: the merge of the descendant likelihoods -/

theorem getD_set_ne {R : Type} (l : List R) (i j : Nat) (a d : R) (h : i ≠ j) :
    (l.set i a).getD j d = l.getD j d := by
  simp [List.getD, List.getElem?_set_ne h]

/-- The merge loop of `computeNodeProbability` never writes the entries of the
rate category 0. -/
theorem mergeDescendants_category_zero {R : Type} [Field R] (n : Nat) (eventMap : EventMap R)
    (leftStates rightStates : List R) :
    (CharacterDependentCladoBirthDeathProcess.computeNodeProbability.mergeDescendants n eventMap
      leftStates rightStates).getD 0 0 = 0 ∧
    (CharacterDependentCladoBirthDeathProcess.computeNodeProbability.mergeDescendants n eventMap
      leftStates rightStates).getD n 0 = 0 := by
  unfold CharacterDependentCladoBirthDeathProcess.computeNodeProbability.mergeDescendants
  have hinv : ∀ (is : List Nat) (st : List R), (∀ i ∈ is, 1 ≤ i ∧ i < n) →
      st.getD 0 0 = 0 → st.getD n 0 = 0 →
      (is.foldl (fun initial_state i =>
        (initial_state.set i (leftStates.getD i 0)).set (n + i)
          (0.5 * CharacterDependentCladoBirthDeathProcess.computeNodeProbability.likeSum n
            eventMap leftStates rightStates i)) st).getD 0 0 = 0 ∧
      (is.foldl (fun initial_state i =>
        (initial_state.set i (leftStates.getD i 0)).set (n + i)
          (0.5 * CharacterDependentCladoBirthDeathProcess.computeNodeProbability.likeSum n
            eventMap leftStates rightStates i)) st).getD n 0 = 0 := by
    intro is
    induction is with
    | nil => intro st _ h0 hn; exact ⟨h0, hn⟩
    | cons i rest ih =>
      intro st hall h0 hn
      obtain ⟨h1, h2⟩ := hall i (List.mem_cons_self _ _)
      simp only [List.foldl_cons]
      apply ih _ (fun j hj => hall j (List.mem_cons_of_mem _ hj))
      · rw [getD_set_ne _ _ _ _ _ (by omega), getD_set_ne _ _ _ _ _ (by omega), h0]
      · rw [getD_set_ne _ _ _ _ _ (by omega), getD_set_ne _ _ _ _ _ (by omega), hn]
  apply hinv
  · intro i hi
    rw [List.mem_range'_1] at hi
    omega
  · cases n <;> simp [List.getD]
  · simp [List.getD]
/-- C30, the code at a failing input with two rate categories.  Whatever the
inputs, the merge loop of `computeNodeProbability`, which starts at `i = 1`,
leaves the entries `0` and `num_rate_categories + 0` of the start state at 0.
With the events `(0,0,0)` of rate 3 and `(1,1,1)` of rate 5, the left states
`[1/2, 1/3, 1/5, 1/7]` and the right states `[1/2, 1/3, 1/11, 1/13]` the start
state is `[0, 1/3, 0, 5/91]`, while `leftStates[0]` is `1/2` and the merge of
category 0 is `0.5 * 3 * (1/5 * 1/11 + 1/5 * 1/11) = 3/55`; the loop of
`computeRootLikelihood`, which starts at `i = 0`, does include category 0. -/
theorem C30_merge_skips_category_zero :
    (∀ (n : Nat) (eventMap : EventMap ℚ) (leftStates rightStates : List ℚ),
      (CharacterDependentCladoBirthDeathProcess.computeNodeProbability.mergeDescendants n
        eventMap leftStates rightStates).getD 0 0 = 0 ∧
      (CharacterDependentCladoBirthDeathProcess.computeNodeProbability.mergeDescendants n
        eventMap leftStates rightStates).getD n 0 = 0) ∧
    CharacterDependentCladoBirthDeathProcess.computeNodeProbability.mergeDescendants 2
      [([0, 0, 0], (3 : ℚ)), ([1, 1, 1], 5)] [1/2, 1/3, 1/5, 1/7] [1/2, 1/3, 1/11, 1/13]
      = [0, 1/3, 0, 5/91] ∧
    0.5 * CharacterDependentCladoBirthDeathProcess.computeNodeProbability.likeSum 2
      [([0, 0, 0], (3 : ℚ)), ([1, 1, 1], 5)] [1/2, 1/3, 1/5, 1/7] [1/2, 1/3, 1/11, 1/13] 0
      = 3/55 ∧
    CharacterDependentCladoBirthDeathProcess.computeRootLikelihood.prob 2
      [([0, 0, 0], (3 : ℚ)), ([1, 1, 1], 5)] [1, 0] [1/2, 1/3, 1/5, 1/7] [1/2, 1/3, 1/11, 1/13]
      = 3/55 := by
  refine ⟨fun n eventMap leftStates rightStates =>
    mergeDescendants_category_zero n eventMap leftStates rightStates, ?_, ?_, ?_⟩
  · norm_num [CharacterDependentCladoBirthDeathProcess.computeNodeProbability.mergeDescendants,
      CharacterDependentCladoBirthDeathProcess.computeNodeProbability.likeSum, List.range',
      List.getD, List.replicate, List.set]
  · norm_num [CharacterDependentCladoBirthDeathProcess.computeNodeProbability.likeSum, List.getD]
  · norm_num [CharacterDependentCladoBirthDeathProcess.computeRootLikelihood.prob,
      CharacterDependentCladoBirthDeathProcess.computeRootLikelihood.likeSum, List.range',
      List.getD]

/-! ## C24: trees that computeLnProbability rejects -/

theorem agesInOrder_false {R : Type} [LinearOrderedField R] (nodes : List (TopologyNode R))
    (h : ∃ n ∈ nodes, n.isRoot = false ∧ n.isSampledAncestor = false ∧ n.parentAge < n.age) :
    CharacterDependentCladoBirthDeathProcess.computeLnProbability.agesInOrder nodes = false := by
  induction nodes with
  | nil => simp at h
  | cons a rest ih =>
    obtain ⟨n, hn, h1, h2, h3⟩ := h
    unfold CharacterDependentCladoBirthDeathProcess.computeLnProbability.agesInOrder
    rcases List.mem_cons.mp hn with e | hn
    · subst e
      have : n.age - n.parentAge > 0 := sub_pos.mpr h3
      simp [h1, h2, this]
    · have hr := ih ⟨n, hn, h1, h2, h3⟩
      split
      · split
        · rfl
        · split
          · rfl
          · exact hr
      · exact hr

theorem sampledAncestorsOk_false {R : Type} [LinearOrderedField R]
    (nodes : List (TopologyNode R))
    (h : ∃ n ∈ nodes, n.isSampledAncestor = true ∧ (n.isFossil = false ∨ 1E-6 < n.branchLength)) :
    CharacterDependentCladoBirthDeathProcess.computeLnProbability.sampledAncestorsOk nodes
      = false := by
  induction nodes with
  | nil => simp at h
  | cons a rest ih =>
    obtain ⟨n, hn, h1, h2⟩ := h
    unfold CharacterDependentCladoBirthDeathProcess.computeLnProbability.sampledAncestorsOk
    rcases List.mem_cons.mp hn with e | hn
    · subst e
      simp only [h1, if_true]
      rcases h2 with h2 | h2
      · simp [h2]
      · split
        · rfl
        · simp [h2]
    · have hr := ih ⟨n, hn, h1, h2⟩
      split
      · split
        · rfl
        · split
          · rfl
          · exact hr
      · exact hr

/-- C24. `computeLnProbability` returns negative infinity, with no `throw` on
the way and whatever the conditioning setting and whatever
`computeRootLikelihood` would do, for every tree in which some non-root node
that is not a sampled ancestor is older than its parent, or in which a
sampled-ancestor node is not a fossil or has a branch length above `1e-6`, or
whose root age differs from the `root_age` parameter.  Ages are taken in a
linearly ordered field. -/
theorem C24_computeLnProbability_neginf {R : Type} [LinearOrderedField R]
    (computeRootLikelihood : CharacterDependentCladoBirthDeathProcess R →
      Except String (WithBot R × CharacterDependentCladoBirthDeathProcess R))
    (value : Tree R) (p : CharacterDependentCladoBirthDeathProcess R)
    (h : (∃ n ∈ value.nodes,
            n.isRoot = false ∧ n.isSampledAncestor = false ∧ n.parentAge < n.age) ∨
         (∃ n ∈ value.nodes,
            n.isSampledAncestor = true ∧ (n.isFossil = false ∨ 1E-6 < n.branchLength)) ∨
         value.rootAge ≠ p.root_age) :
    CharacterDependentCladoBirthDeathProcess.computeLnProbability computeRootLikelihood value p
      = Except.ok (⊥, p.prepareProbComputation) := by
  unfold CharacterDependentCladoBirthDeathProcess.computeLnProbability
  simp only
  rcases h with h | h | h
  · rw [agesInOrder_false _ h]
    simp
  · rw [sampledAncestorsOk_false _ h]
    split
    · rfl
    · simp
  · have h2 : value.rootAge ≠ p.prepareProbComputation.root_age := h
    split
    · rfl
    · split
      · rfl
      · simp [h2]

/-- Witness of C24 on `exampleOlderChild`, where the tip with index 1 is older
than its parent: the conditioning of `exampleProcess` is not "time" and
`computeRootLikelihood` would throw, and the call returns negative
infinity. -/
theorem C24_computeLnProbability_neginf_witness :
    (∃ n ∈ exampleOlderChild.nodes,
      n.isRoot = false ∧ n.isSampledAncestor = false ∧ n.parentAge < n.age) ∧
    exampleProcess.condition ≠ "time" ∧
    CharacterDependentCladoBirthDeathProcess.computeLnProbability
      (fun _ => Except.error "not reached") exampleOlderChild exampleProcess
      = Except.ok (⊥, exampleProcess.prepareProbComputation) :=
  have h : ∃ n ∈ exampleOlderChild.nodes,
      n.isRoot = false ∧ n.isSampledAncestor = false ∧ n.parentAge < n.age :=
    ⟨{ index := 1, isRoot := false, age := 12, parentAge := 10,
       isSampledAncestor := false, isFossil := false, branchLength := 2 },
      by simp [exampleOlderChild], rfl, rfl, by norm_num⟩
  ⟨h, by decide, C24_computeLnProbability_neginf _ _ _ (Or.inl h)⟩

/-! ## C25: the stored value and the clamped flag

The lemmas of this section show, operation by operation, that the predicate is
kept on the node an operation is called on; the theorem at the end evaluates
the one path that does not keep it. -/

/-- A field update that leaves the projection `q` of a node object alone
leaves it alone at every address. -/
theorem proj_modify {V α : Type} (q : DAGNode V → α) (f : DAGNode V → DAGNode V)
    (hf : ∀ nd, q (f nd) = q nd) (g : DAG V) (n k : NodeId) :
    ((g.modify n f).node k).map q = (g.node k).map q := by
  rw [node_modify]
  by_cases e : k = n
  · subst e
    cases g.node k <;> simp [hf]
  · simp [e]

theorem proj_addChildNode {V α : Type} (q : DAGNode V → α)
    (hq : ∀ (nd : DAGNode V) cs fr b, q { nd with children := cs } = q nd ∧
      q { nd with factorRoot := fr } = q nd ∧
      q { nd with needsLikelihoodRecalculation := b } = q nd)
    (this c : NodeId) (g : DAG V) (k : NodeId) :
    ((DAGNode.addChildNode this c g).node k).map q = (g.node k).map q := by
  unfold DAGNode.addChildNode
  cases h : g.node this with
  | none => rfl
  | some nd =>
    have hst : g.store this { nd with children := setInsert c nd.children }
        = g.modify this (fun t => { t with children := setInsert c t.children }) := by
      rw [modify_eq_store h]
    simp only [hst]
    split
    · rw [proj_modify q _ (fun t => (hq t [] none true).2.2),
        proj_modify q _ (fun t => (hq t [] nd.factorRoot true).2.1),
        proj_modify q _ (fun t => (hq t _ none true).1)]
    · rw [proj_modify q _ (fun t => (hq t _ none true).1)]

theorem proj_removeChildNode {V α : Type} (q : DAGNode V → α)
    (hq : ∀ (nd : DAGNode V) cs fr b, q { nd with children := cs } = q nd ∧
      q { nd with factorRoot := fr } = q nd ∧
      q { nd with needsLikelihoodRecalculation := b } = q nd)
    (this c : NodeId) (g : DAG V) (k : NodeId) :
    ((DAGNode.removeChildNode this c g).node k).map q = (g.node k).map q := by
  unfold DAGNode.removeChildNode
  apply proj_modify
  intro nd
  split
  · exact (hq nd _ none true).1
  · rfl

theorem proj_setParents {V α : Type} (q : DAGNode V → α)
    (hq : ∀ (nd : DAGNode V) cs fr b, q { nd with children := cs } = q nd ∧
      q { nd with factorRoot := fr } = q nd ∧
      q { nd with needsLikelihoodRecalculation := b } = q nd)
    (hp : ∀ (nd : DAGNode V) ps, q { nd with parents := ps } = q nd)
    (this : NodeId) (table : VariableTable) (g : DAG V) (k : NodeId) :
    ((StochasticNode.setParents this table g).node k).map q = (g.node k).map q := by
  induction table generalizing g with
  | nil => rfl
  | cons e rest ih =>
    obtain ⟨name, ref⟩ := e
    cases ref with
    | none => exact ih g
    | some p =>
      unfold StochasticNode.setParents
      rw [ih, proj_addChildNode q hq, proj_modify q _ (fun t => hp t _)]

/-- The projection of a node object that C25 is about. -/
theorem rollback_fields {V : Type} :
    (∀ (nd : DAGNode V) cs fr b,
      (fun o : DAGNode V => (o.storedValue, o.clamped)) { nd with children := cs }
        = (fun o : DAGNode V => (o.storedValue, o.clamped)) nd ∧
      (fun o : DAGNode V => (o.storedValue, o.clamped)) { nd with factorRoot := fr }
        = (fun o : DAGNode V => (o.storedValue, o.clamped)) nd ∧
      (fun o : DAGNode V => (o.storedValue, o.clamped))
          { nd with needsLikelihoodRecalculation := b }
        = (fun o : DAGNode V => (o.storedValue, o.clamped)) nd) ∧
    (∀ (nd : DAGNode V) ps,
      (fun o : DAGNode V => (o.storedValue, o.clamped)) { nd with parents := ps }
        = (fun o : DAGNode V => (o.storedValue, o.clamped)) nd) :=
  ⟨fun _ _ _ _ => ⟨rfl, rfl, rfl⟩, fun _ _ => rfl⟩

theorem hasRollback_of_fields {V : Type} {g : DAG V} {k : NodeId} {sv : Option V} {cl : Bool}
    (h : (g.node k).map (fun o => (o.storedValue, o.clamped)) = some (sv, cl))
    (hr : sv = none ↔ cl = true) : ∃ o, g.node k = some o ∧ HasRollback o := by
  cases hk : g.node k with
  | none => simp [hk] at h
  | some o =>
    simp only [hk, Option.map_some', Option.some.injEq, Prod.mk.injEq] at h
    refine ⟨o, rfl, ?_⟩
    unfold HasRollback
    rw [h.1, h.2]
    exact hr

theorem construct_rollback {V : Type} (fuel : Nat) (dist : VariableTable) (rv : V) (g : DAG V)
    (this : NodeId) (g1 : DAG V)
    (h : StochasticNode.construct fuel dist rv g = Except.ok (this, g1)) :
    ∃ o, g1.node this = some o ∧ HasRollback o := by
  unfold StochasticNode.construct at h
  simp only [DAG.alloc] at h
  split at h
  · cases h
  · cases h
  · injection h with h
    injection h with h1 h2
    subst h1 h2
    refine @hasRollback_of_fields V _ _ (some rv) false ?_ ?_
    · rw [proj_setParents _ rollback_fields.1 rollback_fields.2]
      have := node_alloc g (StochasticNode.pristine dist rv (some rv) false) g.length
      simp only [DAG.alloc, if_true] at this
      rw [this]
      rfl
    · simp

theorem copyConstruct_rollback {V : Type} (touched : Bool) (x : NodeId) (g : DAG V)
    (this : NodeId) (g1 : DAG V)
    (h : StochasticNode.copyConstruct touched x g = Except.ok (this, g1)) :
    ∃ o, g1.node this = some o ∧ HasRollback o := by
  unfold StochasticNode.copyConstruct at h
  cases hx : g.stochastic x with
  | none => simp [hx] at h
  | some xd =>
    simp only [hx, DAG.alloc] at h
    split at h
    · injection h with h
      injection h with h1 h2
      subst h1 h2
      refine @hasRollback_of_fields V _ _ (if xd.clamped = false then some xd.value else none)
        xd.clamped ?_ ?_
      · rw [proj_setParents _ rollback_fields.1 rollback_fields.2]
        have := node_alloc g ({ StochasticNode.pristine xd.distribution xd.value
            (if xd.clamped = false then some xd.value else none) xd.clamped
          with touched := touched }) g.length
        simp only [DAG.alloc, if_true] at this
        rw [this]
        rfl
      · cases xd.clamped <;> simp
    · cases h

theorem assign_rollback {V : Type} (typesMatch : Bool) (this x : NodeId) (g g1 : DAG V)
    (nd xd : DAGNode V) (hN : g.stochastic this = some nd) (hR : HasRollback nd)
    (hx : g.stochastic x = some xd) (hxR : HasRollback xd)
    (h : StochasticNode.assign typesMatch this x g = Except.ok g1) :
    ∃ o, g1.node this = some o ∧ HasRollback o := by
  unfold StochasticNode.assign at h
  obtain ⟨hnode, _⟩ := stochastic_some hN
  split at h
  · injection h with h
    subst h
    exact ⟨nd, hnode, hR⟩
  · simp only [hN, hx] at h
    split at h
    · cases h
    · split at h
      · injection h with h
        subst h
        have hex : ∀ (h0 : DAG V), (h0.node this).isSome = true →
            ∃ o, (h0.modify this (fun t =>
              { t with clamped := xd.clamped, value := xd.value,
                       storedValue := xd.storedValue })).node this = some o ∧ HasRollback o := by
          intro h0 hs
          obtain ⟨t, ht⟩ := Option.isSome_iff_exists.mp hs
          refine ⟨{ t with clamped := xd.clamped, value := xd.value,
                           storedValue := xd.storedValue }, ?_, hxR⟩
          rw [node_modify]
          simp [ht]
        apply hex
        have hq : ∀ (h0 : DAG V), (h0.node this).isSome
            = ((h0.node this).map (fun _ : DAGNode V => ())).isSome := by
          intro h0; cases h0.node this <;> rfl
        rw [hq, proj_setParents (fun _ : DAGNode V => ()) (fun _ _ _ _ => ⟨rfl, rfl, rfl⟩)
          (fun _ _ => rfl), proj_modify (fun _ : DAGNode V => ()) _ (fun _ => rfl)]
        have hfold : ∀ (ps : List NodeId) (h0 : DAG V),
            ((ps.foldl (fun acc p => DAGNode.removeChildNode p this acc) h0).node this).map
              (fun _ : DAGNode V => ()) = (h0.node this).map (fun _ : DAGNode V => ()) := by
          intro ps
          induction ps with
          | nil => intro h0; rfl
          | cons p rest ih =>
            intro h0
            simp only [List.foldl_cons]
            rw [ih, proj_removeChildNode (fun _ : DAGNode V => ()) (fun _ _ _ _ => ⟨rfl, rfl, rfl⟩)]
        rw [hfold, hnode]
        rfl
      · cases h

theorem clamp_rollback {V : Type} (g : DAG V) (n : NodeId) (nd : DAGNode V) (v : V)
    (hN : g.stochastic n = some nd) (hself : ∀ c ∈ nd.children, n ∉ g.children c) :
    ∃ g1 o, StochasticNode.clamp n v g = Except.ok g1 ∧ g1.node n = some o ∧ HasRollback o := by
  obtain ⟨hnode, _⟩ := stochastic_some hN
  have hshape0 : SameShape g (g.store n
      { nd with value := v, storedValue := none, clamped := true, touched := false }) :=
    sameShape_store hnode rfl
  obtain ⟨_, hframe⟩ := foldl_call_frame callTouchAffected callTouchAffected_frame
    nd.children (g.store n
      { nd with value := v, storedValue := none, clamped := true, touched := false })
  have hn := hframe n (by
    intro c hc
    rw [hshape0.children]
    exact hself c hc)
  rw [node_store] at hn
  simp only [node_some_lt hnode, if_true] at hn
  exact ⟨_, _, by simp [StochasticNode.clamp, hN], hn, by simp [HasRollback]⟩

theorem unclamp_rollback {V : Type} (g : DAG V) (n : NodeId) (nd : DAGNode V)
    (hN : g.stochastic n = some nd) :
    ∃ g1 o, StochasticNode.unclamp n g = Except.ok g1 ∧ g1.node n = some o ∧ HasRollback o := by
  obtain ⟨hnode, _⟩ := stochastic_some hN
  exact ⟨_, { nd with clamped := false, storedValue := some nd.value },
    by simp [StochasticNode.unclamp, hN]; rfl, by simp [node_store, node_some_lt hnode],
    by simp [HasRollback]⟩

theorem setValue_rollback {V : Type} (g g1 : DAG V) (n : NodeId) (nd : DAGNode V) (x : V)
    (hN : g.stochastic n = some nd) (h : StochasticNode.setValue n x g = Except.ok g1) :
    ∃ o, g1.node n = some o ∧ HasRollback o := by
  obtain ⟨hnode, _⟩ := stochastic_some hN
  unfold StochasticNode.setValue at h
  simp only [hN] at h
  split at h
  · cases h
  · next hc =>
    injection h with h
    subst h
    obtain ⟨o, ho, h1, h2⟩ := callTouchAffected_inv
      (fun o => o.storedValue ≠ none ∧ o.clamped = false)
      (fun o ⟨h1, h2⟩ => by
        obtain ⟨_, t2, _, t4⟩ := touchMeObject_value o
        refine ⟨?_, t2.trans h2⟩
        rcases t4 with t4 | t4
        · rw [t4]; exact h1
        · rw [t4]; simp)
      nd.children (g.store n { nd with value := x, storedValue := some x }) n
      ⟨{ nd with value := x, storedValue := some x },
        by simp [node_store, node_some_lt hnode], by simp, by simpa using hc⟩
    refine ⟨o, ho, ?_⟩
    unfold HasRollback
    simp [h1, h2]

/-- After a loop of propagation calls a node has received the node-local
update or is as before. -/
theorem foldl_call_cases {V : Type} (f : DAGNode V → DAGNode V) (hf : ∀ nd, f (f nd) = f nd)
    (call : NodeId → DAG V → DAG V) (sel : DAG V → NodeId → Prop)
    (hsel : ∀ g g1 c, SameShape g g1 → (sel g1 c ↔ sel g c))
    (hshape : ∀ c g, SameShape g (call c g))
    (hcall : ∀ c g k,
      (sel g c ∧ k ∈ g.children c → (call c g).node k = (g.node k).map f) ∧
      (¬ (sel g c ∧ k ∈ g.children c) → (call c g).node k = g.node k))
    (cs : List NodeId) (g : DAG V) (k : NodeId) :
    (cs.foldl (fun acc c => call c acc) g).node k = (g.node k).map f ∨
    (cs.foldl (fun acc c => call c acc) g).node k = g.node k := by
  obtain ⟨a1, a2⟩ := foldl_call_node f hf call sel hsel hshape hcall cs g k
  by_cases hp : ∃ c ∈ cs, sel g c ∧ k ∈ g.children c
  · exact Or.inl (a1 hp)
  · exact Or.inr (a2 hp)

theorem keep_rollback {V : Type} (g : DAG V) (n : NodeId) (nd : DAGNode V) (newValue : V)
    (hN : g.stochastic n = some nd) (hc : nd.clamped = false)
    (hself : ∀ c ∈ nd.children, n ∉ g.children c) :
    ∃ g2 o, StochasticNode.keep n
        (writeThroughValuePtr n newValue (g.store n { nd with touched := true })) = Except.ok g2 ∧
      g2.node n = some o ∧ HasRollback o := by
  obtain ⟨hnode, htype⟩ := stochastic_some hN
  have hlen := node_some_lt hnode
  have hnode1 : (g.store n { nd with touched := true }).node n
      = some { nd with touched := true } := by simp [node_store, hlen]
  have hwrite : writeThroughValuePtr n newValue (g.store n { nd with touched := true })
      = g.store n { nd with touched := true, value := newValue } := by
    simp [writeThroughValuePtr, DAG.modify, hnode1, store_store]
  have hst : (g.store n { nd with touched := true, value := newValue }).stochastic n
      = some { nd with touched := true, value := newValue } :=
    stochastic_of_node (by simp [node_store, hlen]) htype
  obtain ⟨_, hframe⟩ := foldl_call_frame callKeepAffected callKeepAffected_frame
    nd.children (g.store n
      { nd with touched := false, value := newValue, storedValue := some newValue })
  have hn := hframe n (by
    intro c hcc
    have e : (g.store n
        { nd with touched := false, value := newValue, storedValue := some newValue }).children c
        = g.children c := by
      apply children_store hnode
      rfl
    rw [e]
    exact hself c hcc)
  rw [node_store] at hn
  simp only [hlen, if_true] at hn
  refine ⟨_, _, ?_, hn, by simp [HasRollback, hc]⟩
  rw [hwrite]
  simp [StochasticNode.keep, hst, store_store]

theorem restore_rollback {V : Type} (g : DAG V) (n : NodeId) (nd : DAGNode V) (newValue : V)
    (hN : g.stochastic n = some nd) (hc : nd.clamped = false) (hR : HasRollback nd) :
    ∃ g3 o, StochasticNode.restore n
        (writeThroughValuePtr n newValue (g.store n { nd with touched := true })) = Except.ok g3 ∧
      g3.node n = some o ∧ HasRollback o := by
  obtain ⟨hnode, htype⟩ := stochastic_some hN
  have hlen := node_some_lt hnode
  have hsv : ∃ sv, nd.storedValue = some sv := by
    cases hs : nd.storedValue with
    | none =>
      have := hR.mp hs
      rw [hc] at this
      cases this
    | some sv => exact ⟨sv, rfl⟩
  obtain ⟨sv, hsv⟩ := hsv
  have hnode1 : (g.store n { nd with touched := true }).node n
      = some { nd with touched := true } := by simp [node_store, hlen]
  have hwrite : writeThroughValuePtr n newValue (g.store n { nd with touched := true })
      = g.store n { nd with touched := true, value := newValue } := by
    simp [writeThroughValuePtr, DAG.modify, hnode1, store_store]
  have hst : (g.store n { nd with touched := true, value := newValue }).stochastic n
      = some { nd with touched := true, value := newValue } :=
    stochastic_of_node (by simp [node_store, hlen]) htype
  have hstart : (g.store n { nd with touched := false, value := sv }).node n
      = some { nd with touched := false, value := sv } := by simp [node_store, hlen]
  have hcases := foldl_call_cases restoreMeObject restoreMeObject_idem callRestoreAffected
    (fun h c => (h.node c).map (fun x => x.dagType) ≠ some DAGType.StochasticNode)
    passes_sameShape (fun c h => (callRestoreAffected_frame c h).1) callRestoreAffected_node
    nd.children (g.store n { nd with touched := false, value := sv }) n
  have hfix : restoreMeObject ({ nd with touched := false, value := sv } : DAGNode V)
      = { nd with touched := false, value := sv } := by
    unfold restoreMeObject
    simp [htype]
  have hn : (nd.children.foldl (fun acc c => callRestoreAffected c acc)
      (g.store n { nd with touched := false, value := sv })).node n
      = some { nd with touched := false, value := sv } := by
    rcases hcases with h | h
    · rw [h, hstart]
      simp [hfix]
    · rw [h, hstart]
  refine ⟨_, _, ?_, hn, hR⟩
  rw [hwrite]
  unfold StochasticNode.restore
  rw [hst]
  simp only [if_true]
  rw [hsv]
  simp [store_store]

theorem swapParentNode_rollback {V : Type} (g g1 : DAG V) (n oldP newP : NodeId) (rv : V)
    (nd : DAGNode V) (hN : g.stochastic n = some nd) (hR : HasRollback nd)
    (h : StochasticNode.swapParentNode n oldP newP rv g = Except.ok g1)
    (hself : nd.clamped = true → ∀ c ∈ g1.children n, n ∉ g1.children c) :
    ∃ o, g1.node n = some o ∧ HasRollback o := by
  obtain ⟨hnode, _⟩ := stochastic_some hN
  unfold StochasticNode.swapParentNode at h
  simp only [hN] at h
  split at h
  · cases h
  · split at h
    · split at h
      · cases h
      · next name _ =>
        injection h with h
        have h4 : ((((DAGNode.addChildNode newP n (DAGNode.removeChildNode oldP n g)).modify n
            (fun t => { t with parents := setInsert newP (setErase oldP t.parents) })).modify n
            (fun t => { t with distribution := setVariable name (some newP) t.distribution })).node
              n).map (fun o : DAGNode V => (o.storedValue, o.clamped))
            = some (nd.storedValue, nd.clamped) := by
          rw [proj_modify, proj_modify, proj_addChildNode, proj_removeChildNode, hnode]
          · rfl
          · exact rollback_fields.1
          · exact rollback_fields.1
          · intro _; rfl
          · intro _; rfl
        generalize (((DAGNode.addChildNode newP n (DAGNode.removeChildNode oldP n g)).modify n
            (fun t => { t with parents := setInsert newP (setErase oldP t.parents) })).modify n
            (fun t => { t with distribution := setVariable name (some newP) t.distribution }))
          = g4 at h h4
        cases ht : g4.node n with
        | none => simp [ht] at h4
        | some t =>
          simp only [ht, Option.map_some', Option.some.injEq, Prod.mk.injEq] at h4
          obtain ⟨hsv, hcl⟩ := h4
          have h5 : (g4.modify n (fun t =>
              if t.clamped = false then { t with value := rv, storedValue := some rv } else t)).node n
              = some (if t.clamped = false then { t with value := rv, storedValue := some rv }
                  else t) := by
            rw [node_modify]
            simp [ht]
          generalize g4.modify n (fun t =>
              if t.clamped = false then { t with value := rv, storedValue := some rv } else t)
            = g5 at h h5
          cases hc : nd.clamped with
          | false =>
            rw [hc] at hcl
            simp only [hcl, if_true] at h5
            obtain ⟨o, ho, h1, h2⟩ := callTouchAffected_inv
              (fun o => o.storedValue ≠ none ∧ o.clamped = false)
              (fun o ⟨h1, h2⟩ => by
                obtain ⟨_, t2, _, t4⟩ := touchMeObject_value o
                refine ⟨?_, t2.trans h2⟩
                rcases t4 with t4 | t4
                · rw [t4]; exact h1
                · rw [t4]; simp)
              (g5.children n) g5 n ⟨_, h5, by simp, by simp⟩
            rw [h] at ho
            refine ⟨o, ho, ?_⟩
            unfold HasRollback
            simp [h1, h2]
          | true =>
            rw [hc] at hcl
            simp only [hcl, Bool.true_eq_false, if_false] at h5
            obtain ⟨hs, hframe⟩ := foldl_call_frame callTouchAffected callTouchAffected_frame
              (g5.children n) g5
            rw [h] at hs hframe
            have hn := hframe n (by
              intro c hcc
              rw [← hs.children c]
              apply hself hc
              rw [hs.children n]
              exact hcc)
            refine ⟨t, hn.trans h5, ?_⟩
            unfold HasRollback at hR ⊢
            rw [hsv, hcl]
            rw [hc] at hR
            exact hR
    · cases h

theorem isCopyOf_rollback {V : Type} {nd cn : DAGNode V} (h : IsCopyOf nd cn)
    (hR : HasRollback nd) : HasRollback cn := by
  obtain ⟨_, _, hc, hs, _⟩ := h
  unfold HasRollback at hR ⊢
  rw [hs, hc, ← hR]
  split <;> cases nd.storedValue <;> simp

theorem cloneDAG_rollback {V : Type} {g : DAG V} (hW : Cloneable g) (n fuel : NodeId)
    (nd : DAGNode V) (hN : g.stochastic n = some nd) (hR : HasRollback nd)
    (hfuel : g.length < fuel) :
    ∃ c newNodes g1,
      StochasticNode.cloneDAG fuel n ([], g) = Except.ok (c, (newNodes, g1)) ∧
      g1.node n = some nd ∧ (∃ cn, g1.node c = some cn ∧ HasRollback cn) ∧
      ∀ k cl kd, (k, cl) ∈ newNodes → g.node k = some kd → HasRollback kd →
        g1.node k = some kd ∧ ∃ cn, g1.node cl = some cn ∧ HasRollback cn := by
  obtain ⟨hnode, _⟩ := stochastic_some hN
  obtain ⟨c, newNodes, g1, hcall, hinv, hroot, _⟩ :=
    cloneDAG_run hW n fuel (by simp [hnode]) hfuel
  have hall : ∀ k cl kd, (k, cl) ∈ newNodes → g.node k = some kd → HasRollback kd →
      g1.node k = some kd ∧ ∃ cn, g1.node cl = some cn ∧ HasRollback cn := by
    intro k cl kd hk hkd hkR
    obtain ⟨kd1, cn, h1, h2, h3⟩ := hinv.copies k cl hk
    rw [hkd] at h1
    injection h1 with h1
    subst h1
    exact ⟨(hinv.originals k (node_some_lt hkd)).trans hkd, cn, h2, isCopyOf_rollback h3 hkR⟩
  obtain ⟨a, b⟩ := hall n c nd hroot hnode hR
  exact ⟨c, newNodes, g1, hcall, a, b, hall⟩
theorem getValuePtr_heap {V : Type} {fuel : Nat} {n : NodeId} {affected affected1 : List NodeId}
    {g g1 : DAG V} {nd : DAGNode V} {v : V} (hN : g.stochastic n = some nd)
    (h : StochasticNode.getValuePtr fuel n affected g = Except.ok (v, affected1, g1)) :
    g1 = g.store n { nd with touched := true } := by
  unfold StochasticNode.getValuePtr at h
  simp only [hN] at h
  split at h
  · cases h
  · injection h with h
    simp only [Prod.mk.injEq] at h
    exact h.2.2.symm

/-- C25, the code at the failing input `exampleClamped`: a single stochastic
node as `clamp(5)` leaves it, clamped and without a stored value, so that the
predicate "the stored value is absent if and only if the node is clamped" holds.
`getValuePtr` returns and marks the node touched.  A following `keep()` gives
the clamped node the stored value 5, so the predicate no longer holds; a
following `restore()` clones the absent stored value and fails. -/
theorem C25_clamped_touch_breaks_rollback :
    (∃ nd, exampleClamped.stochastic 0 = some nd ∧ HasRollback nd) ∧
    ∃ v affected g1,
      StochasticNode.getValuePtr 1 0 [] exampleClamped = Except.ok (v, affected, g1) ∧
      (∃ g2 o, StochasticNode.keep 0 g1 = Except.ok g2 ∧ g2.node 0 = some o ∧
        o.clamped = true ∧ o.storedValue = some 5 ∧ ¬ HasRollback o) ∧
      StochasticNode.restore 0 g1 = Except.error Failure.badPointer :=
  ⟨⟨_, rfl, by simp [HasRollback, exampleNode]⟩, _, _, _, rfl,
    ⟨_, _, rfl, rfl, rfl, rfl, by simp [HasRollback, exampleNode]⟩, rfl⟩

end RevBayes
